import Mathlib

/-!
# oculus-d3d11-simple: a verification development of `src/main.cpp`

Shallow embedding of the single translation unit of the demo.

Conventions of the embedding

* A finite `float` is embedded as the rational number it denotes (`ℚ`).  The arithmetic
  of the keyboard step, whose results are fed back frame after frame, is rounded to
  binary32 (`fl32`); elsewhere an expression denotes its exact value.  Where the source
  can produce the IEEE special values (the lighting term of `Model::AddSolidColorBox`)
  the value type is `FVal`, which adds `+∞` and NaN to the finite values.
* `uint16_t` values are natural numbers reduced `% 65536` where the source narrows.
* `int` values are integers.  The buffer offsets of the mip reduction are checked
  against `INT_MAX` (a run that leaves the range ends as `MipRun.overflow`); the frame
  counter `appClock` is left unbounded, which is exact for the first `2^31 - 1` frames.
* `std::vector` is `List`; `push_back` appends at the end.
* Functions of the C library and of the Oculus SDK that are not part of the
  repository (`sqrt`, `sin`, `cos`, `rand`, `ovrHmd_GetFloat`, ...) are parameters.
-/

namespace OculusD3D11

/-! ## Data model (main.cpp 106-141) -/

/-- The `Vector3f` of the SDK maths header: three scalars. -/
structure Vector3f where
  x : ℚ
  y : ℚ
  z : ℚ
  deriving DecidableEq

/-- The `Quatf` of the SDK maths header: `x, y, z, w`; default-constructed as identity. -/
structure Quatf where
  x : ℚ := 0
  y : ℚ := 0
  z : ℚ := 0
  w : ℚ := 1
  deriving DecidableEq

/-- The structure `Model::Color` (main.cpp 107-112): four `unsigned char` channels, alpha defaulting
to `0xff`. -/
structure Color where
  R : Nat := 0
  G : Nat := 0
  B : Nat := 0
  A : Nat := 255
  deriving DecidableEq

/-- The colour stored in a generated vertex.  Each of `R`, `G`, `B` is the result of a
`static_cast<unsigned char>` from `float`; it is `none` where the repository does not
fix the byte: C++ leaves the conversion undefined (a truncated value outside `0..255`),
or the value converted is the outcome of `min` on a NaN, on which the two readings of
`min` (see `MinReading`) differ.  `A` keeps the constructor default `0xff`. -/
structure VertexColor where
  R : Option Nat
  G : Option Nat
  B : Option Nat
  A : Nat := 255
  deriving DecidableEq

/-- The structure `Model::Vertex` (main.cpp 113-117). -/
structure Vertex where
  Pos : Vector3f
  C : VertexColor
  U : ℚ
  V : ℚ
  deriving DecidableEq

/-- The structure `Model` (main.cpp 106-133), without the GPU handles: pose, vertices, 16-bit indices,
and the index of the generated texture it refers to. -/
structure Model where
  Pos : Vector3f
  Rot : Quatf := {}
  Vertices : List Vertex := []
  Indices : List Nat := []
  texture : Nat := 0
  deriving DecidableEq

/-! ## IEEE special values for the lighting term -/

/-- A `float` value: a finite value (as the rational it denotes), `+∞`, or NaN.
`-∞` is left out: in the lighting term only positive numerators are divided and
only non-negative values are added or multiplied. -/
inductive FVal where
  | fin (q : ℚ)
  | inf
  | nan
  deriving DecidableEq

/-- The two meanings that the call `min(a, b)` of main.cpp 643-645 can have.  Under
`using namespace std` with `<algorithm>` it is `std::min`.  The Windows headers, which
`comdef.h` and `d3d11.h` bring in before `<algorithm>`, define a function-like macro
`min` unless the build defines `NOMINMAX`; where that macro is active the call is the
macro.  The build settings are not part of the repository, so the reading is a
parameter. -/
inductive MinReading where
  | stdMin
  | macroMin
  deriving DecidableEq

namespace FVal

/-- Float addition. -/
def add : FVal → FVal → FVal
  | fin a, fin b => fin (a + b)
  | nan, _ => nan
  | _, nan => nan
  | _, _ => inf

/-- Float multiplication by a non-negative finite factor on either side;
`0 * ∞` is NaN. -/
def mul : FVal → FVal → FVal
  | fin a, fin b => fin (a * b)
  | nan, _ => nan
  | _, nan => nan
  | fin a, inf => if a = 0 then nan else inf
  | inf, fin b => if b = 0 then nan else inf
  | inf, inf => inf

/-- Float division: a finite non-zero numerator over zero is `∞` (the numerators of the
source are the positive constants 8, 1, 4 and 255 is the only other divisor),
`0 / 0` and `∞ / ∞` are NaN, finite over `∞` is 0. -/
def div : FVal → FVal → FVal
  | fin a, fin b => if b = 0 then (if a = 0 then nan else inf) else fin (a / b)
  | nan, _ => nan
  | _, nan => nan
  | fin _, inf => fin 0
  | inf, fin _ => inf
  | inf, inf => nan

/-- Float comparison `a < b`; false whenever an operand is NaN. -/
def lt : FVal → FVal → Bool
  | fin a, fin b => decide (a < b)
  | fin _, inf => true
  | _, _ => false

/-- The call `min(a, b)` under either reading: `std::min` is `(b < a) ? b : a`, the
macro is `((a) < (b)) ? (a) : (b)`.  They differ only when `a` is NaN: `std::min`
returns the NaN, the macro returns `b`. -/
def min (rd : MinReading) (a b : FVal) : FVal :=
  match rd with
  | .stdMin => if lt b a then b else a
  | .macroMin => if lt a b then a else b

/-- The conversion `static_cast<unsigned char>(f)`: truncation toward zero when the truncated value
is representable, undefined (`none`) otherwise. -/
def toUChar : FVal → Option Nat
  | fin q => if 0 ≤ q ∧ q < 256 then some (Int.toNat ⌊q⌋) else none
  | _ => none

end FVal

/-! ## `Model::AddSolidColorBox` (main.cpp 610-648) -/

/-- The table `CubeIndices` (main.cpp 611-613). -/
def CubeIndices : List Nat :=
  [0, 1, 3, 3, 1, 2, 5, 4, 6, 6, 4, 7,
   8, 9, 11, 11, 9, 10, 13, 12, 14, 14, 12, 15,
   16, 17, 19, 19, 17, 18, 21, 20, 22, 22, 20, 23]

/-- The table `Vert` (main.cpp 618-631): position and texture coordinate of each of the
24 vertices.  The two-argument `Vector3f(a, b)` leaves `z = 0`. -/
def Vert (x1 y1 z1 x2 y2 z2 : ℚ) : List (Vector3f × Vector3f) :=
  [(⟨x1, y2, z1⟩, ⟨z1, x1, 0⟩), (⟨x2, y2, z1⟩, ⟨z1, x2, 0⟩),
   (⟨x2, y2, z2⟩, ⟨z2, x2, 0⟩), (⟨x1, y2, z2⟩, ⟨z2, x1, 0⟩),
   (⟨x1, y1, z1⟩, ⟨z1, x1, 0⟩), (⟨x2, y1, z1⟩, ⟨z1, x2, 0⟩),
   (⟨x2, y1, z2⟩, ⟨z2, x2, 0⟩), (⟨x1, y1, z2⟩, ⟨z2, x1, 0⟩),
   (⟨x1, y1, z2⟩, ⟨z2, y1, 0⟩), (⟨x1, y1, z1⟩, ⟨z1, y1, 0⟩),
   (⟨x1, y2, z1⟩, ⟨z1, y2, 0⟩), (⟨x1, y2, z2⟩, ⟨z2, y2, 0⟩),
   (⟨x2, y1, z2⟩, ⟨z2, y1, 0⟩), (⟨x2, y1, z1⟩, ⟨z1, y1, 0⟩),
   (⟨x2, y2, z1⟩, ⟨z1, y2, 0⟩), (⟨x2, y2, z2⟩, ⟨z2, y2, 0⟩),
   (⟨x1, y1, z1⟩, ⟨x1, y1, 0⟩), (⟨x2, y1, z1⟩, ⟨x2, y1, 0⟩),
   (⟨x2, y2, z1⟩, ⟨x2, y2, 0⟩), (⟨x1, y2, z1⟩, ⟨x1, y2, 0⟩),
   (⟨x1, y1, z2⟩, ⟨x1, y1, 0⟩), (⟨x2, y1, z2⟩, ⟨x2, y1, 0⟩),
   (⟨x2, y2, z2⟩, ⟨x2, y2, 0⟩), (⟨x1, y2, z2⟩, ⟨x1, y2, 0⟩)]

/-- Difference of two vectors, `Vector3f::operator-`. -/
def Vector3f.sub (a b : Vector3f) : Vector3f := ⟨a.x - b.x, a.y - b.y, a.z - b.z⟩

/-- Sum of two vectors, `Vector3f::operator+`. -/
def Vector3f.add (a b : Vector3f) : Vector3f := ⟨a.x + b.x, a.y + b.y, a.z + b.z⟩

/-- The method `Vector3f::Length`: the square root (parameter `sqrtf`) of the sum of squares. -/
def Vector3f.Length (sqrtf : ℚ → ℚ) (a : Vector3f) : ℚ :=
  sqrtf (a.x * a.x + a.y * a.y + a.z * a.z)

/-- The brightness factor `mod` of main.cpp 638-642 for a vertex at `p` with raw
`rand()` result `r`. -/
def brightnessMod (sqrtf : ℚ → ℚ) (p : Vector3f) (r : Nat) : FVal :=
  let dist1 := (p.sub ⟨-2, 4, -2⟩).Length sqrtf
  let dist2 := (p.sub ⟨3, 4, -3⟩).Length sqrtf
  let dist3 := (p.sub ⟨-4, 3, 25⟩).Length sqrtf
  let bri := r % 160
  FVal.div
    (FVal.add (FVal.fin bri)
      (FVal.mul (FVal.fin 192)
        (FVal.add
          (FVal.add
            (FVal.add (FVal.fin (65 / 100)) (FVal.div (FVal.fin 8) (FVal.fin dist1)))
            (FVal.div (FVal.fin 1) (FVal.fin dist2)))
          (FVal.div (FVal.fin 4) (FVal.fin dist3)))))
    (FVal.fin 255)

/-- The clamped channel value `min(c.X * mod, 255.0f)` of main.cpp 643-645, before the
cast to `unsigned char`, under the reading `rd` of `min`. -/
def channelValue (rd : MinReading) (cX : Nat) (mod : FVal) : FVal :=
  FVal.min rd (FVal.mul (FVal.fin cX) mod) (FVal.fin 255)

/-- The byte that main.cpp 643-645 store in a channel, `static_cast<unsigned char>` of
the clamped value, where both readings of `min` give the same byte; `none` where they
do not (the product is NaN: no defined conversion under `std::min`, 255 under the
macro) or where the conversion is undefined under both. -/
def channelByte (cX : Nat) (mod : FVal) : Option Nat :=
  if (channelValue .stdMin cX mod).toUChar = (channelValue .macroMin cX mod).toUChar then
    (channelValue .stdMin cX mod).toUChar
  else none

/-- One iteration of the vertex loop (main.cpp 634-645): the vertex built from table
entry `e` with raw `rand()` result `r`. -/
def boxVertex (sqrtf : ℚ → ℚ) (c : Color) (e : Vector3f × Vector3f) (r : Nat) : Vertex :=
  let mod := brightnessMod sqrtf e.1 r
  { Pos := e.1
    U := e.2.x
    V := e.2.y
    C := { R := channelByte c.R mod
           G := channelByte c.G mod
           B := channelByte c.B mod } }

/-- The method `Model::AddSolidColorBox` (main.cpp 610-648).  `sqrtf` is the square root used by
`Length`; `rnd v` is the value returned by the call of `rand()` in iteration `v` of the
vertex loop.  Both loops push one element per iteration at the back. -/
def Model.AddSolidColorBox (sqrtf : ℚ → ℚ) (rnd : Nat → Nat) (m : Model)
    (x1 y1 z1 x2 y2 z2 : ℚ) (c : Color) : Model :=
  let offset := m.Vertices.length % 65536
  let Indices := CubeIndices.foldl
    (fun acc index => acc ++ [(index + offset) % 65536]) m.Indices
  let Vertices := (List.range 24).foldl
    (fun acc v =>
      acc ++ [boxVertex sqrtf c ((Vert x1 y1 z1 x2 y2 z2).getD v (⟨0, 0, 0⟩, ⟨0, 0, 0⟩))
                (rnd v)])
    m.Vertices
  { m with Vertices := Vertices, Indices := Indices }

/-- The 36 index values pushed by one call on a model with `n` vertices. -/
def newIndices (n : Nat) : List Nat :=
  CubeIndices.map (fun index => (index + n % 65536) % 65536)

/-- The 24 vertices pushed by one call. -/
def newVertices (sqrtf : ℚ → ℚ) (rnd : Nat → Nat) (x1 y1 z1 x2 y2 z2 : ℚ) (c : Color) :
    List Vertex :=
  (List.range 24).map (fun v =>
    boxVertex sqrtf c ((Vert x1 y1 z1 x2 y2 z2).getD v (⟨0, 0, 0⟩, ⟨0, 0, 0⟩)) (rnd v))

/-! ### Index range (C2) -/

/-- A model that already holds 65520 vertices (2730 boxes worth), the first vertex
count at which the 16-bit offset plus a cube index reaches 65536. -/
def wrapModel : Model :=
  { Pos := ⟨0, 0, 0⟩
    Vertices := List.replicate 65520 ⟨⟨0, 0, 0⟩, ⟨some 0, some 0, some 0, 255⟩, 0, 0⟩ }

/-! ### Triangles and winding (C3) -/

/-- Cross product of two vectors (`Vector3f::Cross`). -/
def Vector3f.cross (a b : Vector3f) : Vector3f :=
  ⟨a.y * b.z - a.z * b.y, a.z * b.x - a.x * b.z, a.x * b.y - a.y * b.x⟩

/-- Scalar multiple of a vector. -/
def Vector3f.smul (k : ℚ) (a : Vector3f) : Vector3f := ⟨k * a.x, k * a.y, k * a.z⟩

/-- Triangle number `t` of a triangle list: the positions of the vertices named by the
three consecutive indices that begin at position `start + 3 * t` of the index buffer
(the way `DrawIndexed` reads a `TRIANGLELIST`). -/
def triangleAt (m : Model) (start t : Nat) : Option (Vector3f × Vector3f × Vector3f) :=
  match m.Indices[start + 3 * t]?, m.Indices[start + 3 * t + 1]?,
      m.Indices[start + 3 * t + 2]? with
  | some i0, some i1, some i2 =>
    match m.Vertices[i0]?, m.Vertices[i1]?, m.Vertices[i2]? with
    | some v0, some v1, some v2 => some (v0.Pos, v1.Pos, v2.Pos)
    | _, _, _ => none
  | _, _, _ => none

/-- The six faces of the box with corners `(x1,y1,z1)`, `(x2,y2,z2)`, numbered in the
order of the `Vert` table: `y = y2`, `y = y1`, `x = x1`, `x = x2`, `z = z1`, `z = z2`. -/
def onFace (x1 y1 z1 x2 y2 z2 : ℚ) (f : Nat) (p : Vector3f) : Prop :=
  match f with
  | 0 => p.y = y2
  | 1 => p.y = y1
  | 2 => p.x = x1
  | 3 => p.x = x2
  | 4 => p.z = z1
  | 5 => p.z = z2
  | _ => False

/-- Unit normal of face `f` that points into a box with `x1<x2`, `y1<y2`, `z1<z2`. -/
def inwardNormal (f : Nat) : Vector3f :=
  match f with
  | 0 => ⟨0, -1, 0⟩
  | 1 => ⟨0, 1, 0⟩
  | 2 => ⟨1, 0, 0⟩
  | 3 => ⟨-1, 0, 0⟩
  | 4 => ⟨0, 0, 1⟩
  | _ => ⟨0, 0, -1⟩

/-- Position of entry `j` of the `Vert` table. -/
def vertPos (x1 y1 z1 x2 y2 z2 : ℚ) (j : Nat) : Vector3f :=
  ((Vert x1 y1 z1 x2 y2 z2).getD j (⟨0, 0, 0⟩, ⟨0, 0, 0⟩)).1

/-- The three corners of appended triangle `t`, read off the two tables. -/
def boxTriangle (x1 y1 z1 x2 y2 z2 : ℚ) (t : Nat) : Vector3f × Vector3f × Vector3f :=
  (vertPos x1 y1 z1 x2 y2 z2 (CubeIndices.getD (3 * t) 0),
   vertPos x1 y1 z1 x2 y2 z2 (CubeIndices.getD (3 * t + 1) 0),
   vertPos x1 y1 z1 x2 y2 z2 (CubeIndices.getD (3 * t + 2) 0))

/-- The normal `(v1 - v0) × (v2 - v0)` of a triangle. -/
def triNormal (tri : Vector3f × Vector3f × Vector3f) : Vector3f :=
  (tri.2.1.sub tri.1).cross (tri.2.2.sub tri.1)

/-- All three corners of a triangle lie on face `f` of the box. -/
def triOnFace (x1 y1 z1 x2 y2 z2 : ℚ) (f : Nat) (tri : Vector3f × Vector3f × Vector3f) :
    Prop :=
  onFace x1 y1 z1 x2 y2 z2 f tri.1 ∧ onFace x1 y1 z1 x2 y2 z2 f tri.2.1 ∧
    onFace x1 y1 z1 x2 y2 z2 f tri.2.2

/-! ### Colour clamp (C4) -/

/-- A computable lower approximation of the square root on `ℚ`, used to instantiate
the parameter `sqrtf`: `⌊√(num·den)⌋ / den`. -/
def sqrtLower (q : ℚ) : ℚ := (Nat.sqrt (q.num.toNat * q.den) : ℚ) / q.den

/-- A value that is `+∞` or a non-negative finite number. -/
def FVal.NonnegOrInf (v : FVal) : Prop := v = FVal.inf ∨ ∃ q, v = FVal.fin q ∧ 0 ≤ q

/-! ## Status codes of the graphics API (main.cpp 326-353, 385-536, 596-608, 650-709) -/

/-- The call sites of main.cpp at which a Direct3D, DXGI or shader-compiler function
returns an `HRESULT`, grouped by the function that contains them. -/
inductive ApiCall where
  | CreateDXGIFactory
  | EnumAdapters
  | D3D11CreateDeviceAndSwapChain
  | GetBuffer
  | CreateBackBufferView
  | CreateUniformBuffer
  | CreateRasterizerState
  | CreateDepthStencilState
  | CreateSamplerState
  | CompileVertexShader
  | CreateVertexShader
  | D3DReflect
  | ConstantBufferGetDesc
  | VariableGetDesc (i : Nat)
  | CreateInputLayout
  | CompilePixelShader
  | CreatePixelShader
  | EyeCreateTexture2D
  | EyeCreateShaderResourceView
  | EyeCreateRenderTargetView
  | EyeCreateDepthTexture2D
  | EyeCreateDepthStencilView
  | CreateVertexBuffer
  | CreateIndexBuffer
  | SceneCreateTexture2D (k : Nat)
  | SceneCreateShaderResourceView (k : Nat)
  deriving DecidableEq, Repr

/-- What a constructor can end in other than its normal return: the `runtime_error`
that `ThrowOnFailure` throws; the `_com_error` that `operator->` of a `_com_ptr_t` smart
pointer raises for a null pointer (`_com_issue_error(E_POINTER)`); or an operation to
which C++ gives no meaning. -/
inductive Thrown where
  | runtimeError (what : String)
  | comError (hr : Int)
  | undefined
  deriving DecidableEq, Repr

/-- Code that may end in a `Thrown` while it records the status-returning calls it has
made. -/
abbrev Gfx := StateT (List ApiCall) (Except Thrown)

/-- The status `E_POINTER` (`0x80004003` as a signed 32-bit value). -/
def E_POINTER : Int := -2147467261

/-- Performing call `c`: it is recorded, and the status the API reports for it, given
by the oracle `hr`, is its value. -/
def apiCall (hr : ApiCall → Int) (c : ApiCall) : Gfx Int :=
  fun log => pure (hr c, log ++ [c])

/-- The `ThrowOnFailure` of main.cpp 326-332; `FAILED(hr)` is `hr < 0`. -/
def ThrowOnFailure (hr : Int) : Gfx Unit :=
  if hr < 0 then throw (.runtimeError "Failed HRESULT") else pure ()

/-- The member access `p->` on a `_com_ptr_t` smart pointer `p` that was to be filled by
a creation call with status `created`: the call leaves the pointer null when it fails,
and `operator->` on a null pointer raises `_com_error(E_POINTER)`. -/
def comPtrArrow (created : Int) : Gfx Unit :=
  if created < 0 then throw (.comError E_POINTER) else pure ()

/-- The constructor `EyeTarget::EyeTarget` (main.cpp 334-353): five status-returning
calls, the status of each discarded; between the third and the fourth, `tex->GetDesc`
goes through the smart pointer that the first call was to fill. -/
def EyeTargetCtor (hr : ApiCall → Int) : Gfx Unit := do
  let tex ← apiCall hr .EyeCreateTexture2D
  let _ ← apiCall hr .EyeCreateShaderResourceView
  let _ ← apiCall hr .EyeCreateRenderTargetView
  comPtrArrow tex
  let _ ← apiCall hr .EyeCreateDepthTexture2D
  let _ ← apiCall hr .EyeCreateDepthStencilView
  pure ()

/-- The method `Model::AllocateBuffers` (main.cpp 596-608). -/
def AllocateBuffers (hr : ApiCall → Int) : Gfx Unit := do
  ThrowOnFailure (← apiCall hr .CreateVertexBuffer)
  ThrowOnFailure (← apiCall hr .CreateIndexBuffer)

/-- The reflection loop of main.cpp 509-514: `var->GetDesc(&vd)` for `i = 0 .. n-1`,
status discarded, then `UniformOffsets[vd.Name] = vd.StartOffset`.  A failing `GetDesc`
need not fill `vd`, whose `Name` is then still the null pointer of `vd{}`; building the
`std::string` key from a null pointer has no defined behaviour. -/
def reflectVariables (hr : ApiCall → Int) (n : Nat) : Gfx Unit :=
  (List.range n).forM (fun i => do
    let st ← apiCall hr (.VariableGetDesc i)
    if st < 0 then throw .undefined else pure ())

/-- The constructor `DirectX11::DirectX11` (main.cpp 385-536), status-returning calls
only; `nVars` is the number of shader variables the reflection reports.  The smart
pointers `DXGIFactory` and `blobData` are used only after their creation call has passed
`ThrowOnFailure`; `ref->GetConstantBufferByIndex` (main.cpp 505) goes through the smart
pointer that the unchecked `D3DReflect` was to fill. -/
def DirectX11Ctor (hr : ApiCall → Int) (nVars : Nat) : Gfx Unit := do
  ThrowOnFailure (← apiCall hr .CreateDXGIFactory)
  ThrowOnFailure (← apiCall hr .EnumAdapters)
  ThrowOnFailure (← apiCall hr .D3D11CreateDeviceAndSwapChain)
  ThrowOnFailure (← apiCall hr .GetBuffer)
  ThrowOnFailure (← apiCall hr .CreateBackBufferView)
  ThrowOnFailure (← apiCall hr .CreateUniformBuffer)
  ThrowOnFailure (← apiCall hr .CreateRasterizerState)
  ThrowOnFailure (← apiCall hr .CreateDepthStencilState)
  let _ ← apiCall hr .CreateSamplerState
  ThrowOnFailure (← apiCall hr .CompileVertexShader)
  ThrowOnFailure (← apiCall hr .CreateVertexShader)
  let ref ← apiCall hr .D3DReflect
  comPtrArrow ref
  ThrowOnFailure (← apiCall hr .ConstantBufferGetDesc)
  reflectVariables hr nVars
  let _ ← apiCall hr .CreateInputLayout
  ThrowOnFailure (← apiCall hr .CompilePixelShader)
  ThrowOnFailure (← apiCall hr .CreatePixelShader)

/-- The texture part of `Scene::Scene` (main.cpp 656-709) followed by the five
`AllocateBuffers` calls of the geometry part (main.cpp 715-785).  For each texture the
two creation calls are unchecked and `tex->GetDesc` (main.cpp 688) goes through the
smart pointer that `CreateTexture2D` was to fill. -/
def SceneCtor (hr : ApiCall → Int) : Gfx Unit := do
  (List.range 5).forM (fun k => do
    let tex ← apiCall hr (.SceneCreateTexture2D k)
    let _ ← apiCall hr (.SceneCreateShaderResourceView k)
    comPtrArrow tex)
  (List.range 5).forM (fun _ => AllocateBuffers hr)

/-- A status oracle under which exactly the call `bad` fails, with `E_OUTOFMEMORY`
(`0x8007000E` as a signed 32-bit value), and every other call returns `S_OK`. -/
def failOnly (bad : ApiCall) : ApiCall → Int :=
  fun c => if c = bad then -2147024882 else 0

/-! ## Rounding to binary32 -/

/-- The number of binary digits of `n`: the least `k` with `n < 2^k`; `fuel` bounds the
number of halvings. -/
def bitLength : Nat → Nat → Nat
  | 0, _ => 0
  | fuel + 1, n => if n = 0 then 0 else bitLength fuel (n / 2) + 1

/-- The power `2^e` for an integer exponent. -/
def pow2 (e : Int) : ℚ :=
  if 0 ≤ e then ((2 ^ e.toNat : Nat) : ℚ) else 1 / ((2 ^ (-e).toNat : Nat) : ℚ)

/-- The binary exponent of a positive rational `q`: the integer `e` with
`2^e ≤ q < 2^(e+1)`.  With `a` and `b` the digit counts of numerator and denominator,
`e` is `a - b` or `a - b - 1`. -/
def binaryExponent (q : ℚ) : Int :=
  let d := (bitLength q.num.natAbs q.num.natAbs : Int) - (bitLength q.den q.den : Int)
  if pow2 d ≤ q then d else d - 1

/-- Rounding of a non-negative rational to the nearest integer, ties to the even one. -/
def roundHalfEven (m : ℚ) : Int :=
  let f := ⌊m⌋
  let r := m - f
  if r < 1 / 2 then f else if 1 / 2 < r then f + 1 else if f % 2 = 0 then f else f + 1

/-- The binary32 value nearest to the real number `q`, ties to even (the default
rounding of `float` arithmetic): 24 significant binary digits, for the exponents of
normal numbers, and the fixed step `2^-149` below `2^-126` (subnormal numbers).  The
result of each `float` operation is the rounding of the exact result.  Overflow to
infinity is not represented: the values the keyboard step works on stay far below
`2^128`. -/
def fl32 (q : ℚ) : ℚ :=
  if q = 0 then 0
  else
    let e := max (binaryExponent |q|) (-126)
    let ulp := pow2 (e - 23)
    let m := roundHalfEven (|q| / ulp)
    if q < 0 then -((m : ℚ) * ulp) else (m : ℚ) * ulp

/-! ## Matrices of the SDK maths header -/

/-- A 4x4 matrix addressed `M[row][column]`, the `Matrix4f` of the SDK maths header. -/
abbrev Matrix4f := Fin 4 → Fin 4 → ℚ

/-- Product of two matrices (`Matrix4f::operator*`). -/
def Matrix4f.mul (a b : Matrix4f) : Matrix4f :=
  fun i j => a i 0 * b 0 j + a i 1 * b 1 j + a i 2 * b 2 j + a i 3 * b 3 j

/-- Transpose (`Matrix4f::Transposed`). -/
def Matrix4f.Transposed (a : Matrix4f) : Matrix4f := fun i j => a j i

/-- A row of four scalars. -/
def row4 (a b c d : ℚ) : Fin 4 → ℚ := fun j =>
  match j with
  | 0 => a
  | 1 => b
  | 2 => c
  | 3 => d

/-- A matrix given by its four rows (the sixteen-argument constructor of `Matrix4f`). -/
def Matrix4f.ofRows (r0 r1 r2 r3 : Fin 4 → ℚ) : Matrix4f := fun i =>
  match i with
  | 0 => r0
  | 1 => r1
  | 2 => r2
  | 3 => r3

/-- Rotation about the Y axis (`Matrix4f::RotationY`); `sinf`, `cosf` are the sine and
cosine of the C library. -/
def Matrix4f.RotationY (sinf cosf : ℚ → ℚ) (angle : ℚ) : Matrix4f :=
  Matrix4f.ofRows
    (row4 (cosf angle) 0 (sinf angle) 0)
    (row4 0 1 0 0)
    (row4 (-sinf angle) 0 (cosf angle) 0)
    (row4 0 0 0 1)

/-- Translation matrix (`Matrix4f::Translation`). -/
def Matrix4f.Translation (v : Vector3f) : Matrix4f :=
  Matrix4f.ofRows
    (row4 1 0 0 v.x)
    (row4 0 1 0 v.y)
    (row4 0 0 1 v.z)
    (row4 0 0 0 1)

/-- Rotation matrix of a quaternion (the constructor `Matrix4f(const Quatf&)`). -/
def Matrix4f.ofQuat (q : Quatf) : Matrix4f :=
  Matrix4f.ofRows
    (row4 (q.w * q.w + q.x * q.x - q.y * q.y - q.z * q.z) (2 * (q.x * q.y - q.w * q.z))
      (2 * (q.x * q.z + q.w * q.y)) 0)
    (row4 (2 * (q.x * q.y + q.w * q.z)) (q.w * q.w - q.x * q.x + q.y * q.y - q.z * q.z)
      (2 * (q.y * q.z - q.w * q.x)) 0)
    (row4 (2 * (q.x * q.z - q.w * q.y)) (2 * (q.y * q.z + q.w * q.x))
      (q.w * q.w - q.x * q.x - q.y * q.y + q.z * q.z) 0)
    (row4 0 0 0 1)

/-- Applying a matrix to a point (`Matrix4f::Transform`), with the division by the
homogeneous coordinate. -/
def Matrix4f.Transform (m : Matrix4f) (v : Vector3f) : Vector3f :=
  let rcpW := 1 / (m 3 0 * v.x + m 3 1 * v.y + m 3 2 * v.z + m 3 3)
  ⟨(m 0 0 * v.x + m 0 1 * v.y + m 0 2 * v.z + m 0 3) * rcpW,
   (m 1 0 * v.x + m 1 1 * v.y + m 1 2 * v.z + m 1 3) * rcpW,
   (m 2 0 * v.x + m 2 1 * v.y + m 2 2 * v.z + m 2 3) * rcpW⟩

/-- The method `Matrix4f::Transform` as binary32 arithmetic evaluates it: every product,
sum and quotient is rounded, sums being taken from left to right. -/
def Matrix4f.TransformF (m : Matrix4f) (v : Vector3f) : Vector3f :=
  let row := fun (i : Fin 4) =>
    fl32 (fl32 (fl32 (fl32 (m i 0 * v.x) + fl32 (m i 1 * v.y)) + fl32 (m i 2 * v.z)) + m i 3)
  let rcpW := fl32 (1 / row 3)
  ⟨fl32 (row 0 * rcpW), fl32 (row 1 * rcpW), fl32 (row 2 * rcpW)⟩

/-- The operator `Vector3f::operator+=` in binary32 arithmetic: each component sum is
rounded. -/
def Vector3f.addF (a b : Vector3f) : Vector3f :=
  ⟨fl32 (a.x + b.x), fl32 (a.y + b.y), fl32 (a.z + b.z)⟩

/-- The method `Model::GetMatrix` (main.cpp 129). -/
def Model.GetMatrix (m : Model) : Matrix4f :=
  (Matrix4f.Translation m.Pos).mul (Matrix4f.ofQuat m.Rot)

/-! ## The frame loop of `WinMain` (main.cpp 235-321) -/

/-- The head pose of one eye as the SDK reports it (`ovrPosef`). -/
structure Posef where
  Orientation : Quatf
  Position : Vector3f

/-- The parts of the C library and of the SDK that the frame loop calls and whose
results depend only on their arguments. -/
structure Env where
  /-- Sine of the C library. -/
  sinf : ℚ → ℚ
  /-- Cosine of the C library. -/
  cosf : ℚ → ℚ
  /-- The static `Matrix4f::LookAtRH (eye, at, up)`. -/
  LookAtRH : Vector3f → Vector3f → Vector3f → Matrix4f
  /-- The value of `ovrMatrix4f_Projection(eyeRenderDesc[eye].Fov, 0.2f, 1000.0f, true)`
  for `eye`. -/
  Projection : Nat → Matrix4f

/-- A window message: the message number and `wParam`. -/
structure MSG where
  message : Nat
  wParam : Nat
  deriving DecidableEq

/-- Message number `WM_KEYDOWN`. -/
def WM_KEYDOWN : Nat := 0x0100
/-- Message number `WM_KEYUP`. -/
def WM_KEYUP : Nat := 0x0101
/-- Message number `WM_CHAR`. -/
def WM_CHAR : Nat := 0x0102

/-- Virtual key code `VK_CONTROL`. -/
def VK_CONTROL : Fin 256 := ⟨17, by decide⟩
/-- Virtual key code `VK_ESCAPE`. -/
def VK_ESCAPE : Fin 256 := ⟨27, by decide⟩
/-- Virtual key code `VK_LEFT`. -/
def VK_LEFT : Fin 256 := ⟨37, by decide⟩
/-- Virtual key code `VK_UP`. -/
def VK_UP : Fin 256 := ⟨38, by decide⟩
/-- Virtual key code `VK_RIGHT`. -/
def VK_RIGHT : Fin 256 := ⟨39, by decide⟩
/-- Virtual key code `VK_DOWN`. -/
def VK_DOWN : Fin 256 := ⟨40, by decide⟩
/-- Character code of the key A. -/
def keyA : Fin 256 := ⟨65, by decide⟩
/-- Character code of the key D. -/
def keyD : Fin 256 := ⟨68, by decide⟩
/-- Character code of the key Q. -/
def keyQ : Fin 256 := ⟨81, by decide⟩
/-- Character code of the key R. -/
def keyR : Fin 256 := ⟨82, by decide⟩
/-- Character code of the key S. -/
def keyS : Fin 256 := ⟨83, by decide⟩
/-- Character code of the key W. -/
def keyW : Fin 256 := ⟨87, by decide⟩

/-- What the program asks of the SDK and of the GPU, in the order it asks. -/
inductive Event where
  | PeekMessage
  | TranslateMessage (msg : MSG)
  | DispatchMessage (msg : MSG)
  | BeginFrame
  | RecenterPose
  | DismissHSWDisplay
  | GetFloatEyeHeight
  | GetEyePoses
  | ClearAndSetEyeTarget (eye : Nat)
  | DrawIndexed (texture : Nat) (count : Nat) (View : Matrix4f) (Proj : Matrix4f)
  | EndFrame

/-- The state of `DirectX11` that the frame loop reads and writes: the key array, the
two matrices held in `UniformData` at the offsets of the shader constants `View` and
`Proj`, and the record of calls issued. -/
structure DirectX11 where
  Key : Fin 256 → Bool
  View : Matrix4f
  Proj : Matrix4f
  trace : List Event

/-- The method `DirectX11::SetUniform` (main.cpp 592-594) for the two names the program
uses; any other name is not a constant of the shader and is not modelled. -/
def DirectX11.SetUniform (dx11 : DirectX11) (name : String) (v : Matrix4f) : DirectX11 :=
  if name = "View" then { dx11 with View := v }
  else if name = "Proj" then { dx11 with Proj := v }
  else dx11

/-- The method `DirectX11::Render` (main.cpp 559-586): the uniform data is copied to
the constant buffer and one `DrawIndexed(count, 0, 0)` is issued. -/
def DirectX11.Render (dx11 : DirectX11) (texSrv : Nat) (count : Nat) : DirectX11 :=
  { dx11 with trace := dx11.trace ++ [Event.DrawIndexed texSrv count dx11.View dx11.Proj] }

/-- The method `DirectX11::ClearAndSetEyeTarget` (main.cpp 543-557) for the target of
`eye`. -/
def DirectX11.ClearAndSetEyeTarget (dx11 : DirectX11) (eye : Nat) : DirectX11 :=
  { dx11 with trace := dx11.trace ++ [Event.ClearAndSetEyeTarget eye] }

/-- Whether any entry of a key array is set (`any_of` over the 256 entries).  It is
kept from unfolding by itself: the 256-fold disjunction is only wanted on request. -/
@[irreducible]
def anyKey (Key : Fin 256 → Bool) : Bool := (List.finRange 256).any Key

/-- The method `DirectX11::IsAnyKeyPressed` (main.cpp 588-590). -/
def DirectX11.IsAnyKeyPressed (dx11 : DirectX11) : Bool := anyKey dx11.Key

/-- The method `Scene::Render` (main.cpp 789-799). -/
def Scene.Render (Models : List Model) (dx11 : DirectX11) (view proj : Matrix4f) :
    DirectX11 :=
  Models.foldl
    (fun dx model =>
      let modelView := (view.mul model.GetMatrix).Transposed
      let dx := dx.SetUniform "View" modelView
      let dx := dx.SetUniform "Proj" proj
      dx.Render model.texture model.Indices.length)
    dx11

/-- The window procedure `SystemWindowProc` (main.cpp 355-383) once the back pointer
`dx11` is set, as it acts on the key array.  `(unsigned)wp` is an index into a 256-entry
array; for an index outside it C++ gives the store no meaning and the array is left as
it is here. -/
def SystemWindowProc (Key : Fin 256 → Bool) (msg : MSG) : Fin 256 → Bool :=
  if msg.message = WM_KEYDOWN then
    if h : msg.wParam % 2 ^ 32 < 256 then Function.update Key ⟨msg.wParam % 2 ^ 32, h⟩ true
    else Key
  else if msg.message = WM_KEYUP then
    if h : msg.wParam % 2 ^ 32 < 256 then Function.update Key ⟨msg.wParam % 2 ^ 32, h⟩ false
    else Key
  else Key

/-- The variables of `WinMain` that live across iterations of the main loop, with the
window messages pending for the thread: `queue` holds the keyboard and mouse input that
the system has queued, `posted` the messages placed in the queue by `PostMessage` or by
`TranslateMessage`.  `PeekMessage` retrieves posted messages before input. -/
structure AppState where
  dx11 : DirectX11
  Yaw : ℚ
  Pos : Vector3f
  appClock : Int
  Models : List Model
  queue : List MSG
  posted : List MSG := []

/-- What reaches one iteration of the main loop from outside: the input messages
(`arrived`) and the posted messages (`posted`) that have come in since the previous
poll; the character messages that `TranslateMessage` posts for the message it is given
(`WM_CHAR` for a key-down of a character key, depending on the keyboard layout); the
answer of `ovrHmd_GetFloat` for the eye height as a function of the default passed; and
the two eye poses of `ovrHmd_GetEyePoses`. -/
structure FrameInput where
  arrived : List MSG
  eyeHeight : ℚ → ℚ
  eyePoses : Nat → Posef
  posted : List MSG := []
  translate : MSG → List MSG := fun _ => []

/-- Appending one event to the record of calls. -/
def AppState.log (s : AppState) (e : Event) : AppState :=
  { s with dx11 := { s.dx11 with trace := s.dx11.trace ++ [e] } }

/-- The messages pending at the poll of a frame, in the order in which `PeekMessage`
would retrieve them: the posted messages, then the queued input. -/
def pendingMessages (s : AppState) (inp : FrameInput) : List MSG :=
  (s.posted ++ inp.posted) ++ (s.queue ++ inp.arrived)

/-- The message pump of main.cpp 245-249: `PeekMessage` with `PM_REMOVE` takes at most
one pending message, a posted one if there is any and the oldest queued input
otherwise; `TranslateMessage` posts the character messages that go with it, and
`DispatchMessage` hands it to `SystemWindowProc`.  (Messages that another thread sends
to the window without queueing them are not part of the model.) -/
def pumpMessage (s : AppState) (inp : FrameInput) : AppState :=
  let s := s.log Event.PeekMessage
  match s.posted ++ inp.posted with
  | msg :: rest =>
    { s with
      dx11 := { s.dx11 with
        Key := SystemWindowProc s.dx11.Key msg
        trace := s.dx11.trace ++ [Event.TranslateMessage msg, Event.DispatchMessage msg] }
      posted := rest ++ inp.translate msg
      queue := s.queue ++ inp.arrived }
  | [] =>
    match s.queue ++ inp.arrived with
    | [] => { s with posted := [], queue := [] }
    | msg :: rest =>
      { s with
        dx11 := { s.dx11 with
          Key := SystemWindowProc s.dx11.Key msg
          trace := s.dx11.trace ++ [Event.TranslateMessage msg, Event.DispatchMessage msg] }
        posted := inp.translate msg
        queue := rest }

/-- The keyboard step of main.cpp 263-276 on yaw and position, in binary32 arithmetic:
turn by `0.02f`, move by `speed * 0.05f` with `speed = 1.0f` along the rotated axis,
then overwrite the height with the eye height the SDK reports.  `0.02f` and `0.05f` are
the binary32 values nearest to 0.02 and 0.05, and every sum and product is rounded. -/
def keyboardStep (env : Env) (Key : Fin 256 → Bool) (eyeHeight : ℚ → ℚ)
    (Yaw : ℚ) (Pos : Vector3f) : ℚ × Vector3f :=
  let speed : ℚ := 1
  let Yaw := if Key VK_LEFT then fl32 (Yaw + fl32 (2 / 100)) else Yaw
  let Yaw := if Key VK_RIGHT then fl32 (Yaw - fl32 (2 / 100)) else Yaw
  let rot := Matrix4f.RotationY env.sinf env.cosf Yaw
  let Pos := if Key keyW || Key VK_UP then
      Pos.addF (rot.TransformF ⟨0, 0, fl32 (-speed * fl32 (5 / 100))⟩) else Pos
  let Pos := if Key keyS || Key VK_DOWN then
      Pos.addF (rot.TransformF ⟨0, 0, fl32 (speed * fl32 (5 / 100))⟩) else Pos
  let Pos := if Key keyD then
      Pos.addF (rot.TransformF ⟨fl32 (speed * fl32 (5 / 100)), 0, 0⟩) else Pos
  let Pos := if Key keyA then
      Pos.addF (rot.TransformF ⟨fl32 (-speed * fl32 (5 / 100)), 0, 0⟩) else Pos
  (Yaw, { Pos with y := eyeHeight Pos.y })

/-- The cube animation of main.cpp 278-280: the position of `Models[0]` is replaced.
The scene always holds five models; on an empty list there is nothing to replace. -/
def animateCube (env : Env) (appClock : Int) (Models : List Model) : List Model :=
  match Models with
  | [] => []
  | m :: rest =>
    { m with Pos := ⟨9 * env.sinf (1 / 100 * appClock), 3,
                     9 * env.cosf (1 / 100 * appClock)⟩ } :: rest

/-- The camera of one eye. -/
structure EyeCamera where
  shiftedEyePos : Vector3f
  finalForward : Vector3f
  finalUp : Vector3f
  view : Matrix4f

/-- The view construction of main.cpp 294-301. -/
def eyeCamera (env : Env) (Pos : Vector3f) (Yaw : ℚ) (useEyePose : Posef) : EyeCamera :=
  let rollPitchYaw := Matrix4f.RotationY env.sinf env.cosf Yaw
  let finalRollPitchYaw := rollPitchYaw.mul (Matrix4f.ofQuat useEyePose.Orientation)
  let finalUp := finalRollPitchYaw.Transform ⟨0, 1, 0⟩
  let finalForward := finalRollPitchYaw.Transform ⟨0, 0, -1⟩
  let shiftedEyePos := Pos.add (rollPitchYaw.Transform useEyePose.Position)
  { shiftedEyePos := shiftedEyePos
    finalForward := finalForward
    finalUp := finalUp
    view := env.LookAtRH shiftedEyePos (shiftedEyePos.add finalForward) finalUp }

/-- One iteration of the eye loop (main.cpp 287-307). -/
def renderEye (env : Env) (Models : List Model) (Pos : Vector3f) (Yaw : ℚ)
    (eyePoses : Nat → Posef) (dx11 : DirectX11) (eye : Nat) : DirectX11 :=
  let dx11 := dx11.ClearAndSetEyeTarget eye
  let view := (eyeCamera env Pos Yaw (eyePoses eye)).view
  let proj := env.Projection eye
  Scene.Render Models dx11 view proj.Transposed

/-- First part of the loop body (main.cpp 243-261): the clock, the message pump,
`ovrHmd_BeginFrame`, and the two key-triggered SDK calls. -/
def frameInput (s : AppState) (inp : FrameInput) : AppState :=
  let s := { s with appClock := s.appClock + 1 }
  let s := pumpMessage s inp
  let s := s.log Event.BeginFrame
  let s := if s.dx11.Key keyR then s.log Event.RecenterPose else s
  if s.dx11.IsAnyKeyPressed then s.log Event.DismissHSWDisplay else s

/-- Second part of the loop body (main.cpp 263-284): player movement, cube animation,
eye pose query. -/
def frameUpdate (env : Env) (s : AppState) (inp : FrameInput) : AppState :=
  let yp := keyboardStep env s.dx11.Key inp.eyeHeight s.Yaw s.Pos
  let s := { s with Yaw := yp.1, Pos := yp.2 }
  let s := s.log Event.GetFloatEyeHeight
  let s := { s with Models := animateCube env s.appClock s.Models }
  s.log Event.GetEyePoses

/-- Third part of the loop body (main.cpp 286-320): the eye loop, then distortion and
present in `ovrHmd_EndFrame`. -/
def frameRender (env : Env) (s : AppState) (inp : FrameInput) : AppState :=
  let dx := (List.range 2).foldl (renderEye env s.Models s.Pos s.Yaw inp.eyePoses) s.dx11
  let s := { s with dx11 := dx }
  s.log Event.EndFrame

/-- The body of the main loop (main.cpp 243-320): one frame. -/
def frame (env : Env) (s : AppState) (inp : FrameInput) : AppState :=
  frameRender env (frameUpdate env (frameInput s inp) inp) inp

/-- The test at the top of the main loop (main.cpp 242). -/
def loopCondition (dx11 : DirectX11) : Bool :=
  !(dx11.Key keyQ && dx11.Key VK_CONTROL) && !dx11.Key VK_ESCAPE

/-- One turn of the `while`: `none` when the loop is left, the state after the frame
otherwise. -/
def mainLoopStep (env : Env) (s : AppState) (inp : FrameInput) : Option AppState :=
  if loopCondition s.dx11 then some (frame env s inp) else none

/-- The main loop run against the inputs of finitely many frames; it stops early when
the test at the top fails. -/
def runLoop (env : Env) : List FrameInput → AppState → AppState
  | [], s => s
  | inp :: rest, s =>
    match mainLoopStep env s inp with
    | none => s
    | some s' => runLoop env rest s'

/-- The draws one eye issues: its target is bound and cleared, then one `DrawIndexed`
per model in list order. -/
def eyeDraws (env : Env) (Models : List Model) (Pos : Vector3f) (Yaw : ℚ)
    (eyePoses : Nat → Posef) (eye : Nat) : List Event :=
  Event.ClearAndSetEyeTarget eye ::
    Models.map (fun m =>
      Event.DrawIndexed m.texture m.Indices.length
        (((eyeCamera env Pos Yaw (eyePoses eye)).view.mul m.GetMatrix).Transposed)
        (env.Projection eye).Transposed)

/-- The events of one poll after `PeekMessage`: the first pending message, if there is
one, is translated and dispatched. -/
def dispatched : List MSG → List Event
  | [] => []
  | msg :: _ => [Event.TranslateMessage msg, Event.DispatchMessage msg]

/-- The events of one frame that precede the eye loop, for the key state `Key` left by
the message pump. -/
def framePrelude (s : AppState) (inp : FrameInput) (Key : Fin 256 → Bool) : List Event :=
  [Event.PeekMessage]
    ++ dispatched (pendingMessages s inp)
    ++ [Event.BeginFrame]
    ++ (if Key keyR then [Event.RecenterPose] else [])
    ++ (if anyKey Key then [Event.DismissHSWDisplay] else [])
    ++ [Event.GetFloatEyeHeight, Event.GetEyePoses]

/-- Whether an event is a draw submission. -/
def Event.isDraw : Event → Bool
  | Event.DrawIndexed _ _ _ _ => true
  | _ => false

/-- Whether an event binds and clears an eye target. -/
def Event.isClear : Event → Bool
  | Event.ClearAndSetEyeTarget _ => true
  | _ => false

/-! ### A concrete environment -/

/-- Dot product (`Vector3f::Dot`). -/
def Vector3f.dot (a b : Vector3f) : ℚ := a.x * b.x + a.y * b.y + a.z * b.z

/-- Division of a vector by its length (`Vector3f::Normalized`). -/
def Vector3f.Normalized (sqrtf : ℚ → ℚ) (a : Vector3f) : Vector3f :=
  let l := a.Length sqrtf
  ⟨a.x / l, a.y / l, a.z / l⟩

/-- The static `Matrix4f::LookAtRH` of the SDK maths header. -/
def Matrix4f.LookAtRH (sqrtf : ℚ → ℚ) (eye tgt up : Vector3f) : Matrix4f :=
  let z := (eye.sub tgt).Normalized sqrtf
  let x := (up.cross z).Normalized sqrtf
  let y := z.cross x
  Matrix4f.ofRows
    (row4 x.x x.y x.z (-(x.dot eye)))
    (row4 y.x y.y y.z (-(y.dot eye)))
    (row4 z.x z.y z.z (-(z.dot eye)))
    (row4 0 0 0 1)

/-- An environment with computable stand-ins for the library functions: Taylor
polynomials for sine and cosine, `sqrtLower` inside `LookAtRH`, and the identity as
projection of both eyes. -/
def sampleEnv : Env where
  sinf := fun x => x - x ^ 3 / 6 + x ^ 5 / 120
  cosf := fun x => 1 - x ^ 2 / 2 + x ^ 4 / 24
  LookAtRH := Matrix4f.LookAtRH sqrtLower
  Projection := fun _ => Matrix4f.ofRows (row4 1 0 0 0) (row4 0 1 0 0) (row4 0 0 1 0)
    (row4 0 0 0 1)

/-! ### Walking forward (C9) -/

/-- The key array in which only the key W is down. -/
def onlyW : Fin 256 → Bool := fun k => decide (k = keyW)

/-- The state in which `WinMain` enters the main loop (main.cpp 235-240) with the key W
held down, for a scene `Models` and no pending window message; `3.141592f` and `1.6f`
are the binary32 values nearest to the decimals. -/
def startState (Models : List Model) : AppState where
  dx11 :=
    { Key := onlyW
      View := fun _ _ => 0
      Proj := fun _ _ => 0
      trace := [] }
  Yaw := fl32 (3141592 / 1000000)
  Pos := ⟨0, fl32 (16 / 10), -5⟩
  appClock := 0
  Models := Models
  queue := []

/-- The first model of the scene before any box is added (main.cpp 712-713): at the
origin, with generated texture 2. -/
def cubeModel : Model := { Pos := ⟨0, 0, 0⟩, texture := 2 }

/-- A frame in which no window message arrives, the SDK reports the eye height
`1.675` (its default, whatever height is passed), and both eye poses are the identity. -/
def idleFrame : FrameInput where
  arrived := []
  eyeHeight := fun _ => 1675 / 1000
  eyePoses := fun _ => ⟨{}, ⟨0, 0, 0⟩⟩

/-- A frame in which no window message arrives, `TranslateMessage` posts nothing (as
for the messages of a key that produces no character, an arrow key for instance), and
the SDK has no eye height of its own, so that `ovrHmd_GetFloat` returns the default it
is passed. -/
def plainFrame : FrameInput where
  arrived := []
  eyeHeight := fun d => d
  eyePoses := fun _ => ⟨{}, ⟨0, 0, 0⟩⟩

/-! ### Texture coordinates and determinism (C11, C12) -/

/-- The texture coordinates that go with entry `j` of the `Vert` table at position
`p`: `(z, x)` on the two faces of constant `y` (entries 0..7), `(z, y)` on the two
faces of constant `x` (entries 8..15), `(x, y)` on the two faces of constant `z`
(entries 16..23). -/
def uvOfFace (j : Nat) (p : Vector3f) : ℚ × ℚ :=
  if j < 8 then (p.z, p.x) else if j < 16 then (p.z, p.y) else (p.x, p.y)

/-! ### The key array (C13, C19) -/

/-- The key array as `DirectX11::DirectX11` leaves it (main.cpp 386):
`fill(begin(Key), end(Key), false)`. -/
def initialKey : Fin 256 → Bool := fun _ => false

/-- Message number `WM_NCCREATE`. -/
def WM_NCCREATE : Nat := 0x0081

/-- What the window procedure works on: whether its static back pointer `dx11` has
been set, and the key array of the `DirectX11` it then points to. -/
structure WndProcState where
  attached : Bool
  Key : Fin 256 → Bool

/-- The window procedure `SystemWindowProc` (main.cpp 355-383) with its back pointer.
`createParams` tells whether `lpCreateParams` of a `WM_NCCREATE` is non-null; the
focus messages and `DefWindowProc` do not touch the key array.  A store at an index
outside the 256 entries has no meaning in C++; the array is left as it is. -/
def SystemWindowProcFull (st : WndProcState) (msg : MSG) (createParams : Bool) :
    WndProcState :=
  if msg.message = WM_NCCREATE then
    if createParams then { st with attached := true } else st
  else if msg.message = WM_KEYDOWN then
    if st.attached then
      if h : msg.wParam % 2 ^ 32 < 256 then
        { st with Key := Function.update st.Key ⟨msg.wParam % 2 ^ 32, h⟩ true }
      else st
    else st
  else if msg.message = WM_KEYUP then
    if st.attached then
      if h : msg.wParam % 2 ^ 32 < 256 then
        { st with Key := Function.update st.Key ⟨msg.wParam % 2 ^ 32, h⟩ false }
      else st
    else st
  else st

/-- The window procedure state after `DirectX11::DirectX11`: the key array is cleared,
then `CreateWindowW` is called with `this` as creation parameter and the window
receives `WM_NCCREATE`. -/
def constructedWindow : WndProcState :=
  SystemWindowProcFull { attached := false, Key := initialKey } ⟨WM_NCCREATE, 0⟩ true

/-- The key array after one poll of the message queue: the first pending message, if
there is one, has been handed to the window procedure. -/
def keyAfterPoll (Key : Fin 256 → Bool) : List MSG → (Fin 256 → Bool)
  | [] => Key
  | msg :: _ => SystemWindowProc Key msg

/-- The key array after the window procedure has handled `msgs` in order. -/
def applyMessages (Key : Fin 256 → Bool) (msgs : List MSG) : Fin 256 → Bool :=
  msgs.foldl SystemWindowProc Key

/-- The quit combination tested at the top of the main loop (main.cpp 242): Q together
with Control, or Escape. -/
def quitRequested (Key : Fin 256 → Bool) : Bool :=
  (Key keyQ && Key VK_CONTROL) || Key VK_ESCAPE

/-- A state of the main loop with two window messages pending, key-down and key-up of
W, and no key down. -/
def pendingState : AppState where
  dx11 :=
    { Key := initialKey
      View := fun _ _ => 0
      Proj := fun _ _ => 0
      trace := [] }
  Yaw := fl32 (3141592 / 1000000)
  Pos := ⟨0, fl32 (16 / 10), -5⟩
  appClock := 0
  Models := [cubeModel]
  queue := [⟨WM_KEYDOWN, 87⟩, ⟨WM_KEYUP, 87⟩]

/-- A state of the main loop with two window messages pending, key-down and key-up of
the left arrow key, for which `TranslateMessage` posts no character, and no key down. -/
def arrowPending : AppState where
  dx11 :=
    { Key := initialKey
      View := fun _ _ => 0
      Proj := fun _ _ => 0
      trace := [] }
  Yaw := fl32 (3141592 / 1000000)
  Pos := ⟨0, fl32 (16 / 10), -5⟩
  appClock := 0
  Models := [cubeModel]
  queue := [⟨WM_KEYDOWN, 37⟩, ⟨WM_KEYUP, 37⟩]

/-- The window messages that arrive during the frames `inputs`, in order. -/
def allArrived : List FrameInput → List MSG
  | [] => []
  | inp :: rest => inp.arrived ++ allArrived rest

/-- Whether an event belongs to the message pump. -/
def Event.isPump : Event → Bool
  | Event.PeekMessage => true
  | Event.TranslateMessage _ => true
  | Event.DispatchMessage _ => true
  | _ => false

/-- Whether an event hands a message to the window procedure. -/
def Event.isDispatch : Event → Bool
  | Event.DispatchMessage _ => true
  | _ => false

/-- A window message that the window procedure stores in the key array: key-down or
key-up. -/
def isKeyMessage (msg : MSG) : Prop := msg.message = WM_KEYDOWN ∨ msg.message = WM_KEYUP

/-- The messages posted from outside during the frames `inputs`, in order. -/
def allPosted : List FrameInput → List MSG
  | [] => []
  | inp :: rest => inp.posted ++ allPosted rest

/-- A frame in which no message arrives from outside and `TranslateMessage` posts a
`WM_CHAR` with the lower-case character for every key-down it is given, as it does for
a letter key; the SDK returns the default eye height. -/
def typingFrame : FrameInput where
  arrived := []
  eyeHeight := fun d => d
  eyePoses := fun _ => ⟨{}, ⟨0, 0, 0⟩⟩
  translate := fun msg => if msg.message = WM_KEYDOWN then [⟨WM_CHAR, msg.wParam + 32⟩] else []

/-- The step that main.cpp 268 adds to the position while W is down: the vector
`(0, 0, -speed * 0.05f)` turned by `RotationY(Yaw)`. -/
def walkStep (env : Env) (Yaw : ℚ) : Vector3f :=
  (Matrix4f.RotationY env.sinf env.cosf Yaw).TransformF ⟨0, 0, fl32 (-1 * fl32 (5 / 100))⟩

/-- The posted messages that one poll leaves pending. -/
def postedAfterPoll (s : AppState) (inp : FrameInput) : List MSG :=
  match s.posted ++ inp.posted with
  | msg :: rest => rest ++ inp.translate msg
  | [] =>
    match s.queue ++ inp.arrived with
    | [] => []
    | msg :: _ => inp.translate msg

/-- The queued input that one poll leaves pending: all of it when a posted message was
retrieved, all but the oldest otherwise. -/
def queueAfterPoll (s : AppState) (inp : FrameInput) : List MSG :=
  match s.posted ++ inp.posted with
  | _ :: _ => s.queue ++ inp.arrived
  | [] => (s.queue ++ inp.arrived).tail

/-- A window message that leaves unchanged a key array in which only W is down: any
message but a key-up of W or a key-down of another key. -/
def keepsOnlyW (msg : MSG) : Prop := SystemWindowProc onlyW msg = onlyW

/-- A frame of a held key W: the keyboard auto-repeat has queued another key-down of
W, for which `TranslateMessage` posts the character `w`; the SDK reports the eye height
`1.675`. -/
def heldFrame : FrameInput where
  arrived := [⟨WM_KEYDOWN, 87⟩]
  eyeHeight := fun _ => 1675 / 1000
  eyePoses := fun _ => ⟨{}, ⟨0, 0, 0⟩⟩
  translate := fun msg => if msg.message = WM_KEYDOWN then [⟨WM_CHAR, msg.wParam + 32⟩] else []

/-- The loop body run for the frames `inputs` one after the other: the main loop as
long as it is not left. -/
def runFrames (env : Env) (inputs : List FrameInput) (s : AppState) : AppState :=
  inputs.foldl (frame env) s

/-! ### Building a model box by box (C15) -/

/-- The arguments of one call of `Model::AddSolidColorBox`, together with the values
that `rand()` returns in its 24 iterations. -/
structure BoxCall where
  x1 : ℚ
  y1 : ℚ
  z1 : ℚ
  x2 : ℚ
  y2 : ℚ
  z2 : ℚ
  c : Color
  rnd : Nat → Nat

/-- A model as its constructor leaves it (main.cpp 127): no vertex, no index, the
identity rotation. -/
def emptyModel (pos : Vector3f) (texSrv : Nat) : Model := { Pos := pos, texture := texSrv }

/-- A sequence of calls of `AddSolidColorBox` on one model, in order. -/
def addBoxes (sqrtf : ℚ → ℚ) (m : Model) (calls : List BoxCall) : Model :=
  calls.foldl (fun m b => m.AddSolidColorBox sqrtf b.rnd b.x1 b.y1 b.z1 b.x2 b.y2 b.z2 b.c) m

/-- The mesh invariant after `a` boxes: `24 a` vertices, `36 a` indices, every index
below the vertex count, and the indices of box `j` within the vertices of box `j`. -/
def MeshValid (m : Model) (a : Nat) : Prop :=
  m.Vertices.length = 24 * a ∧ m.Indices.length = 36 * a ∧
  (∀ i ∈ m.Indices, i < m.Vertices.length) ∧
  ∀ j, j < a → ∀ p, p < 36 →
    ∃ i, m.Indices[36 * j + p]? = some i ∧ 24 * j ≤ i ∧ i < 24 * j + 24

/-! ### Orientation and reversed corners (C16) -/

/-- The centre of the box with corners `(x1,y1,z1)`, `(x2,y2,z2)`. -/
def boxCentre (x1 y1 z1 x2 y2 z2 : ℚ) : Vector3f :=
  ⟨(x1 + x2) / 2, (y1 + y2) / 2, (z1 + z2) / 2⟩

/-- How far the normal `(v1 - v0) × (v2 - v0)` of a triangle points toward the centre
of the box: its scalar product with the vector from `v0` to the centre.  Positive means
the corners run clockwise seen from outside (front face of the rasterizer state the
program sets), negative that the triangle is turned inside-out. -/
def towardCentre (x1 y1 z1 x2 y2 z2 : ℚ) (tri : Vector3f × Vector3f × Vector3f) : ℚ :=
  (triNormal tri).dot ((boxCentre x1 y1 z1 x2 y2 z2).sub tri.1)

/-! ### The geometry of `Scene::Scene` (main.cpp 711-786; C14, C17) -/

/-- Corners and base colour of one box of the scene. -/
structure Box where
  x1 : ℚ
  y1 : ℚ
  z1 : ℚ
  x2 : ℚ
  y2 : ℚ
  z2 : ℚ
  c : Color
  deriving DecidableEq

/-- The calls that add `boxes` in order.  All calls of the program draw from the one
`rand()` sequence `rnd`: call number `first + i` uses the values `24 (first + i) + v`. -/
def toCalls (rnd : Nat → Nat) : Nat → List Box → List BoxCall
  | _, [] => []
  | first, b :: rest =>
    ⟨b.x1, b.y1, b.z1, b.x2, b.y2, b.z2, b.c, fun v => rnd (24 * first + v)⟩
      :: toCalls rnd (first + 1) rest

/-- The moving box (main.cpp 714). -/
def movingBoxes : List Box :=
  [⟨0, 0, 0, 1, 1, 1, ⟨64, 64, 64, 255⟩⟩]

/-- The walls (main.cpp 719-724). -/
def wallBoxes : List Box :=
  [⟨-101 / 10, 0, -20, -10, 4, 20, ⟨128, 128, 128, 255⟩⟩,
   ⟨-10, -1 / 10, -201 / 10, 10, 4, -20, ⟨128, 128, 128, 255⟩⟩,
   ⟨10, -1 / 10, -20, 101 / 10, 4, 20, ⟨128, 128, 128, 255⟩⟩]

/-- The floors (main.cpp 729-732). -/
def floorBoxes : List Box :=
  [⟨-10, -1 / 10, -20, 10, 0, 201 / 10, ⟨128, 128, 128, 255⟩⟩,
   ⟨-15, -61 / 10, 18, 15, -6, 30, ⟨128, 128, 128, 255⟩⟩]

/-- The ceiling (main.cpp 737). -/
def ceilingBoxes : List Box :=
  [⟨-10, 4, -20, 10, 41 / 10, 201 / 10, ⟨128, 128, 128, 255⟩⟩]

/-- The values that `f` takes in `for (float f = 5.0f; f <= 9.0f; f += 1.0f)`
(main.cpp 754). -/
def barOffsets : List ℚ := [5, 6, 7, 8, 9]

/-- The values that `f` takes in `for (float f = 3.0f; f <= 6.6f; f += 0.4f)`
(main.cpp 782), at their decimal values.  In single precision the sums run
3.0, 3.4000001, ..., 6.2000008 and the next one, 6.6000009, is above the bound
6.6f = 6.5999999: the loop body runs nine times. -/
def postOffsets : List ℚ :=
  [3, 34 / 10, 38 / 10, 42 / 10, 46 / 10, 5, 54 / 10, 58 / 10, 62 / 10]

/-- The left bar at `f` (main.cpp 755-756). -/
def leftBar (f : ℚ) : Box := ⟨f, 0, 20, f + 1 / 10, 11 / 10, 201 / 10, ⟨128, 128, 128, 255⟩⟩

/-- The right bar at `f` (main.cpp 757-758), corners reversed in `x` and `y`. -/
def rightBar (f : ℚ) : Box :=
  ⟨-f, 11 / 10, 20, -f - 1 / 10, 0, 201 / 10, ⟨128, 128, 128, 255⟩⟩

/-- The post at `f` (main.cpp 783). -/
def post (f : ℚ) : Box := ⟨-3, 0, f, -29 / 10, 13 / 10, f + 1 / 10, ⟨64, 64, 64, 255⟩⟩

/-- The two bars of one iteration of the loop of main.cpp 754-759. -/
def barPair (f : ℚ) : List Box := [leftBar f, rightBar f]

/-- Fixtures and furniture (main.cpp 742-783), in the order of the calls. -/
def fixtureBoxes : List Box :=
  [⟨95 / 10, 75 / 100, 3, 101 / 10, 25 / 10, 31 / 10, ⟨96, 96, 96, 255⟩⟩,
   ⟨95 / 10, 95 / 100, 37 / 10, 101 / 10, 275 / 100, 38 / 10, ⟨96, 96, 96, 255⟩⟩,
   ⟨955 / 100, 120 / 100, 25 / 10, 101 / 10, 130 / 100, 375 / 100, ⟨96, 96, 96, 255⟩⟩,
   ⟨955 / 100, 2, 305 / 100, 101 / 10, 210 / 100, 42 / 10, ⟨96, 96, 96, 255⟩⟩,
   ⟨5, 11 / 10, 20, 10, 12 / 10, 201 / 10, ⟨96, 96, 96, 255⟩⟩,
   ⟨-10, 11 / 10, 20, -5, 12 / 10, 201 / 10, ⟨96, 96, 96, 255⟩⟩]
  ++ (barOffsets.map barPair).flatten
  ++ [⟨-18 / 10, 8 / 10, 1, 0, 7 / 10, 0, ⟨128, 128, 0, 255⟩⟩,
      ⟨-18 / 10, 0, 0, -17 / 10, 7 / 10, 1 / 10, ⟨128, 128, 0, 255⟩⟩,
      ⟨-18 / 10, 7 / 10, 1, -17 / 10, 0, 9 / 10, ⟨128, 128, 0, 255⟩⟩,
      ⟨0, 0, 1, -1 / 10, 7 / 10, 9 / 10, ⟨128, 128, 0, 255⟩⟩,
      ⟨0, 7 / 10, 0, -1 / 10, 0, 1 / 10, ⟨128, 128, 0, 255⟩⟩,
      ⟨-14 / 10, 5 / 10, -11 / 10, -8 / 10, 55 / 100, -5 / 10, ⟨44, 44, 128, 255⟩⟩,
      ⟨-14 / 10, 0, -11 / 10, -134 / 100, 1, -104 / 100, ⟨44, 44, 128, 255⟩⟩,
      ⟨-14 / 10, 5 / 10, -5 / 10, -134 / 100, 0, -56 / 100, ⟨44, 44, 128, 255⟩⟩,
      ⟨-8 / 10, 0, -5 / 10, -86 / 100, 5 / 10, -56 / 100, ⟨44, 44, 128, 255⟩⟩,
      ⟨-8 / 10, 1, -11 / 10, -86 / 100, 0, -104 / 100, ⟨44, 44, 128, 255⟩⟩,
      ⟨-14 / 10, 97 / 100, -105 / 100, -8 / 10, 92 / 100, -110 / 100, ⟨44, 44, 128, 255⟩⟩]
  ++ postOffsets.map post

/-- The geometry part of `Scene::Scene` (main.cpp 711-786): the list `Models`. -/
def SceneGeometry (sqrtf : ℚ → ℚ) (rnd : Nat → Nat) : List Model :=
  [addBoxes sqrtf (emptyModel ⟨0, 0, 0⟩ 2) (toCalls rnd 0 movingBoxes),
   addBoxes sqrtf (emptyModel ⟨0, 0, 0⟩ 1) (toCalls rnd 1 wallBoxes),
   addBoxes sqrtf (emptyModel ⟨0, 0, 0⟩ 0) (toCalls rnd 4 floorBoxes),
   addBoxes sqrtf (emptyModel ⟨0, 0, 0⟩ 4) (toCalls rnd 6 ceilingBoxes),
   addBoxes sqrtf (emptyModel ⟨0, 0, 0⟩ 3) (toCalls rnd 7 fixtureBoxes)]

/-- The position that the frame loop gives the cube when the frame counter is `t`
(main.cpp 279-280). -/
def cubePosition (env : Env) (t : Int) : Vector3f :=
  ⟨9 * env.sinf (1 / 100 * t), 3, 9 * env.cosf (1 / 100 * t)⟩

/-- An environment whose sine and cosine are rational and satisfy
`sin² + cos² = 1` exactly (the rational parametrisation of the circle by the tangent of
the half angle, taken at the argument itself). -/
def circleEnv : Env where
  sinf := fun a => 2 * a / (1 + a ^ 2)
  cosf := fun a => (1 - a ^ 2) / (1 + a ^ 2)
  LookAtRH := Matrix4f.LookAtRH sqrtLower
  Projection := fun _ => Matrix4f.ofRows (row4 1 0 0 0) (row4 0 1 0 0) (row4 0 0 1 0)
    (row4 0 0 0 1)

/-! ### Mip-level reduction (main.cpp 686-706; C18) -/

/-- Largest value of the 32-bit `int` in which `wh`, `i`, `j` and the buffer offsets
are computed. -/
def INT_MAX : Nat := 2147483647

/-- How a run of one of the loops of the reduction ends: the loop is left with buffer
`data`; or the iteration bound of the model is used up with iterations left, `data`
being the buffer before the next one; or an `int` expression leaves the range of `int`
(signed overflow, after which the program has no defined behaviour). -/
inductive MipRun where
  | done (data : Nat → Nat)
  | paused (data : Nat → Nat)
  | overflow

/-- One iteration of the inner loop (main.cpp 695-702) on the buffer `data` (a byte for
every offset): four stores at `pdest[0..3]`, one after the other in the same buffer,
each the sum of four source bytes shifted right by two and narrowed to `uint8_t`. -/
def mipPixel (wh psrc pdest : Nat) (data : Nat → Nat) : Nat → Nat :=
  let data := Function.update data (pdest + 0)
    (((data (psrc + 0) + data (psrc + 4) + data (psrc + (wh * 4 + 0))
        + data (psrc + (wh * 4 + 4))) >>> 2) % 256)
  let data := Function.update data (pdest + 1)
    (((data (psrc + 1) + data (psrc + 5) + data (psrc + (wh * 4 + 1))
        + data (psrc + (wh * 4 + 5))) >>> 2) % 256)
  let data := Function.update data (pdest + 2)
    (((data (psrc + 2) + data (psrc + 6) + data (psrc + (wh * 4 + 2))
        + data (psrc + (wh * 4 + 6))) >>> 2) % 256)
  Function.update data (pdest + 3)
    (((data (psrc + 3) + data (psrc + 7) + data (psrc + (wh * 4 + 3))
        + data (psrc + (wh * 4 + 7))) >>> 2) % 256)

/-- The inner loop `for (int i = 0; i < (wh >> 1); ++i, psrc += 8, pdest += 4)`
(main.cpp 694), from the iteration with counter `i` on, for at most `fuel` iterations.
The body's index expressions `wh * 4 + 0`, ..., `wh * 4 + 7` are `int`s. -/
def mipRow (wh : Nat) : Nat → Nat → Nat → Nat → (Nat → Nat) → MipRun
  | 0, i, _, _, data => if i < wh >>> 1 then .paused data else .done data
  | fuel + 1, i, psrc, pdest, data =>
    if i < wh >>> 1 then
      if wh * 4 + 7 ≤ INT_MAX then
        mipRow wh fuel (i + 1) (psrc + 8) (pdest + 4) (mipPixel wh psrc pdest data)
      else .overflow
    else .done data

/-- The outer loop `for (int j = 0; j < (wh & ~1); j += 2)` (main.cpp 691-704), from
the iteration with counter `j` on, for at most `fuel` iterations; `wh & ~1` is `wh`
with its lowest bit cleared, `wh - wh % 2`. The offsets `wh * j * 4` and
`(wh >> 1) * (j >> 1) * 4` are `int` products; the inner loop is given `wh`
iterations. -/
def mipRows (wh : Nat) : Nat → Nat → (Nat → Nat) → MipRun
  | 0, j, data => if j < wh - wh % 2 then .paused data else .done data
  | fuel + 1, j, data =>
    if j < wh - wh % 2 then
      if wh * j * 4 ≤ INT_MAX ∧ (wh >>> 1) * (j >>> 1) * 4 ≤ INT_MAX then
        match mipRow wh wh 0 (wh * j * 4) ((wh >>> 1) * (j >>> 1) * 4) data with
        | .done d => mipRows wh fuel (j + 2) d
        | .paused d => .paused d
        | .overflow => .overflow
      else .overflow
    else .done data

/-- One pass of the reduction loop on a buffer that holds a `wh × wh` image, with `wh`
iterations allowed to the outer loop. -/
def mipPass (wh : Nat) (data : Nat → Nat) : MipRun := mipRows wh wh 0 data

/-- The run up to the start of inner iteration `i` of outer iteration `j = 2 * J`:
`J` outer iterations, then `i` inner iterations of the next. -/
def mipBefore (wh : Nat) (data : Nat → Nat) (J i : Nat) : MipRun :=
  match mipRows wh J 0 data with
  | .paused d => mipRow wh i 0 (wh * (2 * J) * 4) ((wh >>> 1) * ((2 * J) >>> 1) * 4) d
  | r => r

/-- Channel `c` of pixel `(x, y)` of a `wh` wide RGBA image stored row-major in
`img`. -/
def pixelByte (wh : Nat) (img : Nat → Nat) (x y c : Nat) : Nat := img (4 * (wh * y + x) + c)

/-- The pure 2x2 box filter of the claim: channel `c` of pixel `(i, j)` of the
half-size image is `⌊(a + b + c + d) / 4⌋` for the values of that channel at the pixels
`(2i, 2j)`, `(2i+1, 2j)`, `(2i, 2j+1)`, `(2i+1, 2j+1)` of the image `img`. -/
def boxFilter (wh : Nat) (img : Nat → Nat) (i j c : Nat) : Nat :=
  (pixelByte wh img (2 * i) (2 * j) c + pixelByte wh img (2 * i + 1) (2 * j) c
    + pixelByte wh img (2 * i) (2 * j + 1) c + pixelByte wh img (2 * i + 1) (2 * j + 1) c) / 4

/-- Loop invariant of the reduction before inner iteration `i` of outer iteration
`j = 2 * J`, for the original image `orig`: no byte from the next destination pixel on
has been written, and every destination pixel before it holds its box-filter value. -/
def MipInv (wh : Nat) (orig data : Nat → Nat) (J i : Nat) : Prop :=
  (∀ o, 4 * (wh / 2 * J + i) ≤ o → data o = orig o) ∧
  (∀ J' i' c, i' < wh / 2 → c < 4 → (J' < J ∨ (J' = J ∧ i' < i)) →
    data (4 * (wh / 2 * J' + i') + c) = boxFilter wh orig i' J' c)

/-- A test image of any width: byte `o` holds `(37 * o + 11) mod 256`. -/
def sampleImage : Nat → Nat := fun o => (o * 37 + 11) % 256

/-! # Theorems -/

/-! ## Lemmas on the generator -/

theorem foldl_push_eq_append {α β : Type} (f : α → β) (l : List α) (init : List β) :
    l.foldl (fun acc a => acc ++ [f a]) init = init ++ l.map f := by
  induction l generalizing init with
  | nil => simp
  | cons a t ih => simp [ih]

theorem AddSolidColorBox_Vertices (sqrtf : ℚ → ℚ) (rnd : Nat → Nat) (m : Model)
    (x1 y1 z1 x2 y2 z2 : ℚ) (c : Color) :
    (m.AddSolidColorBox sqrtf rnd x1 y1 z1 x2 y2 z2 c).Vertices
      = m.Vertices ++ newVertices sqrtf rnd x1 y1 z1 x2 y2 z2 c := by
  unfold Model.AddSolidColorBox newVertices
  exact foldl_push_eq_append _ _ _

theorem AddSolidColorBox_Indices (sqrtf : ℚ → ℚ) (rnd : Nat → Nat) (m : Model)
    (x1 y1 z1 x2 y2 z2 : ℚ) (c : Color) :
    (m.AddSolidColorBox sqrtf rnd x1 y1 z1 x2 y2 z2 c).Indices
      = m.Indices ++ newIndices m.Vertices.length := by
  unfold Model.AddSolidColorBox newIndices
  exact foldl_push_eq_append _ _ _

theorem AddSolidColorBox_frame (sqrtf : ℚ → ℚ) (rnd : Nat → Nat) (m : Model)
    (x1 y1 z1 x2 y2 z2 : ℚ) (c : Color) :
    (m.AddSolidColorBox sqrtf rnd x1 y1 z1 x2 y2 z2 c).Pos = m.Pos ∧
    (m.AddSolidColorBox sqrtf rnd x1 y1 z1 x2 y2 z2 c).Rot = m.Rot ∧
    (m.AddSolidColorBox sqrtf rnd x1 y1 z1 x2 y2 z2 c).texture = m.texture := by
  simp only [Model.AddSolidColorBox, and_self]

theorem newVertices_length (sqrtf : ℚ → ℚ) (rnd : Nat → Nat) (x1 y1 z1 x2 y2 z2 : ℚ)
    (c : Color) : (newVertices sqrtf rnd x1 y1 z1 x2 y2 z2 c).length = 24 := by
  simp [newVertices]

theorem newIndices_length (n : Nat) : (newIndices n).length = 36 := by
  simp [newIndices, CubeIndices]

/-- C1: `Model::AddSolidColorBox` only appends.  For every model, corners, base colour
(and every square-root function and `rand()` results) the resulting vertex list is the
old vertex list followed by exactly 24 vertices, the resulting index list is the old
index list followed by exactly 36 indices, and pose and texture are untouched. -/
theorem AddSolidColorBox_only_appends (sqrtf : ℚ → ℚ) (rnd : Nat → Nat) (m : Model)
    (x1 y1 z1 x2 y2 z2 : ℚ) (c : Color) :
    ∃ vs is,
      vs.length = 24 ∧ is.length = 36 ∧
      (m.AddSolidColorBox sqrtf rnd x1 y1 z1 x2 y2 z2 c).Vertices = m.Vertices ++ vs ∧
      (m.AddSolidColorBox sqrtf rnd x1 y1 z1 x2 y2 z2 c).Indices = m.Indices ++ is ∧
      (m.AddSolidColorBox sqrtf rnd x1 y1 z1 x2 y2 z2 c).Pos = m.Pos ∧
      (m.AddSolidColorBox sqrtf rnd x1 y1 z1 x2 y2 z2 c).Rot = m.Rot ∧
      (m.AddSolidColorBox sqrtf rnd x1 y1 z1 x2 y2 z2 c).texture = m.texture :=
  ⟨newVertices sqrtf rnd x1 y1 z1 x2 y2 z2 c, newIndices m.Vertices.length,
    newVertices_length sqrtf rnd x1 y1 z1 x2 y2 z2 c, newIndices_length _,
    AddSolidColorBox_Vertices sqrtf rnd m x1 y1 z1 x2 y2 z2 c,
    AddSolidColorBox_Indices sqrtf rnd m x1 y1 z1 x2 y2 z2 c,
    AddSolidColorBox_frame sqrtf rnd m x1 y1 z1 x2 y2 z2 c⟩

/-! ### Index range (C2) -/

theorem CubeIndices_lt : ∀ a ∈ CubeIndices, a < 24 := by decide

theorem newIndices_of_fits (n : Nat) (h : n + 24 ≤ 65536) :
    newIndices n = CubeIndices.map (fun index => n + index) := by
  unfold newIndices
  apply List.map_congr_left
  intro a ha
  have ha24 : a < 24 := CubeIndices_lt a ha
  have e : n % 65536 = n := Nat.mod_eq_of_lt (by omega)
  rw [e, Nat.mod_eq_of_lt (by omega)]
  omega

/-- C2 as stated fails: on a model that holds 65520 vertices the call appends the
stored index 0 (cube index 16 plus offset 65520, narrowed to 16 bits), which is not in
`[65520, 65544)`. -/
theorem AddSolidColorBox_index_wraps :
    wrapModel.Vertices.length = 65520 ∧
    (wrapModel.AddSolidColorBox (fun _ => 0) (fun _ => 0) 0 0 0 1 1 1 {}).Indices.drop
        wrapModel.Indices.length
      = [65520, 65521, 65523, 65523, 65521, 65522, 65525, 65524, 65526, 65526, 65524,
         65527, 65528, 65529, 65531, 65531, 65529, 65530, 65533, 65532, 65534, 65534,
         65532, 65535, 0, 1, 3, 3, 1, 2, 5, 4, 6, 6, 4, 7] ∧
    ¬ (wrapModel.Vertices.length ≤ 0 ∧ 0 < wrapModel.Vertices.length + 24) := by
  have hl : wrapModel.Vertices.length = 65520 := by
    simp only [wrapModel, List.length_replicate]
  refine ⟨hl, ?_, by rw [hl]; omega⟩
  rw [AddSolidColorBox_Indices, List.drop_left, hl]
  decide

/-- C2 (amended): when the prior vertex count `n` satisfies `n + 24 ≤ 65536`, every one
of the 36 stored 16-bit indices that the call appends lies in `[n, n + 24)`. -/
theorem AddSolidColorBox_index_range (sqrtf : ℚ → ℚ) (rnd : Nat → Nat) (m : Model)
    (x1 y1 z1 x2 y2 z2 : ℚ) (c : Color) (hfit : m.Vertices.length + 24 ≤ 65536) :
    ∀ i ∈ (m.AddSolidColorBox sqrtf rnd x1 y1 z1 x2 y2 z2 c).Indices.drop m.Indices.length,
      m.Vertices.length ≤ i ∧ i < m.Vertices.length + 24 ∧ i < 65536 := by
  intro i hi
  rw [AddSolidColorBox_Indices, List.drop_left, newIndices_of_fits _ hfit] at hi
  simp only [CubeIndices, List.map_cons, List.map_nil, List.mem_cons, List.mem_singleton,
    List.mem_nil_iff, or_false] at hi
  omega

theorem AddSolidColorBox_index_range_witness :
    (({ Pos := ⟨0, 0, 0⟩ } : Model).Vertices.length + 24 ≤ 65536) ∧
    ∀ i ∈ (({ Pos := ⟨0, 0, 0⟩ } : Model).AddSolidColorBox (fun _ => 0) (fun _ => 0)
              0 0 0 1 1 1 {}).Indices.drop ({ Pos := ⟨0, 0, 0⟩ } : Model).Indices.length,
      ({ Pos := ⟨0, 0, 0⟩ } : Model).Vertices.length ≤ i ∧
      i < ({ Pos := ⟨0, 0, 0⟩ } : Model).Vertices.length + 24 ∧ i < 65536 :=
  ⟨by decide, AddSolidColorBox_index_range (fun _ => 0) (fun _ => 0) { Pos := ⟨0, 0, 0⟩ }
    0 0 0 1 1 1 {} (by decide)⟩

/-! ### Triangles and winding (C3) -/

theorem newVertices_getElem? (sqrtf : ℚ → ℚ) (rnd : Nat → Nat) (x1 y1 z1 x2 y2 z2 : ℚ)
    (c : Color) (j : Nat) (hj : j < 24) :
    (newVertices sqrtf rnd x1 y1 z1 x2 y2 z2 c)[j]? =
      some (boxVertex sqrtf c ((Vert x1 y1 z1 x2 y2 z2).getD j (⟨0, 0, 0⟩, ⟨0, 0, 0⟩))
        (rnd j)) := by
  simp [newVertices, List.getElem?_map, List.getElem?_range hj]

theorem AddSolidColorBox_vertex_at (sqrtf : ℚ → ℚ) (rnd : Nat → Nat) (m : Model)
    (x1 y1 z1 x2 y2 z2 : ℚ) (c : Color) (j : Nat) (hj : j < 24) :
    (m.AddSolidColorBox sqrtf rnd x1 y1 z1 x2 y2 z2 c).Vertices[m.Vertices.length + j]? =
      some (boxVertex sqrtf c ((Vert x1 y1 z1 x2 y2 z2).getD j (⟨0, 0, 0⟩, ⟨0, 0, 0⟩))
        (rnd j)) := by
  rw [AddSolidColorBox_Vertices, List.getElem?_append_right (Nat.le_add_right _ _),
    Nat.add_sub_cancel_left]
  exact newVertices_getElem? sqrtf rnd x1 y1 z1 x2 y2 z2 c j hj

theorem AddSolidColorBox_index_at (sqrtf : ℚ → ℚ) (rnd : Nat → Nat) (m : Model)
    (x1 y1 z1 x2 y2 z2 : ℚ) (c : Color) (hfit : m.Vertices.length + 24 ≤ 65536) (k : Nat) :
    (m.AddSolidColorBox sqrtf rnd x1 y1 z1 x2 y2 z2 c).Indices[m.Indices.length + k]? =
      (CubeIndices[k]?).map (fun index => m.Vertices.length + index) := by
  rw [AddSolidColorBox_Indices, List.getElem?_append_right (Nat.le_add_right _ _),
    Nat.add_sub_cancel_left, newIndices_of_fits _ hfit, List.getElem?_map]

/-- Triangle `t` of the appended indices joins the `Vert` entries named by
`CubeIndices[3t]`, `CubeIndices[3t+1]`, `CubeIndices[3t+2]`. -/
theorem triangleAt_new (sqrtf : ℚ → ℚ) (rnd : Nat → Nat) (m : Model)
    (x1 y1 z1 x2 y2 z2 : ℚ) (c : Color) (hfit : m.Vertices.length + 24 ≤ 65536)
    (t : Nat) (ht : t < 12) :
    triangleAt (m.AddSolidColorBox sqrtf rnd x1 y1 z1 x2 y2 z2 c) m.Indices.length t =
      some (vertPos x1 y1 z1 x2 y2 z2 (CubeIndices.getD (3 * t) 0),
            vertPos x1 y1 z1 x2 y2 z2 (CubeIndices.getD (3 * t + 1) 0),
            vertPos x1 y1 z1 x2 y2 z2 (CubeIndices.getD (3 * t + 2) 0)) := by
  have hi : ∀ k, k < 36 →
      (m.AddSolidColorBox sqrtf rnd x1 y1 z1 x2 y2 z2 c).Indices[m.Indices.length + k]? =
        some (m.Vertices.length + CubeIndices.getD k 0) ∧ CubeIndices.getD k 0 < 24 := by
    intro k hk
    have hk36 : k < CubeIndices.length := by simpa [CubeIndices] using hk
    rw [AddSolidColorBox_index_at sqrtf rnd m x1 y1 z1 x2 y2 z2 c hfit k]
    rw [List.getD_eq_getElem _ _ hk36, List.getElem?_eq_getElem hk36]
    exact ⟨rfl, CubeIndices_lt _ (List.getElem_mem _)⟩
  obtain ⟨e0, b0⟩ := hi (3 * t) (by omega)
  obtain ⟨e1, b1⟩ := hi (3 * t + 1) (by omega)
  obtain ⟨e2, b2⟩ := hi (3 * t + 2) (by omega)
  unfold triangleAt
  rw [Nat.add_assoc, Nat.add_assoc, e0, e1, e2]
  simp only [AddSolidColorBox_vertex_at sqrtf rnd m x1 y1 z1 x2 y2 z2 c _ b0,
    AddSolidColorBox_vertex_at sqrtf rnd m x1 y1 z1 x2 y2 z2 c _ b1,
    AddSolidColorBox_vertex_at sqrtf rnd m x1 y1 z1 x2 y2 z2 c _ b2]
  rfl

/-- The twelve appended triangles written out, face by face. -/
theorem boxTriangle_table (x1 y1 z1 x2 y2 z2 : ℚ) :
    (List.range 12).map (boxTriangle x1 y1 z1 x2 y2 z2) =
      [(⟨x1, y2, z1⟩, ⟨x2, y2, z1⟩, ⟨x1, y2, z2⟩), (⟨x1, y2, z2⟩, ⟨x2, y2, z1⟩, ⟨x2, y2, z2⟩),
       (⟨x2, y1, z1⟩, ⟨x1, y1, z1⟩, ⟨x2, y1, z2⟩), (⟨x2, y1, z2⟩, ⟨x1, y1, z1⟩, ⟨x1, y1, z2⟩),
       (⟨x1, y1, z2⟩, ⟨x1, y1, z1⟩, ⟨x1, y2, z2⟩), (⟨x1, y2, z2⟩, ⟨x1, y1, z1⟩, ⟨x1, y2, z1⟩),
       (⟨x2, y1, z1⟩, ⟨x2, y1, z2⟩, ⟨x2, y2, z1⟩), (⟨x2, y2, z1⟩, ⟨x2, y1, z2⟩, ⟨x2, y2, z2⟩),
       (⟨x1, y1, z1⟩, ⟨x2, y1, z1⟩, ⟨x1, y2, z1⟩), (⟨x1, y2, z1⟩, ⟨x2, y1, z1⟩, ⟨x2, y2, z1⟩),
       (⟨x2, y1, z2⟩, ⟨x1, y1, z2⟩, ⟨x2, y2, z2⟩), (⟨x2, y2, z2⟩, ⟨x1, y1, z2⟩, ⟨x1, y2, z2⟩)] :=
  rfl

theorem boxTriangle_face (x1 y1 z1 x2 y2 z2 : ℚ) (hx : x1 < x2) (hy : y1 < y2)
    (hz : z1 < z2) (t : Nat) (ht : t < 12) (f : Nat) (hf : f < 6) :
    triOnFace x1 y1 z1 x2 y2 z2 f (boxTriangle x1 y1 z1 x2 y2 z2 t) ↔ f = t / 2 := by
  have hx1 := hx.ne
  have hx2 := hx.ne'
  have hy1 := hy.ne
  have hy2 := hy.ne'
  have hz1 := hz.ne
  have hz2 := hz.ne'
  have tbl := boxTriangle_table x1 y1 z1 x2 y2 z2
  simp only [List.range, List.range.loop, List.map_cons, List.map_nil, List.cons.injEq,
    and_true] at tbl
  obtain ⟨e0, e1, e2, e3, e4, e5, e6, e7, e8, e9, e10, e11⟩ := tbl
  interval_cases t <;> interval_cases f <;>
    simp [triOnFace, onFace, hx1, hx2, hy1, hy2, hz1, hz2, e0, e1, e2, e3, e4, e5, e6, e7,
      e8, e9, e10, e11]

theorem boxTriangle_normal (x1 y1 z1 x2 y2 z2 : ℚ) (t : Nat) (ht : t < 12) :
    triNormal (boxTriangle x1 y1 z1 x2 y2 z2 t) =
      (inwardNormal (t / 2)).smul
        (if t / 2 < 2 then (x2 - x1) * (z2 - z1)
         else if t / 2 < 4 then (y2 - y1) * (z2 - z1) else (x2 - x1) * (y2 - y1)) := by
  have tbl := boxTriangle_table x1 y1 z1 x2 y2 z2
  simp only [List.range, List.range.loop, List.map_cons, List.map_nil, List.cons.injEq,
    and_true] at tbl
  obtain ⟨e0, e1, e2, e3, e4, e5, e6, e7, e8, e9, e10, e11⟩ := tbl
  interval_cases t <;>
    simp [triNormal, inwardNormal, Vector3f.smul, Vector3f.cross, Vector3f.sub, e0, e1, e2,
      e3, e4, e5, e6, e7, e8, e9, e10, e11] <;> ring_nf

/-- C3: for a box with `x1<x2`, `y1<y2`, `z1<z2` appended to a model whose indices do
not wrap, each of the twelve index triples `t = 0..11` names three vertices of the new
box; triangle `t` lies on face `t / 2` and on no other face (so every face carries
exactly two triangles), it is non-degenerate, and `(v1 - v0) × (v2 - v0)` is a positive
multiple of the unit normal of that face pointing into the box, i.e. the corners run
clockwise seen from outside, which is the front face of the default rasterizer state. -/
theorem AddSolidColorBox_winding (sqrtf : ℚ → ℚ) (rnd : Nat → Nat) (m : Model)
    (x1 y1 z1 x2 y2 z2 : ℚ) (c : Color) (hfit : m.Vertices.length + 24 ≤ 65536)
    (hx : x1 < x2) (hy : y1 < y2) (hz : z1 < z2) (t : Nat) (ht : t < 12) :
    ∃ tri,
      triangleAt (m.AddSolidColorBox sqrtf rnd x1 y1 z1 x2 y2 z2 c) m.Indices.length t
        = some tri ∧
      (∀ f, f < 6 → (triOnFace x1 y1 z1 x2 y2 z2 f tri ↔ f = t / 2)) ∧
      triNormal tri ≠ ⟨0, 0, 0⟩ ∧
      ∃ k : ℚ, 0 < k ∧ triNormal tri = (inwardNormal (t / 2)).smul k := by
  refine ⟨boxTriangle x1 y1 z1 x2 y2 z2 t,
    triangleAt_new sqrtf rnd m x1 y1 z1 x2 y2 z2 c hfit t ht,
    fun f hf => boxTriangle_face x1 y1 z1 x2 y2 z2 hx hy hz t ht f hf, ?_, ?_⟩
  all_goals rw [boxTriangle_normal x1 y1 z1 x2 y2 z2 t ht]
  all_goals
    have dx : 0 < x2 - x1 := sub_pos.mpr hx
    have dy : 0 < y2 - y1 := sub_pos.mpr hy
    have dz : 0 < z2 - z1 := sub_pos.mpr hz
    have kpos : 0 < (if t / 2 < 2 then (x2 - x1) * (z2 - z1)
        else if t / 2 < 4 then (y2 - y1) * (z2 - z1) else (x2 - x1) * (y2 - y1)) := by
      split_ifs
      · exact mul_pos dx dz
      · exact mul_pos dy dz
      · exact mul_pos dx dy
  · generalize (if t / 2 < 2 then (x2 - x1) * (z2 - z1)
        else if t / 2 < 4 then (y2 - y1) * (z2 - z1) else (x2 - x1) * (y2 - y1)) = k at kpos
    have hk : k ≠ 0 := kpos.ne'
    interval_cases t <;> simp [inwardNormal, Vector3f.smul, hk]
  · exact ⟨_, kpos, rfl⟩

theorem AddSolidColorBox_winding_witness :
    ∃ tri,
      triangleAt (({ Pos := ⟨0, 0, 0⟩ } : Model).AddSolidColorBox (fun _ => 0) (fun _ => 0)
          0 0 0 1 1 1 { R := 64, G := 64, B := 64 })
        ({ Pos := ⟨0, 0, 0⟩ } : Model).Indices.length 7 = some tri ∧
      (∀ f, f < 6 → (triOnFace 0 0 0 1 1 1 f tri ↔ f = 7 / 2)) ∧
      triNormal tri ≠ ⟨0, 0, 0⟩ ∧
      ∃ k : ℚ, 0 < k ∧ triNormal tri = (inwardNormal (7 / 2)).smul k :=
  AddSolidColorBox_winding (fun _ => 0) (fun _ => 0) { Pos := ⟨0, 0, 0⟩ } 0 0 0 1 1 1
    { R := 64, G := 64, B := 64 } (by decide) (by norm_num) (by norm_num) (by norm_num) 7
    (by decide)

/-! ### Colour clamp (C4) -/

theorem FVal.NonnegOrInf.add {a b : FVal} (ha : a.NonnegOrInf) (hb : b.NonnegOrInf) :
    (FVal.add a b).NonnegOrInf := by
  rcases ha with rfl | ⟨x, rfl, hx⟩ <;> rcases hb with rfl | ⟨y, rfl, hy⟩
  · left; rfl
  · left; rfl
  · left; rfl
  · right; exact ⟨x + y, rfl, add_nonneg hx hy⟩

/-- C5 fails on the code: when `CreateSamplerState` in `DirectX11::DirectX11` reports
`E_OUTOFMEMORY` the constructor does not take the fatal path; it goes on with the null
sampler state, issues every later call and returns normally.  The same holds for
`CreateInputLayout` there, for `CreateShaderResourceView`, `CreateRenderTargetView`,
the depth `CreateTexture2D` and `CreateDepthStencilView` of `EyeTarget::EyeTarget`, and
for `CreateShaderResourceView` of `Scene::Scene`.  A failing `CreateTexture2D` of
`EyeTarget::EyeTarget` or `Scene::Scene`, or a failing `D3DReflect`, is not checked
either: the code goes on with the null pointer until `operator->` raises
`_com_error(E_POINTER)`, which is not the `Failed HRESULT` of `ThrowOnFailure`.  The
checked calls, such as those of `Model::AllocateBuffers`, throw `Failed HRESULT`. -/
theorem unchecked_failure_not_fatal :
    (DirectX11Ctor (failOnly .CreateSamplerState) 3).run [] =
      .ok ((), [.CreateDXGIFactory, .EnumAdapters, .D3D11CreateDeviceAndSwapChain,
                .GetBuffer, .CreateBackBufferView, .CreateUniformBuffer,
                .CreateRasterizerState, .CreateDepthStencilState, .CreateSamplerState,
                .CompileVertexShader, .CreateVertexShader, .D3DReflect,
                .ConstantBufferGetDesc, .VariableGetDesc 0, .VariableGetDesc 1,
                .VariableGetDesc 2, .CreateInputLayout, .CompilePixelShader,
                .CreatePixelShader]) ∧
    ((DirectX11Ctor (failOnly .CreateInputLayout) 3).run []).isOk = true ∧
    (∀ bad ∈ [ApiCall.EyeCreateShaderResourceView, .EyeCreateRenderTargetView,
        .EyeCreateDepthTexture2D, .EyeCreateDepthStencilView],
      (EyeTargetCtor (failOnly bad)).run [] =
        .ok ((), [.EyeCreateTexture2D, .EyeCreateShaderResourceView,
                  .EyeCreateRenderTargetView, .EyeCreateDepthTexture2D,
                  .EyeCreateDepthStencilView])) ∧
    ((SceneCtor (failOnly (.SceneCreateShaderResourceView 0))).run []).isOk = true ∧
    (EyeTargetCtor (failOnly .EyeCreateTexture2D)).run [] = .error (.comError E_POINTER) ∧
    (SceneCtor (failOnly (.SceneCreateTexture2D 0))).run [] = .error (.comError E_POINTER) ∧
    (DirectX11Ctor (failOnly .D3DReflect) 3).run [] = .error (.comError E_POINTER) ∧
    (DirectX11Ctor (failOnly (.VariableGetDesc 1)) 3).run [] = .error .undefined ∧
    (AllocateBuffers (failOnly .CreateVertexBuffer)).run []
      = .error (.runtimeError "Failed HRESULT") ∧
    (DirectX11Ctor (failOnly .CreateRasterizerState) 3).run []
      = .error (.runtimeError "Failed HRESULT") := by
  refine ⟨rfl, rfl, ?_, rfl, rfl, rfl, rfl, rfl, rfl, rfl⟩
  intro bad hbad
  simp only [List.mem_cons, List.mem_singleton, List.mem_nil_iff, or_false] at hbad
  rcases hbad with h | h | h | h <;> subst h <;> rfl

/-! ### Draw sequence of a frame (C6) -/

theorem Scene_Render_trace (Models : List Model) (dx11 : DirectX11) (view proj : Matrix4f) :
    (Scene.Render Models dx11 view proj).trace =
        dx11.trace ++ Models.map (fun m =>
          Event.DrawIndexed m.texture m.Indices.length (view.mul m.GetMatrix).Transposed proj)
      ∧ (Scene.Render Models dx11 view proj).Key = dx11.Key := by
  unfold Scene.Render
  induction Models generalizing dx11 with
  | nil => simp
  | cons m rest ih =>
    simp only [List.foldl_cons, List.map_cons]
    obtain ⟨h1, h2⟩ := ih
      (((dx11.SetUniform "View" (view.mul m.GetMatrix).Transposed).SetUniform "Proj"
        proj).Render m.texture m.Indices.length)
    rw [h1, h2]
    simp [DirectX11.Render, DirectX11.SetUniform]

theorem renderEye_trace (env : Env) (Models : List Model) (Pos : Vector3f) (Yaw : ℚ)
    (eyePoses : Nat → Posef) (dx11 : DirectX11) (eye : Nat) :
    (renderEye env Models Pos Yaw eyePoses dx11 eye).trace =
        dx11.trace ++ eyeDraws env Models Pos Yaw eyePoses eye
      ∧ (renderEye env Models Pos Yaw eyePoses dx11 eye).Key = dx11.Key := by
  unfold renderEye
  obtain ⟨h1, h2⟩ := Scene_Render_trace Models (dx11.ClearAndSetEyeTarget eye)
    (eyeCamera env Pos Yaw (eyePoses eye)).view (env.Projection eye).Transposed
  simp only [h1, h2]
  simp [DirectX11.ClearAndSetEyeTarget, eyeDraws]

theorem eyeLoop_trace (env : Env) (Models : List Model) (Pos : Vector3f) (Yaw : ℚ)
    (eyePoses : Nat → Posef) (dx11 : DirectX11) :
    ((List.range 2).foldl (renderEye env Models Pos Yaw eyePoses) dx11).trace =
        dx11.trace ++ (eyeDraws env Models Pos Yaw eyePoses 0
          ++ eyeDraws env Models Pos Yaw eyePoses 1)
      ∧ ((List.range 2).foldl (renderEye env Models Pos Yaw eyePoses) dx11).Key
          = dx11.Key := by
  have hr : List.range 2 = [0, 1] := rfl
  rw [hr]
  simp only [List.foldl_cons, List.foldl_nil]
  obtain ⟨a1, a2⟩ := renderEye_trace env Models Pos Yaw eyePoses dx11 0
  obtain ⟨b1, b2⟩ := renderEye_trace env Models Pos Yaw eyePoses
    (renderEye env Models Pos Yaw eyePoses dx11 0) 1
  rw [b1, b2, a1, a2]
  simp

theorem IsAnyKeyPressed_eq (dx : DirectX11) : dx.IsAnyKeyPressed = anyKey dx.Key := rfl

theorem pumpMessage_spec (s : AppState) (inp : FrameInput) :
    (pumpMessage s inp).dx11.trace =
        s.dx11.trace ++ [Event.PeekMessage] ++ dispatched (pendingMessages s inp)
      ∧ (pumpMessage s inp).Yaw = s.Yaw ∧ (pumpMessage s inp).Pos = s.Pos
      ∧ (pumpMessage s inp).appClock = s.appClock
      ∧ (pumpMessage s inp).Models = s.Models := by
  unfold pumpMessage pendingMessages
  cases hp : s.posted ++ inp.posted with
  | cons msg rest =>
    simp only [AppState.log]
    rw [hp]
    simp [dispatched]
  | nil =>
    cases hq : s.queue ++ inp.arrived with
    | nil =>
      simp only [AppState.log]
      rw [hp, hq]
      simp [dispatched]
    | cons msg rest =>
      simp only [AppState.log]
      rw [hp, hq]
      simp [dispatched]

/-- What one poll does to the key array and to the pending messages. -/
theorem pumpMessage_Key (s : AppState) (inp : FrameInput) :
    (pumpMessage s inp).dx11.Key = keyAfterPoll s.dx11.Key (pendingMessages s inp) ∧
    (pumpMessage s inp).queue = queueAfterPoll s inp ∧
    (pumpMessage s inp).posted = postedAfterPoll s inp := by
  unfold pumpMessage pendingMessages queueAfterPoll postedAfterPoll
  cases hp : s.posted ++ inp.posted with
  | cons msg rest =>
    simp only [AppState.log]
    rw [hp]
    exact ⟨rfl, rfl, rfl⟩
  | nil =>
    cases hq : s.queue ++ inp.arrived with
    | nil =>
      simp only [AppState.log]
      rw [hp, hq]
      exact ⟨rfl, rfl, rfl⟩
    | cons msg rest =>
      simp only [AppState.log]
      rw [hp, hq]
      exact ⟨rfl, rfl, rfl⟩

theorem frameInput_spec (s : AppState) (inp : FrameInput) :
    (frameInput s inp).dx11.trace =
        s.dx11.trace ++ [Event.PeekMessage] ++ dispatched (pendingMessages s inp)
          ++ [Event.BeginFrame]
          ++ (if (frameInput s inp).dx11.Key keyR then [Event.RecenterPose] else [])
          ++ (if anyKey (frameInput s inp).dx11.Key then [Event.DismissHSWDisplay] else [])
      ∧ (frameInput s inp).Yaw = s.Yaw ∧ (frameInput s inp).Pos = s.Pos
      ∧ (frameInput s inp).appClock = s.appClock + 1
      ∧ (frameInput s inp).Models = s.Models := by
  obtain ⟨pt, py, pp, pc, pm⟩ :=
    pumpMessage_spec { s with appClock := s.appClock + 1 } inp
  have hpend : pendingMessages { s with appClock := s.appClock + 1 } inp
      = pendingMessages s inp := rfl
  rw [hpend] at pt
  unfold frameInput
  dsimp only at pt py pp pc pm ⊢
  generalize pumpMessage { s with appClock := s.appClock + 1 } inp = p at *
  have e1 : (p.log Event.BeginFrame).dx11.Key = p.dx11.Key := rfl
  have e2 : ((p.log Event.BeginFrame).log Event.RecenterPose).dx11.Key = p.dx11.Key := rfl
  simp only [IsAnyKeyPressed_eq, e1]
  cases hr : p.dx11.Key keyR
  · simp only [Bool.false_eq_true, if_false, e1]
    cases ha : anyKey p.dx11.Key <;> simp [AppState.log, pt, py, pp, pc, pm, hr, ha]
  · simp only [if_true, e2]
    cases ha : anyKey p.dx11.Key <;> simp [AppState.log, pt, py, pp, pc, pm, hr, ha]

/-- The key array and the pending messages after the first part of the loop body. -/
theorem frameInput_Key_queue (s : AppState) (inp : FrameInput) :
    (frameInput s inp).dx11.Key = keyAfterPoll s.dx11.Key (pendingMessages s inp) ∧
    (frameInput s inp).queue = queueAfterPoll s inp ∧
    (frameInput s inp).posted = postedAfterPoll s inp := by
  obtain ⟨pk, pq, pp⟩ := pumpMessage_Key { s with appClock := s.appClock + 1 } inp
  have h1 : pendingMessages { s with appClock := s.appClock + 1 } inp
      = pendingMessages s inp := rfl
  have h2 : queueAfterPoll { s with appClock := s.appClock + 1 } inp
      = queueAfterPoll s inp := rfl
  have h3 : postedAfterPoll { s with appClock := s.appClock + 1 } inp
      = postedAfterPoll s inp := rfl
  rw [h1] at pk
  rw [h2] at pq
  rw [h3] at pp
  unfold frameInput
  dsimp only at pk pq pp ⊢
  generalize pumpMessage { s with appClock := s.appClock + 1 } inp = p at *
  have e1 : (p.log Event.BeginFrame).dx11.Key = p.dx11.Key := rfl
  have e2 : ((p.log Event.BeginFrame).log Event.RecenterPose).dx11.Key = p.dx11.Key := rfl
  simp only [IsAnyKeyPressed_eq, e1]
  cases hr : p.dx11.Key keyR
  · simp only [Bool.false_eq_true, if_false, e1]
    cases hany : anyKey p.dx11.Key <;> simp [AppState.log, pk, pq, pp]
  · simp only [if_true, e2]
    cases hany : anyKey p.dx11.Key <;> simp [AppState.log, pk, pq, pp]

theorem frameUpdate_spec (env : Env) (s : AppState) (inp : FrameInput) :
    (frameUpdate env s inp).dx11.trace =
        s.dx11.trace ++ [Event.GetFloatEyeHeight, Event.GetEyePoses]
      ∧ (frameUpdate env s inp).dx11.Key = s.dx11.Key
      ∧ (frameUpdate env s inp).Yaw = (keyboardStep env s.dx11.Key inp.eyeHeight s.Yaw s.Pos).1
      ∧ (frameUpdate env s inp).Pos = (keyboardStep env s.dx11.Key inp.eyeHeight s.Yaw s.Pos).2
      ∧ (frameUpdate env s inp).appClock = s.appClock
      ∧ (frameUpdate env s inp).Models = animateCube env s.appClock s.Models
      ∧ (frameUpdate env s inp).queue = s.queue := by
  simp [frameUpdate, AppState.log]

theorem frameRender_spec (env : Env) (s : AppState) (inp : FrameInput) :
    (frameRender env s inp).dx11.trace =
        s.dx11.trace ++ (eyeDraws env s.Models s.Pos s.Yaw inp.eyePoses 0
          ++ eyeDraws env s.Models s.Pos s.Yaw inp.eyePoses 1) ++ [Event.EndFrame]
      ∧ (frameRender env s inp).dx11.Key = s.dx11.Key
      ∧ (frameRender env s inp).Yaw = s.Yaw
      ∧ (frameRender env s inp).Pos = s.Pos
      ∧ (frameRender env s inp).appClock = s.appClock
      ∧ (frameRender env s inp).Models = s.Models
      ∧ (frameRender env s inp).queue = s.queue := by
  obtain ⟨h1, h2⟩ := eyeLoop_trace env s.Models s.Pos s.Yaw inp.eyePoses s.dx11
  simp only [frameRender, AppState.log, h1, h2, and_self]

theorem frameUpdate_posted (env : Env) (s : AppState) (inp : FrameInput) :
    (frameUpdate env s inp).posted = s.posted := by
  simp [frameUpdate, AppState.log]

theorem frameRender_posted (env : Env) (s : AppState) (inp : FrameInput) :
    (frameRender env s inp).posted = s.posted := by
  simp only [frameRender, AppState.log]

/-- The key array and the pending messages that one frame leaves. -/
theorem frame_Key_queue (env : Env) (s : AppState) (inp : FrameInput) :
    (frame env s inp).dx11.Key = keyAfterPoll s.dx11.Key (pendingMessages s inp) ∧
    (frame env s inp).queue = queueAfterPoll s inp ∧
    (frame env s inp).posted = postedAfterPoll s inp := by
  obtain ⟨ik, iq, ip⟩ := frameInput_Key_queue s inp
  obtain ⟨-, uk, -, -, -, -, uq⟩ := frameUpdate_spec env (frameInput s inp) inp
  obtain ⟨-, rk, -, -, -, -, rq⟩ :=
    frameRender_spec env (frameUpdate env (frameInput s inp) inp) inp
  unfold frame
  rw [rk, rq, uk, uq, ik, iq, frameRender_posted, frameUpdate_posted, ip]
  exact ⟨rfl, rfl, rfl⟩

/-- The record of calls of one frame: the prelude, then the draws of the left eye, then
those of the right eye, then `EndFrame`; position, yaw and models in the draws are those
the frame leaves. -/
theorem frame_trace (env : Env) (s : AppState) (inp : FrameInput) :
    (frame env s inp).dx11.trace =
      s.dx11.trace ++ framePrelude s inp (frame env s inp).dx11.Key
        ++ eyeDraws env (frame env s inp).Models (frame env s inp).Pos
            (frame env s inp).Yaw inp.eyePoses 0
        ++ eyeDraws env (frame env s inp).Models (frame env s inp).Pos
            (frame env s inp).Yaw inp.eyePoses 1
        ++ [Event.EndFrame] := by
  obtain ⟨it, -⟩ := frameInput_spec s inp
  obtain ⟨ut, uk, -⟩ := frameUpdate_spec env (frameInput s inp) inp
  obtain ⟨rt, rk, ry, rp, -, rm, -⟩ :=
    frameRender_spec env (frameUpdate env (frameInput s inp) inp) inp
  unfold frame
  rw [ry, rp, rm, rk, uk, rt, ut, it]
  simp [framePrelude]

/-- C6: in every frame the draw submissions are, in this order, those of the left eye
(index 0) and then those of the right eye (index 1), followed by `EndFrame`; nothing
before them in the frame is a draw or a clear.  The submissions of one eye are the bind
and clear of its target followed by exactly one `DrawIndexed` per model, in list order:
the one for model `m` has index count `|m.Indices|`, uniform `View` equal to
`transpose (view * m.GetMatrix())` and uniform `Proj` equal to the projection of the eye
as `WinMain` hands it to `Scene::Render` (transposed), the same for all models.  A frame
issues `2 * |Models|` draws. -/
theorem frame_draw_sequence (env : Env) (s : AppState) (inp : FrameInput) :
    ∃ pre : List Event,
      (frame env s inp).dx11.trace =
        s.dx11.trace ++ pre
          ++ eyeDraws env (frame env s inp).Models (frame env s inp).Pos
              (frame env s inp).Yaw inp.eyePoses 0
          ++ eyeDraws env (frame env s inp).Models (frame env s inp).Pos
              (frame env s inp).Yaw inp.eyePoses 1
          ++ [Event.EndFrame] ∧
      (∀ e ∈ pre, e.isDraw = false ∧ e.isClear = false) ∧
      (∀ eye,
        eyeDraws env (frame env s inp).Models (frame env s inp).Pos (frame env s inp).Yaw
            inp.eyePoses eye =
          Event.ClearAndSetEyeTarget eye ::
            (frame env s inp).Models.map (fun m =>
              Event.DrawIndexed m.texture m.Indices.length
                (((eyeCamera env (frame env s inp).Pos (frame env s inp).Yaw
                    (inp.eyePoses eye)).view.mul m.GetMatrix).Transposed)
                (env.Projection eye).Transposed)) ∧
      ((eyeDraws env (frame env s inp).Models (frame env s inp).Pos (frame env s inp).Yaw
            inp.eyePoses 0
          ++ eyeDraws env (frame env s inp).Models (frame env s inp).Pos
            (frame env s inp).Yaw inp.eyePoses 1).filter Event.isDraw).length
        = 2 * (frame env s inp).Models.length := by
  refine ⟨framePrelude s inp (frame env s inp).dx11.Key, frame_trace env s inp, ?_,
    fun _ => rfl, ?_⟩
  · intro e he
    unfold framePrelude at he
    have hd : ∀ l : List MSG, ∀ e ∈ dispatched l, e.isDraw = false ∧ e.isClear = false := by
      intro l e h
      cases l with
      | nil => simp [dispatched] at h
      | cons msg rest =>
        simp only [dispatched, List.mem_cons, List.mem_singleton, List.mem_nil_iff,
          or_false] at h
        rcases h with h | h <;> subst h <;> exact ⟨rfl, rfl⟩
    simp only [List.mem_append, List.mem_singleton, List.mem_cons, List.mem_nil_iff,
      or_false] at he
    rcases he with ((((h | h) | h) | h) | h) | h
    · subst h; exact ⟨rfl, rfl⟩
    · exact hd _ e h
    · subst h; exact ⟨rfl, rfl⟩
    · split_ifs at h
      · simp only [List.mem_singleton] at h
        subst h; exact ⟨rfl, rfl⟩
      · simp at h
    · split_ifs at h
      · simp only [List.mem_singleton] at h
        subst h; exact ⟨rfl, rfl⟩
      · simp at h
    · rcases h with h | h <;> subst h <;> exact ⟨rfl, rfl⟩
  · have hcount : ∀ (Models : List Model) (f : Model → Matrix4f) (P : Matrix4f),
        ((Models.map (fun m =>
          Event.DrawIndexed m.texture m.Indices.length (f m) P)).filter Event.isDraw).length
          = Models.length := by
      intro Models f P
      induction Models with
      | nil => rfl
      | cons m rest ih =>
        simp only [List.map_cons, List.filter_cons, Event.isDraw, if_true, List.length_cons,
          ih]
    have h0 := hcount (frame env s inp).Models
      (fun m => ((eyeCamera env (frame env s inp).Pos (frame env s inp).Yaw
        (inp.eyePoses 0)).view.mul m.GetMatrix).Transposed) (env.Projection 0).Transposed
    have h1 := hcount (frame env s inp).Models
      (fun m => ((eyeCamera env (frame env s inp).Pos (frame env s inp).Yaw
        (inp.eyePoses 1)).view.mul m.GetMatrix).Transposed) (env.Projection 1).Transposed
    simp only [eyeDraws, List.filter_append, List.filter_cons, Event.isDraw,
      List.length_append, Bool.false_eq_true, if_false, h0, h1]
    omega

/-! ### Per-eye view construction (C7, C8) -/

theorem ofRows_apply (r0 r1 r2 r3 : Fin 4 → ℚ) :
    Matrix4f.ofRows r0 r1 r2 r3 0 = r0 ∧ Matrix4f.ofRows r0 r1 r2 r3 1 = r1 ∧
    Matrix4f.ofRows r0 r1 r2 r3 2 = r2 ∧ Matrix4f.ofRows r0 r1 r2 r3 3 = r3 :=
  ⟨rfl, rfl, rfl, rfl⟩

theorem row4_apply (a b c d : ℚ) :
    row4 a b c d 0 = a ∧ row4 a b c d 1 = b ∧ row4 a b c d 2 = c ∧ row4 a b c d 3 = d :=
  ⟨rfl, rfl, rfl, rfl⟩

theorem RotationY_Transform (sinf cosf : ℚ → ℚ) (a : ℚ) (v : Vector3f) :
    (Matrix4f.RotationY sinf cosf a).Transform v =
      ⟨cosf a * v.x + sinf a * v.z, v.y, -sinf a * v.x + cosf a * v.z⟩ := by
  simp [Matrix4f.RotationY, Matrix4f.Transform, ofRows_apply, row4_apply]

theorem ofQuat_Transform (q : Quatf) (v : Vector3f) :
    (Matrix4f.ofQuat q).Transform v =
      ⟨(q.w * q.w + q.x * q.x - q.y * q.y - q.z * q.z) * v.x
          + 2 * (q.x * q.y - q.w * q.z) * v.y + 2 * (q.x * q.z + q.w * q.y) * v.z,
       2 * (q.x * q.y + q.w * q.z) * v.x
          + (q.w * q.w - q.x * q.x + q.y * q.y - q.z * q.z) * v.y
          + 2 * (q.y * q.z - q.w * q.x) * v.z,
       2 * (q.x * q.z - q.w * q.y) * v.x + 2 * (q.y * q.z + q.w * q.x) * v.y
          + (q.w * q.w - q.x * q.x - q.y * q.y + q.z * q.z) * v.z⟩ := by
  simp [Matrix4f.Transform, Matrix4f.ofQuat, ofRows_apply, row4_apply]

/-- Applying `RotationY(a) * Matrix4f(q)` is applying `Matrix4f(q)` and then
`RotationY(a)`. -/
theorem RotationY_mul_ofQuat_Transform (sinf cosf : ℚ → ℚ) (a : ℚ) (q : Quatf)
    (v : Vector3f) :
    ((Matrix4f.RotationY sinf cosf a).mul (Matrix4f.ofQuat q)).Transform v =
      (Matrix4f.RotationY sinf cosf a).Transform ((Matrix4f.ofQuat q).Transform v) := by
  rw [RotationY_Transform, ofQuat_Transform]
  simp [Matrix4f.RotationY, Matrix4f.Transform, Matrix4f.mul, Matrix4f.ofQuat, ofRows_apply,
    row4_apply]
  refine ⟨?_, ?_⟩ <;> ring

theorem ofQuat_identity_Transform (v : Vector3f) : (Matrix4f.ofQuat {}).Transform v = v := by
  rw [ofQuat_Transform]
  simp

/-- C7: for every player position, yaw and eye pose `(q, p)` the camera of the eye loop
has position `Pos + RotationY(yaw).Transform(p)`, the same for every orientation `q`
(in coordinates `(Pos.x + cos·p.x + sin·p.z, Pos.y + p.y, Pos.z - sin·p.x + cos·p.z)`),
forward and up vectors `(RotationY(yaw) * Matrix4f(q)).Transform` of `(0,0,-1)` and
`(0,1,0)`, and view matrix `LookAtRH(position, position + forward, up)`; this is the
view that `renderEye` multiplies with each model matrix. -/
theorem eyeCamera_spec (env : Env) (Pos : Vector3f) (Yaw : ℚ) (q : Quatf) (p : Vector3f) :
    (eyeCamera env Pos Yaw ⟨q, p⟩).shiftedEyePos
        = Pos.add ((Matrix4f.RotationY env.sinf env.cosf Yaw).Transform p) ∧
    (eyeCamera env Pos Yaw ⟨q, p⟩).shiftedEyePos
        = ⟨Pos.x + (env.cosf Yaw * p.x + env.sinf Yaw * p.z), Pos.y + p.y,
           Pos.z + (-env.sinf Yaw * p.x + env.cosf Yaw * p.z)⟩ ∧
    (∀ q', (eyeCamera env Pos Yaw ⟨q', p⟩).shiftedEyePos
        = (eyeCamera env Pos Yaw ⟨q, p⟩).shiftedEyePos) ∧
    (eyeCamera env Pos Yaw ⟨q, p⟩).finalForward
        = ((Matrix4f.RotationY env.sinf env.cosf Yaw).mul (Matrix4f.ofQuat q)).Transform
            ⟨0, 0, -1⟩ ∧
    (eyeCamera env Pos Yaw ⟨q, p⟩).finalUp
        = ((Matrix4f.RotationY env.sinf env.cosf Yaw).mul (Matrix4f.ofQuat q)).Transform
            ⟨0, 1, 0⟩ ∧
    (eyeCamera env Pos Yaw ⟨q, p⟩).view
        = env.LookAtRH (eyeCamera env Pos Yaw ⟨q, p⟩).shiftedEyePos
            ((eyeCamera env Pos Yaw ⟨q, p⟩).shiftedEyePos.add
              (eyeCamera env Pos Yaw ⟨q, p⟩).finalForward)
            (eyeCamera env Pos Yaw ⟨q, p⟩).finalUp := by
  refine ⟨rfl, ?_, fun _ => rfl, rfl, rfl, rfl⟩
  show Pos.add ((Matrix4f.RotationY env.sinf env.cosf Yaw).Transform p) = _
  rw [RotationY_Transform]
  rfl

/-- C8: with yaw 0, eye offset `(0,0,0)` and the identity orientation (and a C library
with `sin 0 = 0`, `cos 0 = 1`) the camera sits at the player position, looks along
`(0,0,-1)` and has up vector `(0,1,0)`. -/
theorem eyeCamera_zero_pose (env : Env) (hs : env.sinf 0 = 0) (hc : env.cosf 0 = 1)
    (Pos : Vector3f) :
    (eyeCamera env Pos 0 ⟨{}, ⟨0, 0, 0⟩⟩).shiftedEyePos = Pos ∧
    (eyeCamera env Pos 0 ⟨{}, ⟨0, 0, 0⟩⟩).finalForward = ⟨0, 0, -1⟩ ∧
    (eyeCamera env Pos 0 ⟨{}, ⟨0, 0, 0⟩⟩).finalUp = ⟨0, 1, 0⟩ ∧
    (eyeCamera env Pos 0 ⟨{}, ⟨0, 0, 0⟩⟩).view
      = env.LookAtRH Pos (Pos.add ⟨0, 0, -1⟩) ⟨0, 1, 0⟩ := by
  have h1 : (eyeCamera env Pos 0 ⟨{}, ⟨0, 0, 0⟩⟩).shiftedEyePos = Pos := by
    show Pos.add ((Matrix4f.RotationY env.sinf env.cosf 0).Transform ⟨0, 0, 0⟩) = Pos
    rw [RotationY_Transform]
    simp [Vector3f.add]
  have h2 : (eyeCamera env Pos 0 ⟨{}, ⟨0, 0, 0⟩⟩).finalForward = ⟨0, 0, -1⟩ := by
    show ((Matrix4f.RotationY env.sinf env.cosf 0).mul (Matrix4f.ofQuat {})).Transform
      ⟨0, 0, -1⟩ = _
    rw [RotationY_mul_ofQuat_Transform, ofQuat_identity_Transform, RotationY_Transform]
    simp [hs, hc]
  have h3 : (eyeCamera env Pos 0 ⟨{}, ⟨0, 0, 0⟩⟩).finalUp = ⟨0, 1, 0⟩ := by
    show ((Matrix4f.RotationY env.sinf env.cosf 0).mul (Matrix4f.ofQuat {})).Transform
      ⟨0, 1, 0⟩ = _
    rw [RotationY_mul_ofQuat_Transform, ofQuat_identity_Transform, RotationY_Transform]
    simp [hs, hc]
  refine ⟨h1, h2, h3, ?_⟩
  show env.LookAtRH (eyeCamera env Pos 0 ⟨{}, ⟨0, 0, 0⟩⟩).shiftedEyePos
      ((eyeCamera env Pos 0 ⟨{}, ⟨0, 0, 0⟩⟩).shiftedEyePos.add
        (eyeCamera env Pos 0 ⟨{}, ⟨0, 0, 0⟩⟩).finalForward)
      (eyeCamera env Pos 0 ⟨{}, ⟨0, 0, 0⟩⟩).finalUp = _
  rw [h1, h2, h3]

/-! ### A concrete environment -/

theorem eyeCamera_zero_pose_witness :
    (eyeCamera sampleEnv ⟨0, 16 / 10, -5⟩ 0 ⟨{}, ⟨0, 0, 0⟩⟩).shiftedEyePos = ⟨0, 16 / 10, -5⟩ ∧
    (eyeCamera sampleEnv ⟨0, 16 / 10, -5⟩ 0 ⟨{}, ⟨0, 0, 0⟩⟩).finalForward = ⟨0, 0, -1⟩ ∧
    (eyeCamera sampleEnv ⟨0, 16 / 10, -5⟩ 0 ⟨{}, ⟨0, 0, 0⟩⟩).finalUp = ⟨0, 1, 0⟩ ∧
    (eyeCamera sampleEnv ⟨0, 16 / 10, -5⟩ 0 ⟨{}, ⟨0, 0, 0⟩⟩).view
      = sampleEnv.LookAtRH ⟨0, 16 / 10, -5⟩ (Vector3f.add ⟨0, 16 / 10, -5⟩ ⟨0, 0, -1⟩)
          ⟨0, 1, 0⟩ :=
  eyeCamera_zero_pose sampleEnv (by norm_num [sampleEnv]) (by norm_num [sampleEnv])
    ⟨0, 16 / 10, -5⟩

/-! ### Walking forward (C9) -/

/-- Known binary32 values, as a check of `fl32`: `0.05f`, `0.02f`, `1.6f`, `3.141592f`
and `0.3f`, the tie `2^24 + 1` that rounds to the even neighbour, and two values in the
subnormal range. -/
theorem fl32_values :
    fl32 0 = 0 ∧ fl32 1 = 1 ∧ fl32 (-5) = -5 ∧
    fl32 (5 / 100) = 13421773 / 268435456 ∧
    fl32 (2 / 100) = 5368709 / 268435456 ∧
    fl32 (16 / 10) = 13421773 / 8388608 ∧
    fl32 (3141592 / 1000000) = 1647099 / 524288 ∧
    fl32 (3 / 10) = 5033165 / 16777216 ∧
    fl32 16777217 = 16777216 ∧
    fl32 (1 / 10 ^ 40) = 35681 / 2 ^ 148 ∧
    fl32 (3 / 2 * (1 / 2 ^ 149)) = 2 / 2 ^ 149 ∧
    fl32 (5 / 2 * (1 / 2 ^ 149)) = 2 / 2 ^ 149 := by
  refine ⟨?_, ?_, ?_, ?_, ?_, ?_, ?_, ?_, ?_, ?_, ?_, ?_⟩ <;> decide!

theorem fl32_zero : fl32 0 = 0 := by decide!

theorem fl32_one : fl32 1 = 1 := by decide!

theorem keyboardStep_onlyW (env : Env) (eyeHeight : ℚ → ℚ) (Yaw : ℚ) (Pos : Vector3f) :
    keyboardStep env onlyW eyeHeight Yaw Pos =
      (Yaw, ⟨fl32 (Pos.x + (walkStep env Yaw).x),
             eyeHeight (fl32 (Pos.y + (walkStep env Yaw).y)),
             fl32 (Pos.z + (walkStep env Yaw).z)⟩) := by
  have h1 : onlyW VK_LEFT = false := by decide
  have h2 : onlyW VK_RIGHT = false := by decide
  have h3 : onlyW keyW = true := by decide
  have h4 : onlyW keyS = false := by decide
  have h5 : onlyW VK_DOWN = false := by decide
  have h6 : onlyW keyD = false := by decide
  have h7 : onlyW keyA = false := by decide
  simp only [keyboardStep, h1, h2, h3, h4, h5, h6, h7, walkStep, Vector3f.addF,
    Bool.false_eq_true, if_false, if_true, Bool.true_or, Bool.or_self]

/-- A poll on a key array with only W down leaves it so when the pending messages do. -/
theorem keyAfterPoll_onlyW (l : List MSG) (h : ∀ msg ∈ l, keepsOnlyW msg) :
    keyAfterPoll onlyW l = onlyW := by
  cases l with
  | nil => rfl
  | cons msg rest => exact h msg (List.mem_cons_self _ _)

/-- Every message that a frame leaves pending was pending at its poll or was posted by
`TranslateMessage` in it. -/
theorem frame_pending_mem (env : Env) (s : AppState) (inp : FrameInput) :
    ∀ msg ∈ (frame env s inp).posted ++ (frame env s inp).queue,
      msg ∈ pendingMessages s inp ∨ ∃ m, msg ∈ inp.translate m := by
  obtain ⟨-, fq, fp⟩ := frame_Key_queue env s inp
  rw [fq, fp]
  unfold postedAfterPoll queueAfterPoll pendingMessages
  intro msg hmsg
  cases hp : s.posted ++ inp.posted with
  | cons m rest =>
    rw [hp] at hmsg
    simp only [List.mem_append, List.mem_cons] at hmsg ⊢
    rcases hmsg with (h | h) | h | h
    · exact Or.inl (Or.inl (Or.inr h))
    · exact Or.inr ⟨m, h⟩
    · exact Or.inl (Or.inr (Or.inl h))
    · exact Or.inl (Or.inr (Or.inr h))
  | nil =>
    rw [hp] at hmsg
    cases hq : s.queue ++ inp.arrived with
    | nil =>
      rw [hq] at hmsg
      simp at hmsg
    | cons m rest =>
      rw [hq] at hmsg
      simp only [List.tail_cons, List.mem_append, List.mem_cons, List.nil_append] at hmsg ⊢
      rcases hmsg with h | h
      · exact Or.inr ⟨m, h⟩
      · exact Or.inl (Or.inr h)

/-- One frame in which only W is down and stays so: yaw and key array stay, `x` and `z`
move by the rounded sum with `walkStep`, and the height becomes the eye height the SDK
reports. -/
theorem frame_onlyW (env : Env) (s : AppState) (inp : FrameInput)
    (hk : s.dx11.Key = onlyW) (hp : ∀ msg ∈ pendingMessages s inp, keepsOnlyW msg) :
    (frame env s inp).dx11.Key = onlyW ∧
    (frame env s inp).Yaw = s.Yaw ∧
    (frame env s inp).Pos =
      ⟨fl32 (s.Pos.x + (walkStep env s.Yaw).x),
       inp.eyeHeight (fl32 (s.Pos.y + (walkStep env s.Yaw).y)),
       fl32 (s.Pos.z + (walkStep env s.Yaw).z)⟩ := by
  obtain ⟨fk, -, -⟩ := frame_Key_queue env s inp
  rw [hk, keyAfterPoll_onlyW _ hp] at fk
  obtain ⟨ik, -, -⟩ := frameInput_Key_queue s inp
  rw [hk, keyAfterPoll_onlyW _ hp] at ik
  obtain ⟨-, iy, ip, -, -⟩ := frameInput_spec s inp
  obtain ⟨-, -, uy, up, -, -, -⟩ := frameUpdate_spec env (frameInput s inp) inp
  obtain ⟨-, -, ry, rp, -, -, -⟩ :=
    frameRender_spec env (frameUpdate env (frameInput s inp) inp) inp
  refine ⟨fk, ?_, ?_⟩
  · unfold frame
    rw [ry, uy, ik, iy, ip, keyboardStep_onlyW]
  · unfold frame
    rw [rp, up, ik, iy, ip, keyboardStep_onlyW]

theorem loopCondition_onlyW (dx11 : DirectX11) (hk : dx11.Key = onlyW) :
    loopCondition dx11 = true := by
  unfold loopCondition
  rw [hk]
  decide

/-- The main loop run for the frames `inputs` in all of which only W is down: the
messages pending and those that arrive or are posted leave such a key array as it
is. -/
theorem runLoop_onlyW (env : Env) (inputs : List FrameInput)
    (hin : ∀ inp ∈ inputs, (∀ msg ∈ inp.posted ++ inp.arrived, keepsOnlyW msg) ∧
      ∀ m msg, msg ∈ inp.translate m → keepsOnlyW msg)
    (s : AppState) (hk : s.dx11.Key = onlyW)
    (hs : ∀ msg ∈ s.posted ++ s.queue, keepsOnlyW msg) :
    (runLoop env inputs s).dx11.Key = onlyW ∧
    (runLoop env inputs s).Yaw = s.Yaw ∧
    (runLoop env inputs s).Pos.x =
      Nat.iterate (fun x => fl32 (x + (walkStep env s.Yaw).x)) inputs.length s.Pos.x ∧
    (runLoop env inputs s).Pos.z =
      Nat.iterate (fun z => fl32 (z + (walkStep env s.Yaw).z)) inputs.length s.Pos.z ∧
    (runLoop env inputs s).Pos.y =
      inputs.foldl (fun y i => i.eyeHeight (fl32 (y + (walkStep env s.Yaw).y))) s.Pos.y := by
  induction inputs generalizing s with
  | nil => exact ⟨hk, rfl, rfl, rfl, rfl⟩
  | cons inp rest ih =>
    obtain ⟨hinp1, hinp2⟩ := hin inp (List.mem_cons_self _ _)
    have hpend : ∀ msg ∈ pendingMessages s inp, keepsOnlyW msg := by
      intro msg hmsg
      unfold pendingMessages at hmsg
      simp only [List.mem_append] at hmsg
      rcases hmsg with (h | h) | h | h
      · exact hs msg (List.mem_append_left _ h)
      · exact hinp1 msg (List.mem_append_left _ h)
      · exact hs msg (List.mem_append_right _ h)
      · exact hinp1 msg (List.mem_append_right _ h)
    obtain ⟨fk, fy, fp⟩ := frame_onlyW env s inp hk hpend
    have hs' : ∀ msg ∈ (frame env s inp).posted ++ (frame env s inp).queue,
        keepsOnlyW msg := by
      intro msg hmsg
      rcases frame_pending_mem env s inp msg hmsg with h | ⟨m, h⟩
      · exact hpend msg h
      · exact hinp2 m msg h
    have hstep : runLoop env (inp :: rest) s = runLoop env rest (frame env s inp) := by
      simp [runLoop, mainLoopStep, loopCondition_onlyW s.dx11 hk]
    obtain ⟨a, b, c, d, e⟩ := ih (fun i hi => hin i (List.mem_cons_of_mem _ hi))
      (frame env s inp) fk hs'
    rw [hstep, a, b, c, d, e, fy, fp]
    refine ⟨rfl, rfl, ?_, ?_, ?_⟩
    · simp only [List.length_cons, Function.iterate_succ_apply]
    · simp only [List.length_cons, Function.iterate_succ_apply]
    · simp only [List.foldl_cons]

/-- A message that is neither a key-down nor a key-up, such as a `WM_CHAR`, leaves a key
array in which only W is down as it is. -/
theorem keepsOnlyW_of_not_key (msg : MSG) (h1 : msg.message ≠ WM_KEYDOWN)
    (h2 : msg.message ≠ WM_KEYUP) : keepsOnlyW msg := by
  unfold keepsOnlyW SystemWindowProc
  simp only [h1, h2, if_false]

/-- A key-down of W leaves a key array with only W down as it is. -/
theorem keepsOnlyW_keydown_W : keepsOnlyW ⟨WM_KEYDOWN, 87⟩ := by
  have hk : (87 : Nat) % 2 ^ 32 < 256 := by decide
  have hkk : (⟨87 % 2 ^ 32, hk⟩ : Fin 256) = keyW := by
    apply Fin.ext
    show 87 % 2 ^ 32 = 87
    rfl
  unfold keepsOnlyW SystemWindowProc
  simp only [if_true, dif_pos hk, hkk]
  funext k
  by_cases h : k = keyW
  · subst h
    rw [Function.update_same]
    decide
  · rw [Function.update_noteq h]

/-- C9 as stated fails: after one tick with only W down, in which the SDK reports the
eye height 1.675, the player is not at `start + 1 * 0.05 * RotationY(yaw)·(0,0,-1)`:
the height is 1.675 instead of `1.6f`.  (The scene here holds the animated model
only.) -/
theorem walk_height_overwritten :
    (runLoop sampleEnv [idleFrame] (startState [cubeModel])).Pos ≠
      (startState [cubeModel]).Pos.add
        (((Matrix4f.RotationY sampleEnv.sinf sampleEnv.cosf (startState [cubeModel]).Yaw).Transform
          ⟨0, 0, -1⟩).smul (((1 : ℕ) : ℚ) * (5 / 100))) := by
  obtain ⟨-, -, -, -, hy⟩ := runLoop_onlyW sampleEnv [idleFrame]
    (fun i hi => by
      rw [List.mem_singleton] at hi
      subst hi
      exact ⟨fun msg hmsg => by simp [idleFrame] at hmsg,
        fun m msg hmsg => by simp [idleFrame] at hmsg⟩)
    (startState [cubeModel]) rfl (fun msg hmsg => by simp [startState] at hmsg)
  intro h
  have h2 := congrArg Vector3f.y h
  rw [hy, RotationY_Transform] at h2
  have hf : fl32 (16 / 10) = 13421773 / 8388608 := by decide!
  simp only [List.foldl_cons, List.foldl_nil, idleFrame, startState, Vector3f.add,
    Vector3f.smul, hf] at h2
  norm_num at h2

/-- The rounding of the walk: with `cos(3.141592f) = -1` and
`sin(3.141592f) = 6.278329e-7` as binary32 values, the step along `z` is `0.05f`, and
two ticks from `z = -5` give `z = -4.8999996` (`-2569011 / 2^19`), while the closed form
`-5 + 2 * 0.05f` evaluated in binary32 is `-4.9000001` (`-10276045 / 2^21`): from the
second tick on the position is not the start plus `N` steps. -/
theorem walk_two_ticks (env : Env)
    (hc : env.cosf (fl32 (3141592 / 1000000)) = -1)
    (hs : env.sinf (fl32 (3141592 / 1000000)) = 5522477 / 8796093022208)
    (Models : List Model) :
    (walkStep env (startState Models).Yaw).z = 13421773 / 268435456 ∧
    (runLoop env [plainFrame, plainFrame] (startState Models)).Pos.z = -2569011 / 524288 ∧
    fl32 (-5 + fl32 (2 * fl32 (5 / 100))) = -10276045 / 2097152 ∧
    (runLoop env [plainFrame, plainFrame] (startState Models)).Pos.z
      ≠ fl32 (-5 + fl32 (2 * fl32 (5 / 100))) := by
  have hplain : ∀ inp ∈ [plainFrame, plainFrame],
      (∀ msg ∈ inp.posted ++ inp.arrived, keepsOnlyW msg) ∧
        ∀ m msg, msg ∈ inp.translate m → keepsOnlyW msg := by
    intro inp hinp
    simp only [List.mem_cons, List.mem_singleton, List.mem_nil_iff, or_false, or_self] at hinp
    subst hinp
    exact ⟨fun msg hmsg => by simp [plainFrame] at hmsg,
      fun m msg hmsg => by simp [plainFrame] at hmsg⟩
  obtain ⟨-, -, -, hz, -⟩ := runLoop_onlyW env [plainFrame, plainFrame] hplain
    (startState Models) rfl (fun msg hmsg => by simp [startState] at hmsg)
  have hd : (walkStep env (startState Models).Yaw).z = 13421773 / 268435456 := by
    have hy : (startState Models).Yaw = fl32 (3141592 / 1000000) := rfl
    rw [hy]
    simp only [walkStep, Matrix4f.TransformF, Matrix4f.RotationY, ofRows_apply, row4_apply,
      hc, hs]
    decide!
  have h3 : fl32 (-5 + fl32 (2 * fl32 (5 / 100))) = -10276045 / 2097152 := by decide!
  have hz' : (runLoop env [plainFrame, plainFrame] (startState Models)).Pos.z
      = -2569011 / 524288 := by
    rw [hz, hd]
    have hp : (startState Models).Pos.z = -5 := rfl
    rw [hp]
    simp only [List.length_cons, List.length_nil, Function.iterate_succ_apply,
      Function.iterate_zero_apply]
    decide!
  refine ⟨hd, hz', h3, ?_⟩
  rw [hz', h3]
  decide!

/-- C9 (amended): starting from position `(0, 1.6f, -5)` and the initial yaw, after the
`N` frames `inputs` in each of which only W is down (the messages that come in leave
such a key array as it is: auto-repeat key-downs of W and the characters posted for
them, for instance), the yaw is unchanged and only W is still down; every tick has
added the same step, `walkStep`, which is `(0, 0, -0.05f)` turned by `RotationY(yaw)`,
to `x` and `z` in binary32 arithmetic, each sum being rounded, so that `x` and `z` are
the `N`-fold rounded sums; and the height is what `ovrHmd_GetFloat` returned for the eye
height in the last frame, each frame passing the rounded sum of the current height and
the step as default. -/
theorem walk_forward (env : Env) (Models : List Model) (inputs : List FrameInput)
    (hin : ∀ inp ∈ inputs, (∀ msg ∈ inp.posted ++ inp.arrived, keepsOnlyW msg) ∧
      ∀ m msg, msg ∈ inp.translate m → keepsOnlyW msg) :
    (runLoop env inputs (startState Models)).Yaw = (startState Models).Yaw ∧
    (runLoop env inputs (startState Models)).dx11.Key = onlyW ∧
    (runLoop env inputs (startState Models)).Pos.x =
      Nat.iterate (fun x => fl32 (x + (walkStep env (startState Models).Yaw).x))
        inputs.length (startState Models).Pos.x ∧
    (runLoop env inputs (startState Models)).Pos.z =
      Nat.iterate (fun z => fl32 (z + (walkStep env (startState Models).Yaw).z))
        inputs.length (startState Models).Pos.z ∧
    (runLoop env inputs (startState Models)).Pos.y =
      inputs.foldl
        (fun y i => i.eyeHeight (fl32 (y + (walkStep env (startState Models).Yaw).y)))
        (startState Models).Pos.y ∧
    (startState Models).Pos = ⟨0, fl32 (16 / 10), -5⟩ ∧
    walkStep env (startState Models).Yaw
      = (Matrix4f.RotationY env.sinf env.cosf (startState Models).Yaw).TransformF
          ⟨0, 0, fl32 (-1 * fl32 (5 / 100))⟩ := by
  obtain ⟨hkey, hyaw, hx, hz, hy⟩ := runLoop_onlyW env inputs hin (startState Models) rfl
    (fun msg hmsg => by simp [startState] at hmsg)
  exact ⟨hyaw, hkey, hx, hz, hy, rfl, rfl⟩

/-- The theorem of C9 for two frames of a held W, each with an auto-repeat key-down of
W queued and the character `w` posted for it, the SDK reporting the eye height 1.675. -/
theorem walk_forward_witness :
    (∀ inp ∈ [heldFrame, heldFrame], (∀ msg ∈ inp.posted ++ inp.arrived, keepsOnlyW msg) ∧
      ∀ m msg, msg ∈ inp.translate m → keepsOnlyW msg) ∧
    (runLoop sampleEnv [heldFrame, heldFrame] (startState [cubeModel])).Yaw
      = (startState [cubeModel]).Yaw ∧
    (runLoop sampleEnv [heldFrame, heldFrame] (startState [cubeModel])).dx11.Key = onlyW ∧
    (runLoop sampleEnv [heldFrame, heldFrame] (startState [cubeModel])).Pos.y
      = 1675 / 1000 := by
  have hheld : ∀ inp ∈ [heldFrame, heldFrame],
      (∀ msg ∈ inp.posted ++ inp.arrived, keepsOnlyW msg) ∧
        ∀ m msg, msg ∈ inp.translate m → keepsOnlyW msg := by
    intro inp hinp
    simp only [List.mem_cons, List.mem_singleton, List.mem_nil_iff, or_false, or_self] at hinp
    subst hinp
    constructor
    · intro msg hmsg
      simp only [heldFrame, List.nil_append, List.mem_singleton] at hmsg
      subst hmsg
      exact keepsOnlyW_keydown_W
    · intro m msg hmsg
      simp only [heldFrame] at hmsg
      split_ifs at hmsg
      · simp only [List.mem_singleton] at hmsg
        subst hmsg
        exact keepsOnlyW_of_not_key _ (by show WM_CHAR ≠ WM_KEYDOWN; decide)
          (by show WM_CHAR ≠ WM_KEYUP; decide)
      · simp at hmsg
  obtain ⟨h1, h2, -, -, h5, -, -⟩ := walk_forward sampleEnv [cubeModel] [heldFrame, heldFrame]
    hheld
  exact ⟨hheld, h1, h2, by rw [h5]; rfl⟩

/-! ### Leaving the main loop (C10) -/

/-- C10: the loop is left exactly when, at the top of an iteration, Escape is down or
both Q and Control are down; Q alone or Control alone does not leave it.  When the
iteration is entered the whole frame runs, whatever message the pump dispatches in it:
the state after the turn is that of `frame`, whose record of calls is the poll, the
translation and dispatch of the polled message if any, `BeginFrame`, the key-triggered
SDK calls, the eye-height and eye-pose queries, the draws of both eyes, and
`EndFrame`. -/
theorem mainLoop_exit_iff (env : Env) (s : AppState) (inp : FrameInput) :
    (mainLoopStep env s inp = none ↔
      (s.dx11.Key VK_ESCAPE = true ∨
        (s.dx11.Key keyQ = true ∧ s.dx11.Key VK_CONTROL = true))) ∧
    (s.dx11.Key VK_ESCAPE = false →
      (s.dx11.Key keyQ = false ∨ s.dx11.Key VK_CONTROL = false) →
      mainLoopStep env s inp = some (frame env s inp)) ∧
    (∀ s', mainLoopStep env s inp = some s' →
      s' = frame env s inp ∧
      s'.dx11.trace =
        s.dx11.trace
          ++ ([Event.PeekMessage] ++ dispatched (pendingMessages s inp)
              ++ [Event.BeginFrame]
              ++ (if s'.dx11.Key keyR then [Event.RecenterPose] else [])
              ++ (if anyKey s'.dx11.Key then [Event.DismissHSWDisplay] else [])
              ++ [Event.GetFloatEyeHeight, Event.GetEyePoses])
          ++ eyeDraws env s'.Models s'.Pos s'.Yaw inp.eyePoses 0
          ++ eyeDraws env s'.Models s'.Pos s'.Yaw inp.eyePoses 1
          ++ [Event.EndFrame]) := by
  refine ⟨?_, ?_, ?_⟩
  · unfold mainLoopStep loopCondition
    cases s.dx11.Key VK_ESCAPE <;> cases s.dx11.Key keyQ <;> cases s.dx11.Key VK_CONTROL <;>
      simp
  · intro he hq
    unfold mainLoopStep loopCondition
    rw [he]
    rcases hq with h | h <;> rw [h] <;> simp
  · intro s' hs'
    unfold mainLoopStep at hs'
    split_ifs at hs'
    have e : frame env s inp = s' := Option.some.inj hs'
    subst e
    exact ⟨rfl, frame_trace env s inp⟩

/-! ### Texture coordinates and determinism (C11, C12) -/

/-- C11: entry `j` of the 24 vertices appended by `Model::AddSolidColorBox` lies on
face `j / 4` of the box (faces in the order `y = y2`, `y = y1`, `x = x1`, `x = x2`,
`z = z1`, `z = z2`) and its texture coordinates are two of its own position
coordinates: `(U, V) = (z, x)` for the 8 vertices of the two faces of constant `y`,
`(z, y)` for those of the two faces of constant `x`, `(x, y)` for those of the two
faces of constant `z`; so `(U, V)` is a function of face pair and position, the same
on opposite faces. -/
theorem AddSolidColorBox_texcoords (sqrtf : ℚ → ℚ) (rnd : Nat → Nat) (m : Model)
    (x1 y1 z1 x2 y2 z2 : ℚ) (c : Color) (j : Nat) (hj : j < 24) :
    ∃ v, (m.AddSolidColorBox sqrtf rnd x1 y1 z1 x2 y2 z2 c).Vertices[m.Vertices.length + j]?
          = some v ∧
      (v.U, v.V) = uvOfFace j v.Pos ∧
      onFace x1 y1 z1 x2 y2 z2 (j / 4) v.Pos := by
  rw [AddSolidColorBox_vertex_at sqrtf rnd m x1 y1 z1 x2 y2 z2 c j hj]
  refine ⟨_, rfl, ?_, ?_⟩
  · interval_cases j <;> rfl
  · interval_cases j <;> exact rfl

theorem brightnessMod_congr (sqrtf : ℚ → ℚ) (p : Vector3f) (r r' : Nat)
    (h : r % 160 = r' % 160) : brightnessMod sqrtf p r = brightnessMod sqrtf p r' := by
  unfold brightnessMod
  simp only [h]

theorem boxVertex_fields (sqrtf : ℚ → ℚ) (c : Color) (e : Vector3f × Vector3f) (r : Nat) :
    (boxVertex sqrtf c e r).Pos = e.1 ∧ (boxVertex sqrtf c e r).U = e.2.x ∧
    (boxVertex sqrtf c e r).V = e.2.y ∧ (boxVertex sqrtf c e r).C.A = 255 :=
  ⟨rfl, rfl, rfl, rfl⟩

/-- C12: two runs of `Model::AddSolidColorBox` on the same model with the same six
corner scalars, whatever the two `rand()` sequences and base colours, append the same
indices and vertices with the same positions, texture coordinates and alpha (the old
vertices are kept as they are, and pose and texture of the model agree); the runs can
differ in the `R`, `G`, `B` channels of the new vertices only.  When the base colours
are equal and the jitter values `rand() % 160` of the 24 iterations are equal, the two
resulting models are equal. -/
theorem AddSolidColorBox_deterministic (sqrtf : ℚ → ℚ) (rnd rnd' : Nat → Nat) (m : Model)
    (x1 y1 z1 x2 y2 z2 : ℚ) (c c' : Color) :
    (m.AddSolidColorBox sqrtf rnd x1 y1 z1 x2 y2 z2 c).Indices
      = (m.AddSolidColorBox sqrtf rnd' x1 y1 z1 x2 y2 z2 c').Indices ∧
    (m.AddSolidColorBox sqrtf rnd x1 y1 z1 x2 y2 z2 c).Vertices.map
        (fun v => (v.Pos, v.U, v.V, v.C.A))
      = (m.AddSolidColorBox sqrtf rnd' x1 y1 z1 x2 y2 z2 c').Vertices.map
        (fun v => (v.Pos, v.U, v.V, v.C.A)) ∧
    (m.AddSolidColorBox sqrtf rnd x1 y1 z1 x2 y2 z2 c).Vertices.take m.Vertices.length
      = (m.AddSolidColorBox sqrtf rnd' x1 y1 z1 x2 y2 z2 c').Vertices.take m.Vertices.length ∧
    (m.AddSolidColorBox sqrtf rnd x1 y1 z1 x2 y2 z2 c).Pos
      = (m.AddSolidColorBox sqrtf rnd' x1 y1 z1 x2 y2 z2 c').Pos ∧
    (m.AddSolidColorBox sqrtf rnd x1 y1 z1 x2 y2 z2 c).Rot
      = (m.AddSolidColorBox sqrtf rnd' x1 y1 z1 x2 y2 z2 c').Rot ∧
    (m.AddSolidColorBox sqrtf rnd x1 y1 z1 x2 y2 z2 c).texture
      = (m.AddSolidColorBox sqrtf rnd' x1 y1 z1 x2 y2 z2 c').texture ∧
    (c = c' → (∀ v, v < 24 → rnd v % 160 = rnd' v % 160) →
      m.AddSolidColorBox sqrtf rnd x1 y1 z1 x2 y2 z2 c
        = m.AddSolidColorBox sqrtf rnd' x1 y1 z1 x2 y2 z2 c') := by
  obtain ⟨p1, r1, t1⟩ := AddSolidColorBox_frame sqrtf rnd m x1 y1 z1 x2 y2 z2 c
  obtain ⟨p2, r2, t2⟩ := AddSolidColorBox_frame sqrtf rnd' m x1 y1 z1 x2 y2 z2 c'
  have hI := AddSolidColorBox_Indices sqrtf rnd m x1 y1 z1 x2 y2 z2 c
  have hI' := AddSolidColorBox_Indices sqrtf rnd' m x1 y1 z1 x2 y2 z2 c'
  have hV := AddSolidColorBox_Vertices sqrtf rnd m x1 y1 z1 x2 y2 z2 c
  have hV' := AddSolidColorBox_Vertices sqrtf rnd' m x1 y1 z1 x2 y2 z2 c'
  refine ⟨by rw [hI, hI'], ?_, ?_, by rw [p1, p2], by rw [r1, r2], by rw [t1, t2], ?_⟩
  · have hmap : (newVertices sqrtf rnd x1 y1 z1 x2 y2 z2 c).map
          (fun v => (v.Pos, v.U, v.V, v.C.A))
        = (newVertices sqrtf rnd' x1 y1 z1 x2 y2 z2 c').map
          (fun v => (v.Pos, v.U, v.V, v.C.A)) := by
      simp only [newVertices, List.map_map]
      apply List.map_congr_left
      intro v _
      simp only [Function.comp, boxVertex]
    rw [hV, hV', List.map_append, List.map_append, hmap]
  · rw [hV, hV', List.take_left, List.take_left]
  · intro hc hr
    subst hc
    have hnew : newVertices sqrtf rnd x1 y1 z1 x2 y2 z2 c
        = newVertices sqrtf rnd' x1 y1 z1 x2 y2 z2 c := by
      unfold newVertices
      apply List.map_congr_left
      intro v hv
      have hv24 : v < 24 := List.mem_range.mp hv
      simp only [boxVertex, brightnessMod_congr sqrtf _ _ _ (hr v hv24)]
    cases hm : m.AddSolidColorBox sqrtf rnd x1 y1 z1 x2 y2 z2 c with
    | mk P R V I T =>
      cases hm' : m.AddSolidColorBox sqrtf rnd' x1 y1 z1 x2 y2 z2 c with
      | mk P' R' V' I' T' =>
        rw [hm] at p1 r1 t1 hI hV
        rw [hm'] at p2 r2 t2 hI' hV'
        simp only at p1 r1 t1 hI hV p2 r2 t2 hI' hV'
        rw [p1, r1, t1, hI, hV, p2, r2, t2, hI', hV', hnew]

/-! ### The key array (C13) -/

theorem SystemWindowProcFull_attached (Key : Fin 256 → Bool) (msg : MSG) (cp : Bool) :
    SystemWindowProcFull ⟨true, Key⟩ msg cp = ⟨true, SystemWindowProc Key msg⟩ := by
  unfold SystemWindowProcFull SystemWindowProc
  by_cases h1 : msg.message = WM_NCCREATE
  · have h2 : msg.message ≠ WM_KEYDOWN := by rw [h1]; decide
    have h3 : msg.message ≠ WM_KEYUP := by rw [h1]; decide
    simp only [h1, h2, h3, if_true, if_false]
    cases cp <;> rfl
  · have n1 : WM_KEYDOWN ≠ WM_NCCREATE := by decide
    have n2 : WM_KEYUP ≠ WM_NCCREATE := by decide
    have n3 : WM_KEYUP ≠ WM_KEYDOWN := by decide
    by_cases h2 : msg.message = WM_KEYDOWN
    · simp only [h2, n1, if_true, if_false]
      split_ifs <;> rfl
    · by_cases h3 : msg.message = WM_KEYUP
      · simp only [h3, n2, n3, if_true, if_false]
        split_ifs <;> rfl
      · simp only [h1, h2, h3, if_false]

/-- C13: the key array has 256 entries, all false after `DirectX11::DirectX11` (which
also sets the back pointer of the window procedure).  From then on, for every key code
`k < 256` and every prior array, a key-down message for `k` sets `Key[k]` to true and a
key-up message for `k` sets it to false, each leaving the 255 other entries as they
were; a window message of any other kind leaves the whole array as it was; and a frame
of the main loop changes the array only through the one message it dispatches. -/
theorem Key_changed_only_by_key_messages :
    (constructedWindow.attached = true ∧ ∀ k, constructedWindow.Key k = false) ∧
    (∀ (Key : Fin 256 → Bool) (k : Fin 256) (cp : Bool),
      (SystemWindowProcFull ⟨true, Key⟩ ⟨WM_KEYDOWN, k.val⟩ cp).Key k = true ∧
      (∀ j, j ≠ k → (SystemWindowProcFull ⟨true, Key⟩ ⟨WM_KEYDOWN, k.val⟩ cp).Key j = Key j) ∧
      (SystemWindowProcFull ⟨true, Key⟩ ⟨WM_KEYUP, k.val⟩ cp).Key k = false ∧
      (∀ j, j ≠ k → (SystemWindowProcFull ⟨true, Key⟩ ⟨WM_KEYUP, k.val⟩ cp).Key j = Key j)) ∧
    (∀ (Key : Fin 256 → Bool) (msg : MSG) (cp : Bool),
      msg.message ≠ WM_KEYDOWN → msg.message ≠ WM_KEYUP →
      (SystemWindowProcFull ⟨true, Key⟩ msg cp).Key = Key) ∧
    (∀ (env : Env) (s : AppState) (inp : FrameInput),
      (frame env s inp).dx11.Key = keyAfterPoll s.dx11.Key (pendingMessages s inp) ∧
      (pendingMessages s inp = [] → (frame env s inp).dx11.Key = s.dx11.Key)) := by
  refine ⟨⟨rfl, fun _ => rfl⟩, ?_, ?_, ?_⟩
  · intro Key k cp
    have hk : k.val % 2 ^ 32 < 256 := by
      have := k.isLt
      omega
    have hkk : (⟨k.val % 2 ^ 32, hk⟩ : Fin 256) = k := by
      apply Fin.ext
      show k.val % 2 ^ 32 = k.val
      have := k.isLt
      omega
    have hd : SystemWindowProc Key ⟨WM_KEYDOWN, k.val⟩ = Function.update Key k true := by
      unfold SystemWindowProc
      simp only [if_true, dif_pos hk, hkk]
    have hu : SystemWindowProc Key ⟨WM_KEYUP, k.val⟩ = Function.update Key k false := by
      unfold SystemWindowProc
      have hne : WM_KEYUP ≠ WM_KEYDOWN := by decide
      simp only [hne, if_false, if_true, dif_pos hk, hkk]
    rw [SystemWindowProcFull_attached, SystemWindowProcFull_attached]
    simp only [hd, hu]
    exact ⟨Function.update_same _ _ _, fun j hj => Function.update_noteq hj _ _,
      Function.update_same _ _ _, fun j hj => Function.update_noteq hj _ _⟩
  · intro Key msg cp h1 h2
    rw [SystemWindowProcFull_attached]
    unfold SystemWindowProc
    simp only [h1, h2, if_false]
  · intro env s inp
    obtain ⟨hk, -⟩ := frame_Key_queue env s inp
    refine ⟨hk, fun h => ?_⟩
    rw [hk, h]
    rfl

/-! ### One message per frame (C19) -/

theorem loopCondition_eq (dx11 : DirectX11) :
    loopCondition dx11 = !quitRequested dx11.Key := by
  unfold loopCondition quitRequested
  cases dx11.Key keyQ <;> cases dx11.Key VK_CONTROL <;> cases dx11.Key VK_ESCAPE <;> rfl

/-- The window procedure changes at most one entry of the key array. -/
theorem SystemWindowProc_one_entry (Key : Fin 256 → Bool) (msg : MSG) :
    ∃ k, ∀ j, j ≠ k → SystemWindowProc Key msg j = Key j := by
  unfold SystemWindowProc
  split_ifs with h1 h2 h3 h4
  · exact ⟨_, fun j hj => Function.update_noteq hj _ _⟩
  · exact ⟨VK_ESCAPE, fun _ _ => rfl⟩
  · exact ⟨_, fun j hj => Function.update_noteq hj _ _⟩
  · exact ⟨VK_ESCAPE, fun _ _ => rfl⟩
  · exact ⟨VK_ESCAPE, fun _ _ => rfl⟩

/-- A message that is no key message leaves the key array as it is. -/
theorem SystemWindowProc_not_key (Key : Fin 256 → Bool) (msg : MSG)
    (h : ¬ isKeyMessage msg) : SystemWindowProc Key msg = Key := by
  unfold isKeyMessage at h
  have h1 : msg.message ≠ WM_KEYDOWN := fun e => h (Or.inl e)
  have h2 : msg.message ≠ WM_KEYUP := fun e => h (Or.inr e)
  unfold SystemWindowProc
  simp only [h1, h2, if_false]

/-- Queued input is taken in order and at most one message of it per frame: after the
frames `inputs` the first `j` messages of the input have been removed, for some `j` not
above the number of frames; if no posted message is a key message, the key array is
the old one with exactly these `j` messages applied. -/
theorem runFrames_queue (env : Env) (inputs : List FrameInput) (s : AppState) :
    ∃ j, j ≤ inputs.length ∧
      (runFrames env inputs s).queue = (s.queue ++ allArrived inputs).drop j ∧
      ((∀ msg ∈ s.posted, ¬ isKeyMessage msg) →
        (∀ inp ∈ inputs, (∀ msg ∈ inp.posted, ¬ isKeyMessage msg) ∧
          ∀ m msg, msg ∈ inp.translate m → ¬ isKeyMessage msg) →
        (runFrames env inputs s).dx11.Key
          = applyMessages s.dx11.Key ((s.queue ++ allArrived inputs).take j)) := by
  induction inputs generalizing s with
  | nil =>
    exact ⟨0, le_refl _, by simp [runFrames, allArrived],
      fun _ _ => by simp [runFrames, applyMessages]⟩
  | cons inp rest ih =>
    have hstep : runFrames env (inp :: rest) s = runFrames env rest (frame env s inp) := rfl
    obtain ⟨fk, fq, fp⟩ := frame_Key_queue env s inp
    obtain ⟨j, hj, hq, hkey⟩ := ih (frame env s inp)
    unfold queueAfterPoll at fq
    unfold postedAfterPoll at fp
    unfold pendingMessages at fk
    cases hp : s.posted ++ inp.posted with
    | cons m r =>
      rw [hp] at fq fp fk
      simp only [List.cons_append, keyAfterPoll] at fk fq fp
      refine ⟨j, by simp only [List.length_cons]; omega, ?_, ?_⟩
      · rw [hstep, hq, fq]
        simp only [allArrived, List.append_assoc]
      · intro hs hin
        obtain ⟨hi1, hi2⟩ := hin inp (List.mem_cons_self _ _)
        have hm : ¬ isKeyMessage m := by
          have hmem : m ∈ s.posted ++ inp.posted := by rw [hp]; exact List.mem_cons_self _ _
          rcases List.mem_append.mp hmem with h | h
          · exact hs m h
          · exact hi1 m h
        have hr : ∀ msg ∈ (frame env s inp).posted, ¬ isKeyMessage msg := by
          intro msg hmsg
          rw [fp] at hmsg
          rcases List.mem_append.mp hmsg with h | h
          · have hmem : msg ∈ s.posted ++ inp.posted := by
              rw [hp]; exact List.mem_cons_of_mem _ h
            rcases List.mem_append.mp hmem with h' | h'
            · exact hs msg h'
            · exact hi1 msg h'
          · exact hi2 m msg h
        rw [hstep, hkey hr (fun i hi => hin i (List.mem_cons_of_mem _ hi)), fk, fq,
          SystemWindowProc_not_key _ m hm]
        simp only [allArrived, List.append_assoc]
    | nil =>
      rw [hp] at fq fp fk
      simp only [List.nil_append] at fk fq fp
      cases hqa : s.queue ++ inp.arrived with
      | nil =>
        rw [hqa] at fq fp fk
        simp only [List.tail_nil, keyAfterPoll] at fk fq fp
        refine ⟨j, by simp only [List.length_cons]; omega, ?_, ?_⟩
        · rw [hstep, hq, fq]
          simp only [allArrived, ← List.append_assoc, hqa]
        · intro hs hin
          have hr : ∀ msg ∈ (frame env s inp).posted, ¬ isKeyMessage msg := by
            intro msg hmsg
            rw [fp] at hmsg
            simp at hmsg
          rw [hstep, hkey hr (fun i hi => hin i (List.mem_cons_of_mem _ hi)), fk, fq]
          simp only [allArrived, ← List.append_assoc, hqa]
      | cons m r =>
        rw [hqa] at fq fp fk
        simp only [List.tail_cons, keyAfterPoll] at fk fq fp
        refine ⟨j + 1, by simp only [List.length_cons]; omega, ?_, ?_⟩
        · rw [hstep, hq, fq]
          simp only [allArrived, ← List.append_assoc, hqa, List.cons_append, List.drop_succ_cons]
        · intro hs hin
          obtain ⟨hi1, hi2⟩ := hin inp (List.mem_cons_self _ _)
          have hr : ∀ msg ∈ (frame env s inp).posted, ¬ isKeyMessage msg := by
            intro msg hmsg
            rw [fp] at hmsg
            exact hi2 m msg hmsg
          rw [hstep, hkey hr (fun i hi => hin i (List.mem_cons_of_mem _ hi)), fk, fq]
          simp only [allArrived, ← List.append_assoc, hqa, List.cons_append,
            List.take_succ_cons, applyMessages, List.foldl_cons]

/-- When nothing is posted, the first `n` frames hand exactly the first `n` pending
messages to the window procedure, one each, and leave the others pending in front of the
messages that arrived meanwhile. -/
theorem runFrames_Key (env : Env) (inputs : List FrameInput) (s : AppState)
    (hs : s.posted = [])
    (hin : ∀ inp ∈ inputs, inp.posted = [] ∧ ∀ m, inp.translate m = [])
    (hlen : inputs.length ≤ s.queue.length) :
    (runFrames env inputs s).dx11.Key
      = applyMessages s.dx11.Key (s.queue.take inputs.length) ∧
    (runFrames env inputs s).queue = s.queue.drop inputs.length ++ allArrived inputs ∧
    (runFrames env inputs s).posted = [] := by
  induction inputs generalizing s with
  | nil => simp [runFrames, applyMessages, allArrived, hs]
  | cons inp rest ih =>
    cases hq : s.queue with
    | nil => rw [hq] at hlen; simp at hlen
    | cons msg q =>
      rw [hq] at hlen
      simp only [List.length_cons, Nat.add_le_add_iff_right] at hlen
      have hstep : runFrames env (inp :: rest) s = runFrames env rest (frame env s inp) := rfl
      obtain ⟨hi1, hi2⟩ := hin inp (List.mem_cons_self _ _)
      obtain ⟨fk, fq, fp⟩ := frame_Key_queue env s inp
      unfold queueAfterPoll at fq
      unfold postedAfterPoll at fp
      unfold pendingMessages at fk
      rw [hs, hi1, hq] at fk fq fp
      simp only [List.nil_append, List.cons_append, List.tail_cons, keyAfterPoll, hi2] at fk fq fp
      have hlen' : rest.length ≤ (frame env s inp).queue.length := by
        rw [fq, List.length_append]; omega
      obtain ⟨a, b, c⟩ := ih (frame env s inp) fp
        (fun i hi => hin i (List.mem_cons_of_mem _ hi)) hlen'
      rw [hstep, a, b, c, fk, fq, List.take_append_of_le_length hlen,
        List.drop_append_of_le_length hlen]
      exact ⟨by simp [applyMessages], by simp [allArrived], rfl⟩

/-- While the quit combination is not reached at the top of an iteration, the main
loop is the loop body run frame after frame. -/
theorem runLoop_eq_runFrames (env : Env) (inputs : List FrameInput) (s : AppState)
    (hrun : ∀ i, i < inputs.length →
      quitRequested (runFrames env (inputs.take i) s).dx11.Key = false) :
    runLoop env inputs s = runFrames env inputs s := by
  induction inputs generalizing s with
  | nil => rfl
  | cons inp rest ih =>
    have h0 : quitRequested s.dx11.Key = false := hrun 0 (by simp)
    have hstep : runLoop env (inp :: rest) s = runLoop env rest (frame env s inp) := by
      simp [runLoop, mainLoopStep, loopCondition_eq, h0]
    rw [hstep, ih (frame env s inp)
      (fun i hi => hrun (i + 1) (by simp only [List.length_cons]; omega))]
    rfl

/-- Yaw and position that one frame leaves: the keyboard step on the key array left by
the message pump of the same frame. -/
theorem frame_player (env : Env) (s : AppState) (inp : FrameInput) :
    ((frame env s inp).Yaw, (frame env s inp).Pos)
      = keyboardStep env (frame env s inp).dx11.Key inp.eyeHeight s.Yaw s.Pos := by
  obtain ⟨-, iy, ip, -, -⟩ := frameInput_spec s inp
  obtain ⟨-, uk, uy, up, -, -, -⟩ := frameUpdate_spec env (frameInput s inp) inp
  obtain ⟨-, rk, ry, rp, -, -, -⟩ :=
    frameRender_spec env (frameUpdate env (frameInput s inp) inp) inp
  unfold frame
  rw [rk, ry, rp, uk, uy, up, iy, ip]

theorem eyeDraws_no_pump (env : Env) (Models : List Model) (Pos : Vector3f) (Yaw : ℚ)
    (eyePoses : Nat → Posef) (eye : Nat) :
    ∀ e ∈ eyeDraws env Models Pos Yaw eyePoses eye, e.isPump = false := by
  intro e he
  unfold eyeDraws at he
  rw [List.mem_cons] at he
  rcases he with h | h
  · subst h; rfl
  · rw [List.mem_map] at h
    obtain ⟨m, -, hm⟩ := h
    subst hm
    rfl

/-- The state that a frame of `typingFrame` leaves, as far as messages and key array
go. -/
theorem typingFrame_step (env : Env) (s : AppState) :
    (frame env s typingFrame).dx11.Key
      = keyAfterPoll s.dx11.Key (s.posted ++ s.queue) ∧
    (frame env s typingFrame).queue
      = (match s.posted with
         | _ :: _ => s.queue
         | [] => s.queue.tail) ∧
    (frame env s typingFrame).posted
      = (match s.posted with
         | msg :: rest => rest ++ typingFrame.translate msg
         | [] =>
           match s.queue with
           | [] => []
           | msg :: _ => typingFrame.translate msg) := by
  obtain ⟨fk, fq, fp⟩ := frame_Key_queue env s typingFrame
  have e1 : s.posted ++ typingFrame.posted = s.posted := List.append_nil _
  have e2 : s.queue ++ typingFrame.arrived = s.queue := List.append_nil _
  unfold pendingMessages at fk
  unfold queueAfterPoll at fq
  unfold postedAfterPoll at fp
  rw [e1, e2] at fk fq fp
  exact ⟨fk, fq, fp⟩

/-- C19 as stated fails: with the two key messages key-down W, key-up W pending and
`TranslateMessage` posting the character `w` for the key-down, the first frame handles
the key-down, the second frame retrieves the posted `WM_CHAR` (posted messages come
before queued input), and the key-up, the second pending key message, is still queued:
W is still down in the key array that the second following frame reads.  It takes
effect in the third frame. -/
theorem key_up_delayed_by_char :
    pendingState.queue = [⟨WM_KEYDOWN, 87⟩, ⟨WM_KEYUP, 87⟩] ∧ pendingState.posted = [] ∧
    pendingState.dx11.Key keyW = false ∧
    (runFrames sampleEnv [typingFrame] pendingState).dx11.Key keyW = true ∧
    (runFrames sampleEnv [typingFrame] pendingState).posted = [⟨WM_CHAR, 119⟩] ∧
    (runFrames sampleEnv [typingFrame, typingFrame] pendingState).dx11.Key keyW = true ∧
    (runFrames sampleEnv [typingFrame, typingFrame] pendingState).queue
      = [⟨WM_KEYUP, 87⟩] ∧
    (runFrames sampleEnv [typingFrame, typingFrame, typingFrame] pendingState).dx11.Key keyW
      = false := by
  obtain ⟨k1, q1, p1⟩ := typingFrame_step sampleEnv pendingState
  have hq1 : (frame sampleEnv pendingState typingFrame).queue = [⟨WM_KEYUP, 87⟩] := by
    rw [q1]; rfl
  have hp1 : (frame sampleEnv pendingState typingFrame).posted = [⟨WM_CHAR, 119⟩] := by
    rw [p1]; rfl
  have hk1 : (frame sampleEnv pendingState typingFrame).dx11.Key
      = SystemWindowProc initialKey ⟨WM_KEYDOWN, 87⟩ := by
    rw [k1]; rfl
  obtain ⟨k2, q2, p2⟩ := typingFrame_step sampleEnv (frame sampleEnv pendingState typingFrame)
  rw [hq1, hp1, hk1] at k2
  rw [hq1, hp1] at q2 p2
  have hq2 : (frame sampleEnv (frame sampleEnv pendingState typingFrame) typingFrame).queue
      = [⟨WM_KEYUP, 87⟩] := q2
  have hp2 : (frame sampleEnv (frame sampleEnv pendingState typingFrame) typingFrame).posted
      = [] := by
    rw [p2]; rfl
  have hk2 : (frame sampleEnv (frame sampleEnv pendingState typingFrame) typingFrame).dx11.Key
      = SystemWindowProc (SystemWindowProc initialKey ⟨WM_KEYDOWN, 87⟩) ⟨WM_CHAR, 119⟩ := by
    rw [k2]; rfl
  obtain ⟨k3, -, -⟩ := typingFrame_step sampleEnv
    (frame sampleEnv (frame sampleEnv pendingState typingFrame) typingFrame)
  rw [hq2, hp2, hk2] at k3
  have hk3 : (frame sampleEnv
        (frame sampleEnv (frame sampleEnv pendingState typingFrame) typingFrame)
        typingFrame).dx11.Key
      = SystemWindowProc
          (SystemWindowProc (SystemWindowProc initialKey ⟨WM_KEYDOWN, 87⟩) ⟨WM_CHAR, 119⟩)
          ⟨WM_KEYUP, 87⟩ := by
    rw [k3]; rfl
  have r1 : runFrames sampleEnv [typingFrame] pendingState
      = frame sampleEnv pendingState typingFrame := rfl
  have r2 : runFrames sampleEnv [typingFrame, typingFrame] pendingState
      = frame sampleEnv (frame sampleEnv pendingState typingFrame) typingFrame := rfl
  have r3 : runFrames sampleEnv [typingFrame, typingFrame, typingFrame] pendingState
      = frame sampleEnv
          (frame sampleEnv (frame sampleEnv pendingState typingFrame) typingFrame)
          typingFrame := rfl
  rw [r1, r2, r3, hk1, hp1, hk2, hq2, hk3]
  exact ⟨rfl, rfl, rfl, rfl, rfl, rfl, rfl, rfl⟩

/-- C19 (amended): every frame removes at most one pending window message, a posted
one if there is any and the oldest queued input otherwise, and hands it to the window
procedure once, after `PeekMessage` and before `BeginFrame`; nothing later in the frame
polls or dispatches, and the keyboard step of the frame reads the key array so
obtained.  Hence the key arrays read by two consecutive frames differ in at most one
entry.  Queued input is taken in order: after `n` frames the first `j` queued messages
have been removed for some `j ≤ n`, and, no posted message being a key message, the key
array read by the `n`-th following frame is the old one with exactly these `j` messages
applied, so the `m`-th pending key message has taken effect in no frame before the
`m`-th.  It takes effect in the `m`-th when nothing is posted (then `j = n`); a posted
message, such as the character that `TranslateMessage` posts for the key-down of a
letter key, takes up the poll of one frame.  (The following frames are those of the main loop as
long as the quit combination is not reached.) -/
theorem one_message_per_frame (env : Env) (s : AppState) (inputs : List FrameInput) :
    (∀ (s' : AppState) (inp : FrameInput),
      (frame env s' inp).dx11.Key = keyAfterPoll s'.dx11.Key (pendingMessages s' inp) ∧
      (frame env s' inp).queue = queueAfterPoll s' inp ∧
      (frame env s' inp).posted = postedAfterPoll s' inp ∧
      (∃ rest, (frame env s' inp).dx11.trace =
          s'.dx11.trace ++ [Event.PeekMessage] ++ dispatched (pendingMessages s' inp)
            ++ Event.BeginFrame :: rest ∧
          ((dispatched (pendingMessages s' inp)).filter Event.isDispatch).length ≤ 1 ∧
          ∀ e ∈ rest, e.isPump = false) ∧
      ((frame env s' inp).Yaw, (frame env s' inp).Pos)
        = keyboardStep env (frame env s' inp).dx11.Key inp.eyeHeight s'.Yaw s'.Pos ∧
      ∃ k, ∀ j, j ≠ k → (frame env s' inp).dx11.Key j = s'.dx11.Key j) ∧
    (∀ n, n ≤ inputs.length → ∃ j, j ≤ n ∧
      (runFrames env (inputs.take n) s).queue
        = (s.queue ++ allArrived (inputs.take n)).drop j ∧
      ((∀ msg ∈ s.posted, ¬ isKeyMessage msg) →
        (∀ inp ∈ inputs, (∀ msg ∈ inp.posted, ¬ isKeyMessage msg) ∧
          ∀ m msg, msg ∈ inp.translate m → ¬ isKeyMessage msg) →
        (runFrames env (inputs.take n) s).dx11.Key
          = applyMessages s.dx11.Key ((s.queue ++ allArrived (inputs.take n)).take j))) ∧
    (s.posted = [] → (∀ inp ∈ inputs, inp.posted = [] ∧ ∀ m, inp.translate m = []) →
      inputs.length ≤ s.queue.length →
      ∀ n, n ≤ inputs.length →
        (runFrames env (inputs.take n) s).dx11.Key
          = applyMessages s.dx11.Key (s.queue.take n) ∧
        (runFrames env (inputs.take n) s).queue
          = s.queue.drop n ++ allArrived (inputs.take n)) ∧
    ((∀ i, i < inputs.length →
        quitRequested (runFrames env (inputs.take i) s).dx11.Key = false) →
      ∀ n, n ≤ inputs.length →
        runLoop env (inputs.take n) s = runFrames env (inputs.take n) s) := by
  have hl : ∀ n, n ≤ inputs.length → (inputs.take n).length = n := by
    intro n hn
    rw [List.length_take]; omega
  refine ⟨?_, ?_, ?_, ?_⟩
  · intro s' inp
    obtain ⟨fk, fq, fp⟩ := frame_Key_queue env s' inp
    refine ⟨fk, fq, fp, ?_, frame_player env s' inp, ?_⟩
    · refine ⟨(if (frame env s' inp).dx11.Key keyR then [Event.RecenterPose] else [])
          ++ (if anyKey (frame env s' inp).dx11.Key then [Event.DismissHSWDisplay] else [])
          ++ [Event.GetFloatEyeHeight, Event.GetEyePoses]
          ++ eyeDraws env (frame env s' inp).Models (frame env s' inp).Pos
              (frame env s' inp).Yaw inp.eyePoses 0
          ++ eyeDraws env (frame env s' inp).Models (frame env s' inp).Pos
              (frame env s' inp).Yaw inp.eyePoses 1
          ++ [Event.EndFrame], ?_, ?_, ?_⟩
      · rw [frame_trace env s' inp]
        simp only [framePrelude, List.append_assoc, List.cons_append, List.nil_append,
          List.singleton_append]
      · cases pendingMessages s' inp <;> simp [dispatched, Event.isDispatch]
      · intro e he
        simp only [List.mem_append, List.mem_singleton, List.mem_cons, List.mem_nil_iff,
          or_false] at he
        rcases he with ((((h | h) | h) | h) | h) | h
        · split_ifs at h
          · simp only [List.mem_singleton] at h
            subst h; rfl
          · simp at h
        · split_ifs at h
          · simp only [List.mem_singleton] at h
            subst h; rfl
          · simp at h
        · rcases h with h | h <;> subst h <;> rfl
        · exact eyeDraws_no_pump _ _ _ _ _ _ e h
        · exact eyeDraws_no_pump _ _ _ _ _ _ e h
        · subst h; rfl
    · rw [fk]
      cases pendingMessages s' inp with
      | nil => exact ⟨VK_ESCAPE, fun _ _ => rfl⟩
      | cons msg rest => exact SystemWindowProc_one_entry _ msg
  · intro n hn
    obtain ⟨j, hj, hq, hkey⟩ := runFrames_queue env (inputs.take n) s
    rw [hl n hn] at hj
    exact ⟨j, hj, hq, fun hs hin =>
      hkey hs (fun inp hinp => hin inp (List.mem_of_mem_take hinp))⟩
  · intro hs hin hlen n hn
    have h := runFrames_Key env (inputs.take n) s hs
      (fun inp hinp => hin inp (List.mem_of_mem_take hinp)) (by rw [hl n hn]; omega)
    rw [hl n hn] at h
    exact ⟨h.1, h.2.1⟩
  · intro hrun n hn
    apply runLoop_eq_runFrames
    intro i hi
    rw [hl n hn] at hi
    have e : (inputs.take n).take i = inputs.take i := by
      rw [List.take_take]
      congr 1
      omega
    rw [e]
    exact hrun i (by omega)

/-- The theorem of C19 where nothing is posted: with key-down and key-up of the left
arrow key pending (a key for which `TranslateMessage` posts no character) and two
frames without posted messages, the key is down after the first frame and up after the
second. -/
theorem one_message_per_frame_witness :
    arrowPending.posted = [] ∧
    [plainFrame, plainFrame].length ≤ arrowPending.queue.length ∧
    (runFrames sampleEnv ([plainFrame, plainFrame].take 1) arrowPending).dx11.Key VK_LEFT
      = true ∧
    (runFrames sampleEnv ([plainFrame, plainFrame].take 2) arrowPending).dx11.Key VK_LEFT
      = false := by
  obtain ⟨-, -, h, -⟩ := one_message_per_frame sampleEnv arrowPending [plainFrame, plainFrame]
  have hplain : ∀ inp ∈ [plainFrame, plainFrame],
      inp.posted = [] ∧ ∀ m, inp.translate m = [] := by
    intro inp hinp
    simp only [List.mem_cons, List.mem_singleton, List.mem_nil_iff, or_false, or_self] at hinp
    subst hinp
    exact ⟨rfl, fun _ => rfl⟩
  obtain ⟨h1, -⟩ := h rfl hplain (le_refl _) 1 (by decide)
  obtain ⟨h2, -⟩ := h rfl hplain (le_refl _) 2 (by decide)
  rw [h1, h2]
  exact ⟨rfl, le_refl _, rfl, rfl⟩

/-! ### Building a model box by box (C15) -/

/-- One more box keeps the mesh invariant as long as the 16-bit indices suffice. -/
theorem MeshValid_AddSolidColorBox (sqrtf : ℚ → ℚ) (m : Model) (a : Nat) (b : BoxCall)
    (hm : MeshValid m a) (hfit : 24 * (a + 1) ≤ 65536) :
    MeshValid (m.AddSolidColorBox sqrtf b.rnd b.x1 b.y1 b.z1 b.x2 b.y2 b.z2 b.c) (a + 1) := by
  obtain ⟨hV, hI, hlt, hbox⟩ := hm
  have hfit' : m.Vertices.length + 24 ≤ 65536 := by rw [hV]; omega
  have eV := AddSolidColorBox_Vertices sqrtf b.rnd m b.x1 b.y1 b.z1 b.x2 b.y2 b.z2 b.c
  have eI := AddSolidColorBox_Indices sqrtf b.rnd m b.x1 b.y1 b.z1 b.x2 b.y2 b.z2 b.c
  have lV : (m.AddSolidColorBox sqrtf b.rnd b.x1 b.y1 b.z1 b.x2 b.y2 b.z2 b.c).Vertices.length
      = 24 * (a + 1) := by
    rw [eV, List.length_append, newVertices_length, hV]; ring
  have lI : (m.AddSolidColorBox sqrtf b.rnd b.x1 b.y1 b.z1 b.x2 b.y2 b.z2 b.c).Indices.length
      = 36 * (a + 1) := by
    rw [eI, List.length_append, newIndices_length, hI]; ring
  refine ⟨lV, lI, ?_, ?_⟩
  · intro i hi
    rw [lV]
    rw [eI, List.mem_append] at hi
    rcases hi with h | h
    · have := hlt i h
      rw [hV] at this
      omega
    · rw [newIndices_of_fits _ hfit', List.mem_map] at h
      obtain ⟨k, hk, rfl⟩ := h
      have := CubeIndices_lt k hk
      rw [hV]
      omega
  · intro j hj p hp
    by_cases hja : j < a
    · obtain ⟨i, hi, h1, h2⟩ := hbox j hja p hp
      refine ⟨i, ?_, h1, h2⟩
      rw [eI, List.getElem?_append_left (by rw [hI]; omega)]
      exact hi
    · have hja' : j = a := by omega
      subst hja'
      have hp36 : p < CubeIndices.length := by simpa [CubeIndices] using hp
      have e := AddSolidColorBox_index_at sqrtf b.rnd m b.x1 b.y1 b.z1 b.x2 b.y2 b.z2 b.c
        hfit' p
      rw [hI, List.getElem?_eq_getElem hp36, Option.map_some'] at e
      refine ⟨_, e, ?_, ?_⟩
      · rw [hV]; omega
      · have := CubeIndices_lt _ (List.getElem_mem hp36)
        rw [hV]; omega

theorem addBoxes_cons (sqrtf : ℚ → ℚ) (m : Model) (b : BoxCall) (rest : List BoxCall) :
    addBoxes sqrtf m (b :: rest)
      = addBoxes sqrtf (m.AddSolidColorBox sqrtf b.rnd b.x1 b.y1 b.z1 b.x2 b.y2 b.z2 b.c)
          rest := by
  unfold addBoxes
  exact List.foldl_cons _ _

theorem MeshValid_addBoxes (sqrtf : ℚ → ℚ) (calls : List BoxCall) (m : Model) (a : Nat)
    (hm : MeshValid m a) (hfit : 24 * (a + calls.length) ≤ 65536) :
    MeshValid (addBoxes sqrtf m calls) (a + calls.length) := by
  induction calls generalizing m a with
  | nil => simpa [addBoxes] using hm
  | cons b rest ih =>
    have h1 := MeshValid_AddSolidColorBox sqrtf m a b hm
      (by simp only [List.length_cons] at hfit; omega)
    have h2 := ih (m.AddSolidColorBox sqrtf b.rnd b.x1 b.y1 b.z1 b.x2 b.y2 b.z2 b.c) (a + 1)
      h1 (by simp only [List.length_cons] at hfit; omega)
    have e : a + (b :: rest).length = a + 1 + rest.length := by
      simp only [List.length_cons]; omega
    rw [e, addBoxes_cons]
    exact h2

/-- C15: for every `k` with `24 k ≤ 65536` and every sequence of `k` calls of
`Model::AddSolidColorBox` on a model that starts empty, the model ends with exactly
`24 k` vertices and `36 k` indices, every stored index is smaller than the number of
vertices, and the 36 indices of box `j` (`j = 0 .. k-1`) all lie in `[24 j, 24 j + 24)`. -/
theorem addBoxes_mesh_valid (sqrtf : ℚ → ℚ) (pos : Vector3f) (texSrv : Nat)
    (calls : List BoxCall) (hfit : 24 * calls.length ≤ 65536) :
    (addBoxes sqrtf (emptyModel pos texSrv) calls).Vertices.length = 24 * calls.length ∧
    (addBoxes sqrtf (emptyModel pos texSrv) calls).Indices.length = 36 * calls.length ∧
    (∀ i ∈ (addBoxes sqrtf (emptyModel pos texSrv) calls).Indices,
      i < (addBoxes sqrtf (emptyModel pos texSrv) calls).Vertices.length) ∧
    (∀ j, j < calls.length → ∀ p, p < 36 →
      ∃ i, (addBoxes sqrtf (emptyModel pos texSrv) calls).Indices[36 * j + p]? = some i ∧
        24 * j ≤ i ∧ i < 24 * j + 24) := by
  have h0 : MeshValid (emptyModel pos texSrv) 0 := by
    refine ⟨rfl, rfl, ?_, ?_⟩
    · intro i hi
      simp [emptyModel] at hi
    · intro j hj
      omega
  have h := MeshValid_addBoxes sqrtf calls (emptyModel pos texSrv) 0 h0 (by omega)
  rw [Nat.zero_add] at h
  exact h

theorem boxTriangle_towardCentre (x1 y1 z1 x2 y2 z2 : ℚ) (t : Nat) (ht : t < 12) :
    towardCentre x1 y1 z1 x2 y2 z2 (boxTriangle x1 y1 z1 x2 y2 z2 t)
      = (x2 - x1) * (y2 - y1) * (z2 - z1) / 2 := by
  have tbl := boxTriangle_table x1 y1 z1 x2 y2 z2
  simp only [List.range, List.range.loop, List.map_cons, List.map_nil, List.cons.injEq,
    and_true] at tbl
  obtain ⟨e0, e1, e2, e3, e4, e5, e6, e7, e8, e9, e10, e11⟩ := tbl
  interval_cases t <;>
    simp only [towardCentre, triNormal, boxCentre, Vector3f.dot, Vector3f.cross,
      Vector3f.sub, e0, e1, e2, e3, e4, e5, e6, e7, e8, e9, e10, e11] <;> ring

/-- C16: for a box whose corners differ on every axis (in either order), appended to a
model whose indices do not wrap, each of the twelve triangles is non-degenerate with
normal `(v1 - v0) × (v2 - v0)` along the axis of its face, and the scalar product of
that normal with the vector from `v0` to the box centre is
`(x2 - x1) (y2 - y1) (z2 - z1) / 2` for all twelve.  So all twelve have the same
orientation: they are front-facing toward the outside (normal toward the centre) if and
only if `(x2 - x1) (y2 - y1) (z2 - z1) > 0`, and all twelve are inside-out when the
product is negative. -/
theorem AddSolidColorBox_orientation (sqrtf : ℚ → ℚ) (rnd : Nat → Nat) (m : Model)
    (x1 y1 z1 x2 y2 z2 : ℚ) (c : Color) (hfit : m.Vertices.length + 24 ≤ 65536)
    (hx : x1 ≠ x2) (hy : y1 ≠ y2) (hz : z1 ≠ z2) :
    (∀ t, t < 12 → ∃ tri,
      triangleAt (m.AddSolidColorBox sqrtf rnd x1 y1 z1 x2 y2 z2 c) m.Indices.length t
        = some tri ∧
      towardCentre x1 y1 z1 x2 y2 z2 tri = (x2 - x1) * (y2 - y1) * (z2 - z1) / 2 ∧
      ∃ k : ℚ, k ≠ 0 ∧ triNormal tri = (inwardNormal (t / 2)).smul k) ∧
    ((∀ t, t < 12 → ∀ tri,
        triangleAt (m.AddSolidColorBox sqrtf rnd x1 y1 z1 x2 y2 z2 c) m.Indices.length t
          = some tri → 0 < towardCentre x1 y1 z1 x2 y2 z2 tri) ↔
      0 < (x2 - x1) * (y2 - y1) * (z2 - z1)) ∧
    ((x2 - x1) * (y2 - y1) * (z2 - z1) < 0 →
      ∀ t, t < 12 → ∀ tri,
        triangleAt (m.AddSolidColorBox sqrtf rnd x1 y1 z1 x2 y2 z2 c) m.Indices.length t
          = some tri → towardCentre x1 y1 z1 x2 y2 z2 tri < 0) := by
  have dx : x2 - x1 ≠ 0 := sub_ne_zero.mpr (Ne.symm hx)
  have dy : y2 - y1 ≠ 0 := sub_ne_zero.mpr (Ne.symm hy)
  have dz : z2 - z1 ≠ 0 := sub_ne_zero.mpr (Ne.symm hz)
  have hval : ∀ t, t < 12 → ∀ tri,
      triangleAt (m.AddSolidColorBox sqrtf rnd x1 y1 z1 x2 y2 z2 c) m.Indices.length t
        = some tri →
      towardCentre x1 y1 z1 x2 y2 z2 tri = (x2 - x1) * (y2 - y1) * (z2 - z1) / 2 := by
    intro t ht tri htri
    rw [triangleAt_new sqrtf rnd m x1 y1 z1 x2 y2 z2 c hfit t ht] at htri
    rw [← Option.some.inj htri]
    exact boxTriangle_towardCentre x1 y1 z1 x2 y2 z2 t ht
  refine ⟨?_, ?_, ?_⟩
  · intro t ht
    refine ⟨boxTriangle x1 y1 z1 x2 y2 z2 t,
      triangleAt_new sqrtf rnd m x1 y1 z1 x2 y2 z2 c hfit t ht,
      boxTriangle_towardCentre x1 y1 z1 x2 y2 z2 t ht, _, ?_,
      boxTriangle_normal x1 y1 z1 x2 y2 z2 t ht⟩
    split_ifs
    · exact mul_ne_zero dx dz
    · exact mul_ne_zero dy dz
    · exact mul_ne_zero dx dy
  · constructor
    · intro h
      have h0 := h 0 (by decide) (boxTriangle x1 y1 z1 x2 y2 z2 0)
        (triangleAt_new sqrtf rnd m x1 y1 z1 x2 y2 z2 c hfit 0 (by decide))
      rw [boxTriangle_towardCentre x1 y1 z1 x2 y2 z2 0 (by decide)] at h0
      linarith
    · intro hpos t ht tri htri
      rw [hval t ht tri htri]
      linarith
  · intro hneg t ht tri htri
    rw [hval t ht tri htri]
    linarith

theorem AddSolidColorBox_orientation_witness :
    (0 : ℚ) < (0 - -18 / 10) * (7 / 10 - 8 / 10) * (0 - 1) ∧
    ∀ t, t < 12 → ∀ tri,
      triangleAt ((emptyModel ⟨0, 0, 0⟩ 3).AddSolidColorBox sqrtLower (fun _ => 0)
          (-18 / 10) (8 / 10) 1 0 (7 / 10) 0 { R := 128, G := 128, B := 0 })
        (emptyModel ⟨0, 0, 0⟩ 3).Indices.length t = some tri →
      0 < towardCentre (-18 / 10) (8 / 10) 1 0 (7 / 10) 0 tri :=
  ⟨by norm_num,
    (AddSolidColorBox_orientation sqrtLower (fun _ => 0) (emptyModel ⟨0, 0, 0⟩ 3)
      (-18 / 10) (8 / 10) 1 0 (7 / 10) 0 { R := 128, G := 128, B := 0 } (by decide)
      (by norm_num) (by norm_num) (by norm_num)).2.1.mpr (by norm_num)⟩

/-! ### The geometry of `Scene::Scene` (C17) -/

theorem toCalls_length (rnd : Nat → Nat) (first : Nat) (boxes : List Box) :
    (toCalls rnd first boxes).length = boxes.length := by
  induction boxes generalizing first with
  | nil => rfl
  | cons b rest ih => simp [toCalls, ih]

/-- The models and the frame counter that one frame leaves. -/
theorem frame_Models (env : Env) (s : AppState) (inp : FrameInput) :
    (frame env s inp).Models = animateCube env (s.appClock + 1) s.Models ∧
    (frame env s inp).appClock = s.appClock + 1 := by
  obtain ⟨-, -, -, ic, im⟩ := frameInput_spec s inp
  obtain ⟨-, -, -, -, uc, um, -⟩ := frameUpdate_spec env (frameInput s inp) inp
  obtain ⟨-, -, -, -, rc, rm, -⟩ :=
    frameRender_spec env (frameUpdate env (frameInput s inp) inp) inp
  unfold frame
  rw [rm, rc, um, uc, ic, im]
  exact ⟨rfl, rfl⟩

theorem runFrames_cons (env : Env) (inp : FrameInput) (rest : List FrameInput)
    (s : AppState) :
    runFrames env (inp :: rest) s = runFrames env rest (frame env s inp) := rfl

/-- After `n ≥ 1` frames the cube sits at the position of frame counter `n` later than
the start, and nothing else of any model has changed. -/
theorem runFrames_Models (env : Env) (inputs : List FrameInput) (s : AppState)
    (cube : Model) (rest : List Model) (hM : s.Models = cube :: rest) (hne : inputs ≠ []) :
    (runFrames env inputs s).Models
      = { cube with Pos := cubePosition env (s.appClock + inputs.length) } :: rest := by
  induction inputs generalizing s cube with
  | nil => exact absurd rfl hne
  | cons inp more ih =>
    obtain ⟨fm, fc⟩ := frame_Models env s inp
    rw [hM] at fm
    have fm' : (frame env s inp).Models
        = { cube with Pos := cubePosition env (s.appClock + 1) } :: rest := fm
    rw [runFrames_cons]
    cases more with
    | nil =>
      rw [show runFrames env [] (frame env s inp) = frame env s inp from rfl, fm']
      simp
    | cons inp2 more2 =>
      rw [ih (frame env s inp) _ fm' (List.cons_ne_nil _ _), fc]
      simp only [List.length_cons]
      push_cast
      congr 3
      ring

theorem circleEnv_on_circle (a : ℚ) : circleEnv.sinf a ^ 2 + circleEnv.cosf a ^ 2 = 1 := by
  have h : (1 + a ^ 2) ≠ 0 := by positivity
  simp only [circleEnv]
  field_simp
  ring

/-- C14: the scene that `Scene::Scene` builds is a list of five models whose first is
the cube, one box of 24 vertices and 36 indices.  A frame replaces the position of the
first model by `(9 sin(0.01 t), 3, 9 cos(0.01 t))`, `t` being the frame counter
`appClock` after its increment in that frame (`t = n` in the `n`-th frame of the loop),
and leaves the vertices, indices, rotation and texture of the first model and the whole
of every other model as they were.  The point has height 3 and, for a sine and cosine
with `sin² + cos² = 1`, lies on the circle of radius 9 around the vertical axis. -/
theorem only_cube_position_mutated (env : Env) :
    (∀ (sqrtf : ℚ → ℚ) (rnd : Nat → Nat), ∃ cube rest,
      SceneGeometry sqrtf rnd = cube :: rest ∧ rest.length = 4 ∧
      cube = (emptyModel ⟨0, 0, 0⟩ 2).AddSolidColorBox sqrtf (fun v => rnd (24 * 0 + v))
        0 0 0 1 1 1 ⟨64, 64, 64, 255⟩ ∧
      cube.Vertices.length = 24 ∧ cube.Indices.length = 36) ∧
    (∀ (s : AppState) (cube : Model) (rest : List Model) (inp : FrameInput),
      (frame env { s with Models := cube :: rest } inp).Models
        = { cube with Pos := cubePosition env (s.appClock + 1) } :: rest ∧
      (frame env { s with Models := cube :: rest } inp).appClock = s.appClock + 1) ∧
    (∀ (s : AppState) (cube : Model) (rest : List Model) (inputs : List FrameInput),
      inputs ≠ [] →
      (runFrames env inputs { s with appClock := 0, Models := cube :: rest }).Models
        = { cube with Pos := cubePosition env inputs.length } :: rest) ∧
    (∀ t : Int, cubePosition env t = ⟨9 * env.sinf (1 / 100 * t), 3, 9 * env.cosf (1 / 100 * t)⟩ ∧
      ((∀ a, env.sinf a ^ 2 + env.cosf a ^ 2 = 1) →
        (cubePosition env t).x ^ 2 + (cubePosition env t).z ^ 2 = 9 ^ 2)) := by
  refine ⟨?_, ?_, ?_, ?_⟩
  · intro sqrtf rnd
    have e : addBoxes sqrtf (emptyModel ⟨0, 0, 0⟩ 2) (toCalls rnd 0 movingBoxes)
        = (emptyModel ⟨0, 0, 0⟩ 2).AddSolidColorBox sqrtf (fun v => rnd (24 * 0 + v))
            0 0 0 1 1 1 ⟨64, 64, 64, 255⟩ := by
      simp only [movingBoxes, toCalls, addBoxes, List.foldl_cons, List.foldl_nil]
    refine ⟨_, _, rfl, rfl, e, ?_, ?_⟩
    · rw [e, AddSolidColorBox_Vertices, List.length_append, newVertices_length]
      rfl
    · rw [e, AddSolidColorBox_Indices, List.length_append, newIndices_length]
      rfl
  · intro s cube rest inp
    exact frame_Models env { s with Models := cube :: rest } inp
  · intro s cube rest inputs hne
    have h := runFrames_Models env inputs { s with appClock := 0, Models := cube :: rest }
      cube rest rfl hne
    simpa using h
  · intro t
    refine ⟨rfl, fun h => ?_⟩
    have ht := h (1 / 100 * t)
    simp only [cubePosition]
    linear_combination 81 * ht

/-! ### Instances -/

theorem AddSolidColorBox_texcoords_witness :
    ∃ v, ((emptyModel ⟨0, 0, 0⟩ 2).AddSolidColorBox sqrtLower (fun _ => 0) 0 0 0 1 1 1
            ⟨64, 64, 64, 255⟩).Vertices[(emptyModel ⟨0, 0, 0⟩ 2).Vertices.length + 9]?
          = some v ∧
      (v.U, v.V) = uvOfFace 9 v.Pos ∧ onFace 0 0 0 1 1 1 (9 / 4) v.Pos :=
  AddSolidColorBox_texcoords sqrtLower (fun _ => 0) (emptyModel ⟨0, 0, 0⟩ 2) 0 0 0 1 1 1
    ⟨64, 64, 64, 255⟩ 9 (by decide)

theorem addBoxes_mesh_valid_witness :
    24 * (toCalls (fun _ => 0) 1 wallBoxes).length ≤ 65536 ∧
    (addBoxes sqrtLower (emptyModel ⟨0, 0, 0⟩ 1)
      (toCalls (fun _ => 0) 1 wallBoxes)).Vertices.length = 72 ∧
    (addBoxes sqrtLower (emptyModel ⟨0, 0, 0⟩ 1)
      (toCalls (fun _ => 0) 1 wallBoxes)).Indices.length = 108 := by
  have hfit : 24 * (toCalls (fun _ => 0) 1 wallBoxes).length ≤ 65536 := by
    rw [toCalls_length]; decide
  obtain ⟨h1, h2, -, -⟩ := addBoxes_mesh_valid sqrtLower ⟨0, 0, 0⟩ 1
    (toCalls (fun _ => 0) 1 wallBoxes) hfit
  rw [toCalls_length] at h1 h2
  exact ⟨hfit, h1, h2⟩

/-! ### Mip-level reduction (C18) -/

/-- One inner iteration whose source pointer is not below its destination pointer
stores, in channel `c` of the destination pixel, the narrowed shifted sum of the four
source bytes as they were before the iteration, and changes no other byte. -/
theorem mipPixel_spec (wh psrc pdest : Nat) (data : Nat → Nat) (hsep : pdest ≤ psrc) :
    (∀ c, c < 4 → mipPixel wh psrc pdest data (pdest + c)
      = ((data (psrc + c) + data (psrc + (4 + c)) + data (psrc + (wh * 4 + c))
          + data (psrc + (wh * 4 + (4 + c)))) >>> 2) % 256) ∧
    (∀ o, (o < pdest ∨ pdest + 4 ≤ o) → mipPixel wh psrc pdest data o = data o) := by
  constructor
  · intro c hc
    interval_cases c <;>
      simp (disch := omega) only [mipPixel, Function.update_noteq, Function.update_same,
        Nat.add_zero]
  · intro o ho
    simp (disch := omega) only [mipPixel, Function.update_noteq]


/-- The four source bytes of the box filter as offsets from the source pointer of the
iteration. -/
theorem boxFilter_offsets (k : Nat) (orig : Nat → Nat) (i J c : Nat) :
    boxFilter (2 * k) orig i J c
      = (orig (4 * (2 * k * (2 * J) + 2 * i) + c)
          + orig (4 * (2 * k * (2 * J) + 2 * i) + (4 + c))
          + orig (4 * (2 * k * (2 * J) + 2 * i) + (2 * k * 4 + c))
          + orig (4 * (2 * k * (2 * J) + 2 * i) + (2 * k * 4 + (4 + c)))) / 4 := by
  unfold boxFilter pixelByte
  have e1 : 4 * (2 * k * (2 * J) + (2 * i + 1)) + c
      = 4 * (2 * k * (2 * J) + 2 * i) + (4 + c) := by ring
  have e2 : 4 * (2 * k * (2 * J + 1) + 2 * i) + c
      = 4 * (2 * k * (2 * J) + 2 * i) + (2 * k * 4 + c) := by ring
  have e3 : 4 * (2 * k * (2 * J + 1) + (2 * i + 1)) + c
      = 4 * (2 * k * (2 * J) + 2 * i) + (2 * k * 4 + (4 + c)) := by ring
  rw [e1, e2, e3]

/-- Destination pixels are written in increasing order of their offset. -/
theorem mip_lex (k J i J' i' : Nat) (hi' : i' < k)
    (h : J' < J ∨ (J' = J ∧ i' < i)) : k * J' + i' < k * J + i := by
  rcases h with h | ⟨rfl, h⟩
  · have : k * (J' + 1) ≤ k * J := Nat.mul_le_mul_left k h
    have e : k * (J' + 1) = k * J' + k := by ring
    omega
  · omega

/-- One inner iteration keeps the invariant. -/
theorem MipInv_step (k : Nat) (orig data : Nat → Nat) (J i : Nat)
    (hJ : J < k) (hi : i < k) (hbytes : ∀ o, o < 4 * (2 * k) * (2 * k) → orig o < 256)
    (h : MipInv (2 * k) orig data J i) :
    MipInv (2 * k) orig
      (mipPixel (2 * k) (4 * (2 * k * (2 * J) + 2 * i)) (4 * (k * J + i)) data)
      J (i + 1) := by
  have hk : 2 * k / 2 = k := Nat.mul_div_cancel_left k (by decide)
  unfold MipInv at h ⊢
  rw [hk] at h ⊢
  obtain ⟨hA, hB⟩ := h
  have e1 : 2 * k * (2 * J) = 4 * (k * J) := by ring
  have e2 : 4 * (2 * k) * (2 * k) = 16 * (k * k) := by ring
  have e3 : k * (J + 1) = k * J + k := by ring
  have hkk : k * (J + 1) ≤ k * k := Nat.mul_le_mul_left k hJ
  have hsep : 4 * (k * J + i) ≤ 4 * (2 * k * (2 * J) + 2 * i) := by omega
  obtain ⟨hw, hkeep⟩ := mipPixel_spec (2 * k) (4 * (2 * k * (2 * J) + 2 * i))
    (4 * (k * J + i)) data hsep
  refine ⟨?_, ?_⟩
  · intro o ho
    rw [hkeep o (Or.inr (by omega))]
    exact hA o (by omega)
  · intro J' i' c hi' hc hlt
    by_cases hcur : J' = J ∧ i' = i
    · obtain ⟨rfl, rfl⟩ := hcur
      rw [hw c hc, boxFilter_offsets,
        hA _ (by omega : 4 * (k * J' + i') ≤ 4 * (2 * k * (2 * J') + 2 * i') + c),
        hA _ (by omega : 4 * (k * J' + i') ≤ 4 * (2 * k * (2 * J') + 2 * i') + (4 + c)),
        hA _ (by omega : 4 * (k * J' + i')
          ≤ 4 * (2 * k * (2 * J') + 2 * i') + (2 * k * 4 + c)),
        hA _ (by omega : 4 * (k * J' + i')
          ≤ 4 * (2 * k * (2 * J') + 2 * i') + (2 * k * 4 + (4 + c))),
        Nat.shiftRight_eq_div_pow]
      have b1 := hbytes (4 * (2 * k * (2 * J') + 2 * i') + c) (by omega)
      have b2 := hbytes (4 * (2 * k * (2 * J') + 2 * i') + (4 + c)) (by omega)
      have b3 := hbytes (4 * (2 * k * (2 * J') + 2 * i') + (2 * k * 4 + c)) (by omega)
      have b4 := hbytes (4 * (2 * k * (2 * J') + 2 * i') + (2 * k * 4 + (4 + c))) (by omega)
      apply Nat.mod_eq_of_lt
      omega
    · have hlt' : J' < J ∨ (J' = J ∧ i' < i) := by omega
      have hl := mip_lex k J i J' i' hi' hlt'
      rw [hkeep _ (Or.inl (by omega))]
      exact hB J' i' c hi' hc hlt'

/-- The inner loop keeps the invariant: with too few iterations allowed it pauses
before iteration `i + fuel`, otherwise it is left after the row. -/
theorem mipRow_inv (k : Nat) (orig : Nat → Nat) (J : Nat) (hJ : J < k) (hmax : k ≤ 11585)
    (hbytes : ∀ o, o < 4 * (2 * k) * (2 * k) → orig o < 256) :
    ∀ (fuel i : Nat) (data : Nat → Nat), i ≤ k → MipInv (2 * k) orig data J i →
      (i + fuel < k → ∃ d,
        mipRow (2 * k) fuel i (4 * (2 * k * (2 * J) + 2 * i)) (4 * (k * J + i)) data
          = MipRun.paused d ∧ MipInv (2 * k) orig d J (i + fuel)) ∧
      (k ≤ i + fuel → ∃ d,
        mipRow (2 * k) fuel i (4 * (2 * k * (2 * J) + 2 * i)) (4 * (k * J + i)) data
          = MipRun.done d ∧ MipInv (2 * k) orig d J k) := by
  have hk : (2 * k) >>> 1 = k := by
    rw [Nat.shiftRight_eq_div_pow, pow_one]; exact Nat.mul_div_cancel_left k (by decide)
  have hfit : 2 * k * 4 + 7 ≤ INT_MAX := by unfold INT_MAX; omega
  intro fuel
  induction fuel with
  | zero =>
    intro i data hi h
    simp only [mipRow, hk]
    constructor
    · intro hlt
      exact ⟨data, by rw [if_pos (by omega : i < k)], h⟩
    · intro hge
      have e : i = k := by omega
      subst e
      exact ⟨data, by rw [if_neg (Nat.lt_irrefl _)], h⟩
  | succ fuel ih =>
    intro i data hi h
    simp only [mipRow, hk]
    by_cases hlt : i < k
    · rw [if_pos hlt, if_pos hfit]
      have e1 : 4 * (2 * k * (2 * J) + 2 * i) + 8 = 4 * (2 * k * (2 * J) + 2 * (i + 1)) := by
        ring
      have e2 : 4 * (k * J + i) + 4 = 4 * (k * J + (i + 1)) := by ring
      have e3 : i + (fuel + 1) = i + 1 + fuel := by omega
      rw [e1, e2, e3]
      exact ih (i + 1) _ hlt (MipInv_step k orig data J i hJ hlt hbytes h)
    · rw [if_neg hlt]
      have e : i = k := by omega
      subst e
      exact ⟨fun hc => absurd hc (by omega), fun _ => ⟨data, rfl, h⟩⟩

/-- The invariant after a row is the invariant before the next row. -/
theorem MipInv_next (k : Nat) (orig data : Nat → Nat) (J : Nat)
    (h : MipInv (2 * k) orig data J k) : MipInv (2 * k) orig data (J + 1) 0 := by
  have hk : 2 * k / 2 = k := Nat.mul_div_cancel_left k (by decide)
  unfold MipInv at h ⊢
  rw [hk] at h ⊢
  obtain ⟨hA, hB⟩ := h
  have e3 : k * (J + 1) = k * J + k := by ring
  refine ⟨fun o ho => hA o (by omega), ?_⟩
  intro J' i' c hi' hc hlt
  exact hB J' i' c hi' hc (by omega)

/-- The outer loop keeps the invariant, for widths whose offsets fit in `int`. -/
theorem mipRows_inv (k : Nat) (orig : Nat → Nat) (hmax : k ≤ 11585)
    (hbytes : ∀ o, o < 4 * (2 * k) * (2 * k) → orig o < 256) :
    ∀ (fuel J : Nat) (data : Nat → Nat), J ≤ k → MipInv (2 * k) orig data J 0 →
      (J + fuel < k → ∃ d, mipRows (2 * k) fuel (2 * J) data = MipRun.paused d ∧
        MipInv (2 * k) orig d (J + fuel) 0) ∧
      (k ≤ J + fuel → ∃ d, mipRows (2 * k) fuel (2 * J) data = MipRun.done d ∧
        MipInv (2 * k) orig d k 0) := by
  have hk : (2 * k) >>> 1 = k := by
    rw [Nat.shiftRight_eq_div_pow, pow_one]; exact Nat.mul_div_cancel_left k (by decide)
  have hm : 2 * k - 2 * k % 2 = 2 * k := by omega
  intro fuel
  induction fuel with
  | zero =>
    intro J data hJ h
    simp only [mipRows, hm]
    constructor
    · intro hlt
      exact ⟨data, by rw [if_pos (by omega : 2 * J < 2 * k)], h⟩
    · intro hge
      have e : J = k := by omega
      subst e
      exact ⟨data, by rw [if_neg (Nat.lt_irrefl _)], h⟩
  | succ fuel ih =>
    intro J data hJ h
    simp only [mipRows, hm]
    by_cases hlt : J < k
    · have hJ2 : (2 * J) >>> 1 = J := by
        rw [Nat.shiftRight_eq_div_pow, pow_one]; exact Nat.mul_div_cancel_left J (by decide)
      have hkJ : k * J ≤ 11585 * 11584 := Nat.mul_le_mul hmax (by omega)
      have e0 : 2 * k * (2 * J) = 4 * (k * J) := by ring
      have hfit : 2 * k * (2 * J) * 4 ≤ INT_MAX ∧ (2 * k) >>> 1 * (2 * J) >>> 1 * 4 ≤ INT_MAX := by
        rw [hk, hJ2]; unfold INT_MAX; omega
      rw [if_pos (by omega : 2 * J < 2 * k), if_pos hfit]
      have e1 : 2 * k * (2 * J) * 4 = 4 * (2 * k * (2 * J) + 2 * 0) := by ring
      have e2 : (2 * k) >>> 1 * (2 * J) >>> 1 * 4 = 4 * (k * J + 0) := by
        rw [hk, hJ2]; ring
      have e3 : 2 * J + 2 = 2 * (J + 1) := by ring
      have e4 : J + (fuel + 1) = J + 1 + fuel := by omega
      obtain ⟨d, hd, hinv⟩ :=
        (mipRow_inv k orig J hlt hmax hbytes (2 * k) 0 data (Nat.zero_le k) h).2 (by omega)
      rw [e1, e2, hd, e3, e4]
      exact ih (J + 1) d hlt (MipInv_next k orig d J hinv)
    · rw [if_neg (by omega : ¬ 2 * J < 2 * k)]
      have e : J = k := by omega
      subst e
      exact ⟨fun hc => absurd hc (by omega), fun _ => ⟨data, rfl, h⟩⟩

/-- The invariant holds before the first iteration. -/
theorem MipInv_init (wh : Nat) (data : Nat → Nat) : MipInv wh data data 0 0 := by
  refine ⟨fun o _ => rfl, ?_⟩
  intro J' i' c _ _ h
  omega

/-- The buffer at the start of an iteration satisfies the invariant. -/
theorem mipBefore_inv (k : Nat) (data : Nat → Nat) (hmax : k ≤ 11585)
    (hbytes : ∀ o, o < 4 * (2 * k) * (2 * k) → data o < 256) (J i : Nat)
    (hJ : J < k) (hi : i < k) :
    ∃ d, mipBefore (2 * k) data J i = MipRun.paused d ∧ MipInv (2 * k) data d J i := by
  have hk : (2 * k) >>> 1 = k := by
    rw [Nat.shiftRight_eq_div_pow, pow_one]; exact Nat.mul_div_cancel_left k (by decide)
  have hJ2 : (2 * J) >>> 1 = J := by
    rw [Nat.shiftRight_eq_div_pow, pow_one]; exact Nat.mul_div_cancel_left J (by decide)
  obtain ⟨d1, h1, hinv1⟩ :=
    (mipRows_inv k data hmax hbytes J 0 data (Nat.zero_le k) (MipInv_init _ data)).1 (by omega)
  have e0 : 0 + J = J := by omega
  have e00 : 2 * 0 = 0 := rfl
  rw [e0] at hinv1
  rw [e00] at h1
  obtain ⟨d2, h2, hinv2⟩ :=
    (mipRow_inv k data J hJ hmax hbytes i 0 d1 (Nat.zero_le k) hinv1).1 (by omega)
  have e1 : 2 * k * (2 * J) * 4 = 4 * (2 * k * (2 * J) + 2 * 0) := by ring
  have e2 : (2 * k) >>> 1 * (2 * J) >>> 1 * 4 = 4 * (k * J + 0) := by
    rw [hk, hJ2]; ring
  have e3 : 0 + i = i := by omega
  rw [e3] at hinv2
  refine ⟨d2, ?_, hinv2⟩
  unfold mipBefore
  rw [h1]
  simp only []
  rw [e1, e2]
  exact h2

/-- The pass ends with every destination pixel written. -/
theorem mipPass_inv (k : Nat) (data : Nat → Nat) (hmax : k ≤ 11585)
    (hbytes : ∀ o, o < 4 * (2 * k) * (2 * k) → data o < 256) :
    ∃ d, mipPass (2 * k) data = MipRun.done d ∧ MipInv (2 * k) data d k 0 := by
  obtain ⟨d, h1, hinv⟩ :=
    (mipRows_inv k data hmax hbytes (2 * k) 0 data (Nat.zero_le k) (MipInv_init _ data)).2
      (by omega)
  have e00 : 2 * 0 = 0 := rfl
  rw [e00] at h1
  exact ⟨d, h1, hinv⟩

/-- The inner loop does not use up `wh >> 1` or more allowed iterations. -/
theorem mipRow_not_paused (wh : Nat) :
    ∀ (fuel i psrc pdest : Nat) (data : Nat → Nat), wh >>> 1 ≤ i + fuel →
      ∀ d, mipRow wh fuel i psrc pdest data ≠ MipRun.paused d := by
  intro fuel
  induction fuel with
  | zero =>
    intro i psrc pdest data h d
    simp only [mipRow]
    rw [if_neg (by omega)]
    exact fun hc => MipRun.noConfusion hc
  | succ fuel ih =>
    intro i psrc pdest data h d
    simp only [mipRow]
    split_ifs
    · exact ih _ _ _ _ (by omega) d
    · exact fun hc => MipRun.noConfusion hc
    · exact fun hc => MipRun.noConfusion hc

/-- An outer iteration whose offset `wh * j0 * 4` does not fit in `int` is reached from
every earlier iteration of the same parity. -/
theorem mipRows_overflow (wh j0 : Nat) (hj0 : j0 < wh - wh % 2)
    (hover : ¬ wh * j0 * 4 ≤ INT_MAX) :
    ∀ (m fuel : Nat) (data : Nat → Nat), m < fuel → 2 * m ≤ j0 →
      mipRows wh fuel (j0 - 2 * m) data = MipRun.overflow := by
  intro m
  induction m with
  | zero =>
    intro fuel data hf _
    obtain ⟨f, rfl⟩ : ∃ f, fuel = f + 1 := ⟨fuel - 1, by omega⟩
    simp only [mipRows, Nat.mul_zero, Nat.sub_zero]
    rw [if_pos hj0, if_neg (fun hc => hover hc.1)]
  | succ m ih =>
    intro fuel data hf hm
    obtain ⟨f, rfl⟩ : ∃ f, fuel = f + 1 := ⟨fuel - 1, by omega⟩
    simp only [mipRows]
    rw [if_pos (by omega)]
    split_ifs
    · have e : j0 - 2 * (m + 1) + 2 = j0 - 2 * m := by omega
      rw [e]
      have hnp := mipRow_not_paused wh wh 0 (wh * (j0 - 2 * (m + 1)) * 4)
        (wh >>> 1 * (j0 - 2 * (m + 1)) >>> 1 * 4) data
        (by rw [Nat.shiftRight_eq_div_pow, pow_one]; omega)
      cases hr : mipRow wh wh 0 (wh * (j0 - 2 * (m + 1)) * 4)
        (wh >>> 1 * (j0 - 2 * (m + 1)) >>> 1 * 4) data with
      | done d => exact ih f d (by omega) (by omega)
      | paused d => exact absurd hr (hnp d)
      | overflow => rfl
    · rfl

/-- The floor of the mean of four values lies between their minimum and maximum. -/
theorem boxFilter_bounds (wh : Nat) (img : Nat → Nat) (i j c : Nat) :
    min (min (pixelByte wh img (2 * i) (2 * j) c) (pixelByte wh img (2 * i + 1) (2 * j) c))
        (min (pixelByte wh img (2 * i) (2 * j + 1) c)
          (pixelByte wh img (2 * i + 1) (2 * j + 1) c))
      ≤ boxFilter wh img i j c ∧
    boxFilter wh img i j c
      ≤ max (max (pixelByte wh img (2 * i) (2 * j) c) (pixelByte wh img (2 * i + 1) (2 * j) c))
          (max (pixelByte wh img (2 * i) (2 * j + 1) c)
            (pixelByte wh img (2 * i + 1) (2 * j + 1) c)) := by
  unfold boxFilter
  omega

/-- C18, as it fails for wide images: for the even width 23172 the pass reaches, in
its last outer iteration `j = 23170`, the `int` product `wh * j * 4 = 2147580960`,
which is larger than `INT_MAX = 2147483647`; the run has no defined result. -/
theorem mipPass_offset_overflow :
    2 ≤ 23172 ∧ 23172 % 2 = 0 ∧
    ¬ 23172 * 23170 * 4 ≤ INT_MAX ∧
    mipPass 23172 sampleImage = MipRun.overflow := by
  refine ⟨by decide, by decide, by decide, ?_⟩
  exact mipRows_overflow 23172 23170 (by decide) (by decide) 11585 23172 sampleImage
    (by decide) (by decide)

/-- C18: for every even width `wh` with `2 ≤ wh ≤ 23170` and every `wh × wh` RGBA image
of bytes in the buffer, one pass of the in-place mip reduction runs to its end without
overflow and is the 2x2 box filter of the image it started from: channel `c` of
destination pixel `(i, j)` ends as `⌊(a + b + c + d) / 4⌋` of that channel at the
source pixels `(2i, 2j)`, `(2i+1, 2j)`, `(2i, 2j+1)`, `(2i+1, 2j+1)`, which lies between
their minimum and maximum; the bytes behind the half-size image are left as they were;
and when an iteration begins, its source pointer is not below its destination pointer
and every byte from its destination pixel on, so every byte it or a later iteration
reads, still holds its original value. -/
theorem mipPass_box_filter (wh : Nat) (data : Nat → Nat) (hwh : 2 ≤ wh) (hmax : wh ≤ 23170)
    (heven : wh % 2 = 0) (hbytes : ∀ o, o < 4 * wh * wh → data o < 256) :
    ∃ d, mipPass wh data = MipRun.done d ∧
      (∀ i j c, i < wh / 2 → j < wh / 2 → c < 4 →
        d (4 * (wh / 2 * j + i) + c) = boxFilter wh data i j c ∧
        min (min (pixelByte wh data (2 * i) (2 * j) c)
              (pixelByte wh data (2 * i + 1) (2 * j) c))
            (min (pixelByte wh data (2 * i) (2 * j + 1) c)
              (pixelByte wh data (2 * i + 1) (2 * j + 1) c))
          ≤ d (4 * (wh / 2 * j + i) + c) ∧
        d (4 * (wh / 2 * j + i) + c)
          ≤ max (max (pixelByte wh data (2 * i) (2 * j) c)
                (pixelByte wh data (2 * i + 1) (2 * j) c))
              (max (pixelByte wh data (2 * i) (2 * j + 1) c)
                (pixelByte wh data (2 * i + 1) (2 * j + 1) c))) ∧
      (∀ o, 4 * (wh / 2 * (wh / 2)) ≤ o → d o = data o) ∧
      (∀ i j, i < wh / 2 → j < wh / 2 →
        4 * (wh / 2 * j + i) ≤ wh * (2 * j) * 4 + 8 * i ∧
        ∃ b, mipBefore wh data j i = MipRun.paused b ∧
          ∀ o, 4 * (wh / 2 * j + i) ≤ o → b o = data o) := by
  obtain ⟨k, rfl⟩ : ∃ k, wh = 2 * k := ⟨wh / 2, by omega⟩
  have hk : 2 * k / 2 = k := Nat.mul_div_cancel_left k (by decide)
  have hk' : k ≤ 11585 := by omega
  rw [hk]
  obtain ⟨d, hd, hinv⟩ := mipPass_inv k data hk' hbytes
  unfold MipInv at hinv
  rw [hk] at hinv
  refine ⟨d, hd, ?_, ?_, ?_⟩
  · intro i j c hi hj hc
    have hval := hinv.2 j i c hi hc (Or.inl hj)
    refine ⟨hval, ?_, ?_⟩
    · rw [hval]; exact (boxFilter_bounds _ _ _ _ _).1
    · rw [hval]; exact (boxFilter_bounds _ _ _ _ _).2
  · intro o ho
    exact hinv.1 o (by omega)
  · intro i j hi hj
    have e1 : 2 * k * (2 * j) = 4 * (k * j) := by ring
    refine ⟨by omega, ?_⟩
    obtain ⟨b, hb, hbinv⟩ := mipBefore_inv k data hk' hbytes j i hj hi
    unfold MipInv at hbinv
    rw [hk] at hbinv
    exact ⟨b, hb, hbinv.1⟩

/-- The theorem of C18 at the 4 × 4 test image: the blue channel of destination pixel
`(1, 1)` ends as 79, the floor of the mean of 29, 177, 109 and 1. -/
theorem mipPass_box_filter_witness :
    2 ≤ 4 ∧ 4 ≤ 23170 ∧ 4 % 2 = 0 ∧
    ∃ d, mipPass 4 sampleImage = MipRun.done d ∧
      d (4 * (4 / 2 * 1 + 1) + 2) = boxFilter 4 sampleImage 1 1 2 ∧
      boxFilter 4 sampleImage 1 1 2 = 79 := by
  obtain ⟨d, hd, hpix, -, -⟩ := mipPass_box_filter 4 sampleImage (by decide) (by decide)
    (by decide) (fun o _ => Nat.mod_lt _ (by decide))
  exact ⟨by decide, by decide, by decide, d, hd, (hpix 1 1 2 (by decide) (by decide)
    (by decide)).1, by decide⟩

/-! ### Index wrap and the triangles (counterexamples of C3 and C16) -/

/-- A triangle read off given entries of the index and vertex lists. -/
theorem triangleAt_of_entries (m : Model) (start t i0 i1 i2 : Nat) (v0 v1 v2 : Vertex)
    (h0 : m.Indices[start + 3 * t]? = some i0) (h1 : m.Indices[start + 3 * t + 1]? = some i1)
    (h2 : m.Indices[start + 3 * t + 2]? = some i2) (hv0 : m.Vertices[i0]? = some v0)
    (hv1 : m.Vertices[i1]? = some v1) (hv2 : m.Vertices[i2]? = some v2) :
    triangleAt m start t = some (v0.Pos, v1.Pos, v2.Pos) := by
  unfold triangleAt
  rw [h0, h1, h2]
  simp only
  rw [hv0, hv1, hv2]

/-- On the model of 65520 vertices the index triple of appended triangle 8 (cube
indices 16, 17, 19 plus offset 65520, narrowed to 16 bits) is 0, 1, 3: three of the old
vertices, all at the origin. -/
theorem wrapModel_triangle8 (sqrtf : ℚ → ℚ) (rnd : Nat → Nat) (x1 y1 z1 x2 y2 z2 : ℚ)
    (c : Color) :
    triangleAt (wrapModel.AddSolidColorBox sqrtf rnd x1 y1 z1 x2 y2 z2 c)
        wrapModel.Indices.length 8
      = some (⟨0, 0, 0⟩, ⟨0, 0, 0⟩, ⟨0, 0, 0⟩) := by
  have hl : wrapModel.Indices.length = 0 := by simp only [wrapModel, List.length_nil]
  have hI : (wrapModel.AddSolidColorBox sqrtf rnd x1 y1 z1 x2 y2 z2 c).Indices
      = newIndices 65520 := by
    rw [AddSolidColorBox_Indices]
    simp only [wrapModel, List.length_replicate, List.nil_append]
  have hV : (wrapModel.AddSolidColorBox sqrtf rnd x1 y1 z1 x2 y2 z2 c).Vertices
      = List.replicate 65520 ⟨⟨0, 0, 0⟩, ⟨some 0, some 0, some 0, 255⟩, 0, 0⟩
          ++ newVertices sqrtf rnd x1 y1 z1 x2 y2 z2 c := by
    rw [AddSolidColorBox_Vertices]
    simp only [wrapModel]
  have hget : ∀ i, i < 65520 →
      (wrapModel.AddSolidColorBox sqrtf rnd x1 y1 z1 x2 y2 z2 c).Vertices[i]?
        = some ⟨⟨0, 0, 0⟩, ⟨some 0, some 0, some 0, 255⟩, 0, 0⟩ := by
    intro i hi
    rw [hV, List.getElem?_append_left (by rw [List.length_replicate]; exact hi),
      List.getElem?_replicate]
    simp [hi]
  have i24 : (newIndices 65520)[24]? = some 0 := by decide
  have i25 : (newIndices 65520)[25]? = some 1 := by decide
  have i26 : (newIndices 65520)[26]? = some 3 := by decide
  exact triangleAt_of_entries _ _ 8 0 1 3 _ _ _
    (by rw [hl, hI]; exact i24) (by rw [hl, hI]; exact i25) (by rw [hl, hI]; exact i26)
    (hget 0 (by norm_num)) (hget 1 (by norm_num)) (hget 3 (by norm_num))

/-- C3 as stated fails: on a model that already holds 65520 vertices the box
`(0,0,0)-(1,1,1)` has `x1<x2`, `y1<y2`, `z1<z2`, yet the index triple of its triangle 8
(cube indices 16, 17, 19 plus offset 65520, narrowed to 16 bits: 0, 1, 3) names three
old vertices, all at the origin: the triangle is degenerate, and it does not lie on
face 4 and no other (its corners are on the faces `y = 0`, `x = 0` and `z = 0` at
once). -/
theorem AddSolidColorBox_winding_wraps :
    (0 : ℚ) < 1 ∧ wrapModel.Vertices.length = 65520 ∧
    ∃ tri,
      triangleAt (wrapModel.AddSolidColorBox sqrtLower (fun _ => 0) 0 0 0 1 1 1 {})
          wrapModel.Indices.length 8 = some tri ∧
      triNormal tri = ⟨0, 0, 0⟩ ∧
      ¬ (∀ f, f < 6 → (triOnFace 0 0 0 1 1 1 f tri ↔ f = 8 / 2)) := by
  refine ⟨by norm_num, by simp only [wrapModel, List.length_replicate], _,
    wrapModel_triangle8 _ _ 0 0 0 1 1 1 {}, ?_, ?_⟩
  · simp [triNormal, Vector3f.sub, Vector3f.cross]
  · intro h
    have h2 := (h 2 (by decide)).mp (by simp [triOnFace, onFace])
    exact absurd h2 (by decide)

/-- C16 as stated fails: on a model that already holds 65520 vertices the box
`(0,0,0)-(1,1,1)` has `(x2 - x1) (y2 - y1) (z2 - z1) = 1 > 0`, yet its triangle 8 is
made of three old vertices at the origin and is not front-facing toward the outside:
the scalar product of its normal with the direction to the box centre is 0, not
positive. -/
theorem AddSolidColorBox_orientation_wraps :
    (0 : ℚ) < (1 - 0) * (1 - 0) * (1 - 0) ∧ wrapModel.Vertices.length = 65520 ∧
    ∃ tri,
      triangleAt (wrapModel.AddSolidColorBox sqrtLower (fun _ => 0) 0 0 0 1 1 1 {})
          wrapModel.Indices.length 8 = some tri ∧
      towardCentre 0 0 0 1 1 1 tri = 0 ∧ ¬ 0 < towardCentre 0 0 0 1 1 1 tri := by
  have h : towardCentre 0 0 0 1 1 1 (⟨0, 0, 0⟩, ⟨0, 0, 0⟩, ⟨0, 0, 0⟩) = 0 := by
    simp [towardCentre, triNormal, boxCentre, Vector3f.sub, Vector3f.cross, Vector3f.dot]
  refine ⟨by norm_num, by simp only [wrapModel, List.length_replicate], _,
    wrapModel_triangle8 _ _ 0 0 0 1 1 1 {}, h, ?_⟩
  rw [h]
  exact lt_irrefl 0

end OculusD3D11
